import Mathlib

/-!
# snes9x unix port: input binding codec, keymap rebuild, frame pacing, rewind

A shallow embedding of `S9xMapInput`, `S9xGetPortCommandT`,
`S9xSetupDefaultKeymap`, `S9xSyncSpeed`, `S9xParseArg`, `S9xHandlePortCommand`
and the main loop of `main` from `unix/unix.cpp`, and of `S9xMapDisplayInput`,
`S9xGetDisplayCommandT` and `S9xProcessEvents` from `unix/x11.cpp`.

Conventions of the embedding:

* a C string is the list of its characters before the terminating NUL; reading
  index `length` yields the NUL;
* `int` / `unsigned` are 32 bits wide, `long` is 64 bits wide (LP64, the data
  model of the 64-bit unix targets this port is built for); a 32-bit value is
  kept as its bit pattern, a natural number below `2^32`;
* functions of `controls.cpp` (`S9xMapButton`, `S9xMapAxis`, `S9xMapPointer`,
  `S9xUnmapAllControls`, `S9xGetCommandT`) and the constants of `controls.h`
  and `snes9x.h` are parameters of the definitions that use them;
* the collaborators of the main loop outside the port (`Settings.Paused`,
  `IPPU.TotalEmulatedFrames`, `stateMan`, `S9xMainLoop`, the joypad accessors)
  are the fields of `Emulator`; a division by zero is the result `none`.
-/

namespace Snes9x

/-! ## Machine integers -/

/-- Conversion of a mathematical integer to a 32-bit object: its low 32 bits.
This is the conversion of a `long` to `int` or `unsigned` made by an
assignment. -/
def wrap32 (x : Int) : Nat := (x % 4294967296).toNat

/-- The value of a 32-bit pattern read as a signed `int` (two's complement). -/
def asInt32 (b : Nat) : Int := if b < 2147483648 then (b : Int) else (b : Int) - 4294967296

/-- `LONG_MAX` for a 64-bit `long`. -/
def LONG_MAX : Int := 9223372036854775807

/-- `LONG_MIN` for a 64-bit `long`. -/
def LONG_MIN : Int := -9223372036854775808

/-! ## C strings and the libc functions used by the source -/

/-- The NUL character that terminates a C string. -/
def NUL : Char := Char.ofNat 0

/-- `n[i]`: the character at index `i`; the terminator is read at `n.length`. -/
def charAt (n : List Char) (i : Nat) : Char := n.getD i NUL

/-- `!strncmp(s, lit, lit.length)` for a literal `lit` without NUL: the first
`lit.length` characters of `s` are those of `lit`. -/
def strncmpEq (s lit : List Char) : Bool := lit.isPrefixOf s

/-- `!strcmp(s, lit)`. -/
def strcmpEq (s lit : List Char) : Bool := s == lit

/-- `isdigit` of libc in the C locale. -/
def isdigit (c : Char) : Bool := decide ('0'.toNat ≤ c.toNat) && decide (c.toNat ≤ '9'.toNat)

/-- `isspace` of libc in the C locale: space, `\t`, `\n`, `\v`, `\f`, `\r`. -/
def isspace (c : Char) : Bool := c.toNat == 32 || (decide (9 ≤ c.toNat) && decide (c.toNat ≤ 13))

/-- The value of a run of decimal digits, most significant first. -/
def decVal (ds : List Char) : Nat := ds.foldl (fun a c => 10 * a + (c.toNat - '0'.toNat)) 0

/-- `strtol(s, &c, 10)`: skips white space, takes an optional sign and the
longest run of decimal digits; the result is clamped to `LONG_MIN..LONG_MAX`.
Returns the value and the text `c` points to; without any digit no conversion
is performed, the value is `0` and `c` is `s` itself. -/
def strtol (s : List Char) : Int × List Char :=
  let s1 := s.dropWhile isspace
  let neg := charAt s1 0 == '-'
  let s2 := if charAt s1 0 == '-' || charAt s1 0 == '+' then s1.drop 1 else s1
  let ds := s2.takeWhile isdigit
  if ds.isEmpty then (0, s)
  else
    let v : Int := (decVal ds : Int)
    let r : Int := if neg then (if -v < LONG_MIN then LONG_MIN else -v)
                   else (if LONG_MAX < v then LONG_MAX else v)
    (r, s2.dropWhile isdigit)

/-! ## `S9xMapInput` (unix.cpp) -/

/-- The call `S9xMapInput` ends with: every path of the function returns the
result of exactly one of these four calls. -/
inductive MapCall where
  /-- `return S9xMapPointer(id, *cmd, false)`. -/
  | S9xMapPointer (id : Nat)
  /-- `return S9xMapButton(id, *cmd, false)`. -/
  | S9xMapButton (id : Nat)
  /-- `return S9xMapAxis(id, *cmd, false)`. -/
  | S9xMapAxis (id : Nat)
  /-- `return S9xMapDisplayInput(n, cmd)` (label `unrecog`). -/
  | S9xMapDisplayInput
  deriving DecidableEq, Repr

/-- The address a call passes to `controls.cpp`, if it is a mapping call. -/
def MapCall.address? : MapCall → Option Nat
  | .S9xMapPointer id => some id
  | .S9xMapButton id => some id
  | .S9xMapAxis id => some id
  | .S9xMapDisplayInput => none

/-- The literal `"PseudoPointer"`. -/
def strPseudoPointer : List Char := ['P', 's', 'e', 'u', 'd', 'o', 'P', 'o', 'i', 'n', 't', 'e', 'r']

/-- The literal `"PseudoButton"`. -/
def strPseudoButton : List Char := ['P', 's', 'e', 'u', 'd', 'o', 'B', 'u', 't', 't', 'o', 'n']

/-- The literal `"Axis"`. -/
def strAxis : List Char := ['A', 'x', 'i', 's']

/-- The values `buf[1]` takes in `for (buf[1] = '1'; buf[1] <= '8'; buf[1]++)`. -/
def modifierDigits : List Char := ['1', '2', '3', '4', '5', '6', '7', '8']

/-- The modifier loop of `S9xMapInput`, run over the remaining values of
`buf[1]`, on the state `(d, i)`. -/
def modifierLoop (n : List Char) : List Char → Nat × Nat → Nat × Nat
  | [], st => st
  | b :: bs, (d, i) =>
    if strncmpEq (n.drop i) ['M', b, '+'] then
      modifierLoop n bs (d ||| (1 <<< (b.toNat - '1'.toNat + 16)), i + 3)
    else
      modifierLoop n bs (d, i)

/-- Lines 704-719: the `X+` prefix or the modifier loop, from `(d, i)`. -/
def scanModifiers (n : List Char) (d i : Nat) : Nat × Nat :=
  if strncmpEq (n.drop i) ['X', '+'] then (d ||| 0x4000, i + 2)
  else modifierLoop n modifierDigits (d, i)

/-- Lines 732-739: the element index is read by `strtol` at `n + i`, or-ed into
`d` and range-checked; then `d & 0x8000` selects the call. -/
def mapIndex (n : List Char) (d i : Nat) : MapCall :=
  let r := strtol (n.drop i)
  let j := wrap32 r.1
  let d1 := d ||| j
  if charAt r.2 0 != NUL || decide (0x3fff < asInt32 j) then .S9xMapDisplayInput
  else if d1 &&& 0x8000 != 0 then .S9xMapAxis d1
  else .S9xMapButton d1

/-- Lines 721-742: the element part `Axis<n>` or `B<n>` of a `J` descriptor,
from the state `(d, i)` left by the modifiers. -/
def mapElement (n : List Char) (d i : Nat) : MapCall :=
  if strncmpEq (n.drop i) strAxis then mapIndex n (d ||| 0x8000) (i + 4)
  else if charAt n i == 'B' then mapIndex n d (i + 1)
  else .S9xMapDisplayInput

/-- The test of line 692: `PseudoPointer`, one of `'1'..'8'`, end of string. -/
def isNativePseudoPointer (n : List Char) : Bool :=
  strncmpEq n strPseudoPointer && decide ('1'.toNat ≤ (charAt n 13).toNat)
    && decide ((charAt n 13).toNat ≤ '8'.toNat) && charAt n 14 == NUL

/-- The test of line 695: `PseudoButton`, a digit, `strtol` of the text from
index 12 stored in the `int j` below 256, and nothing left over. -/
def isNativePseudoButton (n : List Char) : Bool :=
  strncmpEq n strPseudoButton && isdigit (charAt n 12)
    && decide (asInt32 (wrap32 (strtol (n.drop 12)).1) < 256)
    && charAt (strtol (n.drop 12)).2 0 == NUL

/-- The negation of the test of line 698: `J`, two digits and `:`. -/
def hasJPrefix (n : List Char) : Bool :=
  charAt n 0 == 'J' && isdigit (charAt n 1) && isdigit (charAt n 2) && charAt n 3 == ':'

/-- `S9xMapInput(n, cmd)`: the call it ends with. `PseudoPointerBase` and
`PseudoButtonBase` are the constants of `controls.h`; an id is passed as a
`uint32`. -/
def S9xMapInputCall (PseudoPointerBase PseudoButtonBase : Nat) (n : List Char) : MapCall :=
  if isNativePseudoPointer n then
    .S9xMapPointer ((PseudoPointerBase + ((charAt n 13).toNat - '1'.toNat)) % 4294967296)
  else if isNativePseudoButton n then
    .S9xMapButton ((PseudoButtonBase + wrap32 (strtol (n.drop 12)).1) % 4294967296)
  else if !hasJPrefix n then
    .S9xMapDisplayInput
  else
    let d := ((((charAt n 1).toNat - '0'.toNat) * 10 + ((charAt n 2).toNat - '0'.toNat)) <<< 24)
              ||| 0x80000000
    let st := scanModifiers n d 4
    mapElement n st.1 st.2

/-! ## The descriptor grammar of the specification -/

/-- The character of the decimal digit `k`. -/
def decChar (k : Nat) : Char := Char.ofNat ('0'.toNat + k)

/-- The text of the modifier tokens `M<k>+`, in the listed order. -/
def modText : List Nat → List Char
  | [] => []
  | k :: ks => 'M' :: decChar k :: '+' :: modText ks

/-- The bits of the modifier tokens: the OR of `1 << (15 + k)`. -/
def modBits : List Nat → Nat
  | [] => 0
  | k :: ks => (1 <<< (15 + k)) ||| modBits ks

/-- The modifier part of a `J` descriptor: the prefix `X+`, or the tokens
`M<k>+` for the listed `k` (none for the empty part). -/
inductive ModPart where
  | X
  | M (ks : List Nat)
  deriving DecidableEq, Repr

/-- The text of a modifier part. -/
def ModPart.text : ModPart → List Char
  | .X => ['X', '+']
  | .M ks => modText ks

/-- The address bits of a modifier part. -/
def ModPart.bits : ModPart → Nat
  | .X => 0x4000
  | .M ks => modBits ks

/-- A modifier part of the grammar: `X+`, or tokens with `k` in `1..8` written
in increasing `k`. -/
def ModPart.Valid : ModPart → Prop
  | .X => True
  | .M ks => ks.Pairwise (· < ·) ∧ ∀ k ∈ ks, 1 ≤ k ∧ k ≤ 8

/-- The element kind of a `J` descriptor. -/
inductive ElemKind where
  | Axis
  | B
  deriving DecidableEq, Repr

/-- The text of an element kind. -/
def ElemKind.text : ElemKind → List Char
  | .Axis => strAxis
  | .B => ['B']

/-- The discriminant bit of an element kind. -/
def ElemKind.bit : ElemKind → Nat
  | .Axis => 0x8000
  | .B => 0

/-- A run of decimal digits, as the grammar writes an element index. -/
def IsNumeral (ds : List Char) : Prop := ds ≠ [] ∧ ∀ c ∈ ds, isdigit c = true

/-- The descriptor `J<dd>:<modifiers><kind><n>`; `dd` is written with two
decimal digits and `ds` is the text of the element index. -/
def jDescriptor (dd : Nat) (m : ModPart) (k : ElemKind) (ds : List Char) : List Char :=
  'J' :: decChar (dd / 10) :: decChar (dd % 10) :: ':' :: (m.text ++ (k.text ++ ds))

/-- The address the specification assigns to a `J` descriptor. -/
def jAddress (dd : Nat) (m : ModPart) (k : ElemKind) (n : Nat) : Nat :=
  0x80000000 ||| (dd <<< 24) ||| m.bits ||| k.bit ||| n

/-- The call the specification expects for a `J` descriptor. -/
def jCall (k : ElemKind) (addr : Nat) : MapCall :=
  match k with
  | .Axis => .S9xMapAxis addr
  | .B => .S9xMapButton addr

/-- The tokens the modifier loop takes when its remaining iterations are `js`
and the text holds the tokens `ks`: a token is taken at the iteration of its
own `k`, and only the token at the front can be taken. -/
def takenTokens : List Nat → List Nat → List Nat
  | [], _ => []
  | _ :: _, [] => []
  | j :: js, k :: ks => if k = j then k :: takenTokens js ks else takenTokens js (k :: ks)

/-- The tokens of a modifier part all have `k` in `1..8`. -/
def ModPart.InRange : ModPart → Prop
  | .X => True
  | .M ks => ∀ k ∈ ks, 1 ≤ k ∧ k ≤ 8

/-- The selection of the call by `d & 0x8000`. -/
def callOf (e : Nat) : MapCall :=
  if e &&& 0x8000 != 0 then .S9xMapAxis e else .S9xMapButton e

/-- The index at which the element part of a `J` descriptor starts: the value
of `i` after lines 703-719. -/
def elementStart (n : List Char) : Nat := (scanModifiers n 0 4).2

/-! ## Commands and the collaborators of `controls.cpp` -/

/-- The values of `s9xcommand_t::type` the port names; the values given to the
other mappings by `controls.h` are `other`. -/
inductive CmdType where
  | S9xBadMapping
  | S9xButtonPort
  | S9xAxisPort
  | S9xPointerPort
  | other (code : Nat)
  deriving DecidableEq, Repr

/-- The fields of `s9xcommand_t` the port reads and writes: `type`, the two
flags and the bytes `port[0..3]`. -/
structure s9xcommand_t where
  type : CmdType
  multi_press : Nat
  button_norpt : Nat
  port0 : Nat
  port1 : Nat
  port2 : Nat
  port3 : Nat
  deriving DecidableEq, Repr

/-- The functions and constants of `controls.cpp` / `controls.h` that the port
calls, over a binding table of type `T`. The mapping functions return their
`bool` result and the table they leave; their argument `poll` is always
`false` here. -/
structure Controls (T : Type) where
  PseudoPointerBase : Nat
  PseudoButtonBase : Nat
  S9xMapPointer : Nat → s9xcommand_t → T → Bool × T
  S9xMapButton : Nat → s9xcommand_t → T → Bool × T
  S9xMapAxis : Nat → s9xcommand_t → T → Bool × T
  S9xUnmapAllControls : T → T
  S9xGetCommandT : List Char → s9xcommand_t

/-- `S9xMapDisplayInput` (x11.cpp): `return (false)`. -/
def S9xMapDisplayInput (_n : List Char) (_cmd : s9xcommand_t) : Bool := false

/-- `S9xGetDisplayCommandT` (x11.cpp). -/
def S9xGetDisplayCommandT (_n : List Char) : s9xcommand_t :=
  { type := .S9xBadMapping, multi_press := 0, button_norpt := 0,
    port0 := 0xff, port1 := 0, port2 := 0, port3 := 0 }

/-- `S9xMapInput(n, cmd)` on the binding table `t`: the result and the table
left by the call the function ends with. -/
def S9xMapInput {T : Type} (ctl : Controls T) (n : List Char) (cmd : s9xcommand_t) (t : T) :
    Bool × T :=
  match S9xMapInputCall ctl.PseudoPointerBase ctl.PseudoButtonBase n with
  | .S9xMapPointer id => ctl.S9xMapPointer id cmd t
  | .S9xMapButton id => ctl.S9xMapButton id cmd t
  | .S9xMapAxis id => ctl.S9xMapAxis id cmd t
  | .S9xMapDisplayInput => (S9xMapDisplayInput n cmd, t)

/-- The literal `" Meta"`. -/
def strMeta : List Char := [' ', 'M', 'e', 't', 'a']

/-- The literal `" ToggleMeta"`. -/
def strToggleMeta : List Char := [' ', 'T', 'o', 'g', 'g', 'l', 'e', 'M', 'e', 't', 'a']

/-- The literal `"Rewind"`. -/
def strRewind : List Char := ['R', 'e', 'w', 'i', 'n', 'd']

/-- The literal `"Advance"`. -/
def strAdvance : List Char := ['A', 'd', 'v', 'a', 'n', 'c', 'e']

/-- Whether a character is one of `'1'..'8'`. -/
def is1to8 (c : Char) : Bool := decide ('1'.toNat ≤ c.toNat) && decide (c.toNat ≤ '8'.toNat)

/-- `S9xGetPortCommandT(n)` (unix.cpp). The bytes `port[2]`, `port[3]` are
`uint8`; the shifted value is stored modulo 256. The `ToggleMeta` branch tests
`n[14]` and shifts by `n[13] - '1'`, as the source does. -/
def S9xGetPortCommandT (n : List Char) : s9xcommand_t :=
  let cmd : s9xcommand_t :=
    { type := .S9xBadMapping, multi_press := 0, button_norpt := 0,
      port0 := 0, port1 := 0, port2 := 0, port3 := 0 }
  if strncmpEq n ['J', 'S'] && is1to8 (charAt n 2) then
    if strncmpEq (n.drop 3) strMeta && is1to8 (charAt n 8) && charAt n 9 == NUL then
      { cmd with type := .S9xButtonPort, port1 := 0,
                 port2 := (charAt n 2).toNat - '1'.toNat,
                 port3 := (1 <<< ((charAt n 8).toNat - '1'.toNat)) % 256 }
    else if strncmpEq (n.drop 3) strToggleMeta && is1to8 (charAt n 14) && charAt n 15 == NUL then
      { cmd with type := .S9xButtonPort, port1 := 1,
                 port2 := (charAt n 2).toNat - '1'.toNat,
                 port3 := (1 <<< ((charAt n 13).toNat - '1'.toNat)) % 256 }
    else S9xGetDisplayCommandT n
  else if strcmpEq n strRewind then
    { cmd with type := .S9xButtonPort, port1 := 2 }
  else if strcmpEq n strAdvance then
    { cmd with type := .S9xButtonPort, port1 := 3 }
  else S9xGetDisplayCommandT n

/-- The command name `JS<p> Meta<k>` for the characters `p` and `k`. -/
def metaName (p k : Char) : List Char := ['J', 'S', p] ++ strMeta ++ [k]

/-- The command name `JS<p> ToggleMeta<k>` for the characters `p` and `k`. -/
def toggleMetaName (p k : Char) : List Char := ['J', 'S', p] ++ strToggleMeta ++ [k]

/-- The shift count `n[13] - '1'` of the `ToggleMeta` branch of
`S9xGetPortCommandT`. -/
def toggleShiftCount (n : List Char) : Nat := (charAt n 13).toNat - '1'.toNat

/-- The button-port command with `port[0] = 0` and the given `port[1..3]`. -/
def buttonPort (port1 port2 port3 : Nat) : s9xcommand_t :=
  { type := .S9xButtonPort, multi_press := 0, button_norpt := 0,
    port0 := 0, port1 := port1, port2 := port2, port3 := port3 }

/-! ## `S9xSetupDefaultKeymap` (unix.cpp) -/

/-- The messages `S9xSetupDefaultKeymap` passes to `perror`. -/
inductive Diagnostic where
  /-- `"Unrecognized command '" + second + "'"`. -/
  | unrecognizedCommand (command : List Char)
  /-- `"Could not map '" + second + "' to '" + first + "'"`. -/
  | couldNotMap (command descriptor : List Char)
  deriving DecidableEq, Repr

/-- One iteration of the loop of `S9xSetupDefaultKeymap` on the pair
`(first, second)`: the table it leaves and the message it reports, if any. -/
def keymapIteration {T : Type} (ctl : Controls T) (first second : List Char) (t : T) :
    T × Option Diagnostic :=
  let cmd := S9xGetPortCommandT second
  if cmd.type = .S9xBadMapping then
    let cmd1 := ctl.S9xGetCommandT second
    if cmd1.type = .S9xBadMapping then (t, some (.unrecognizedCommand second))
    else
      let r := S9xMapInput ctl first cmd1 t
      if !r.1 then (r.2, some (.couldNotMap second first)) else (r.2, none)
  else
    let r := S9xMapInput ctl first cmd t
    if !r.1 then (r.2, some (.couldNotMap second first)) else (r.2, none)

/-- The `for` loop of `S9xSetupDefaultKeymap` over the remaining pairs: the
final table and what each iteration reported, in order. -/
def keymapLoop {T : Type} (ctl : Controls T) :
    List (List Char × List Char) → T → T × List (Option Diagnostic)
  | [], t => (t, [])
  | p :: ps, t =>
    let r := keymapIteration ctl p.1 p.2 t
    let rest := keymapLoop ctl ps r.1
    (rest.1, r.2 :: rest.2)

/-- The state `S9xSetupDefaultKeymap` leaves: the binding table, the list
`keymaps`, and the messages passed to `perror`, in order. -/
structure KeymapResult (T : Type) where
  table : T
  keymaps : List (List Char × List Char)
  diagnostics : List Diagnostic

/-- `S9xSetupDefaultKeymap()` on the list `keymaps` and the binding table `t`. -/
def S9xSetupDefaultKeymap {T : Type} (ctl : Controls T)
    (keymaps : List (List Char × List Char)) (t : T) : KeymapResult T :=
  let r := keymapLoop ctl keymaps (ctl.S9xUnmapAllControls t)
  { table := r.1, keymaps := [], diagnostics := r.2.filterMap id }

/-- The command a command text resolves to: by `S9xGetPortCommandT`, or else
by `S9xGetCommandT`; `none` when both answer `S9xBadMapping`. -/
def resolveCommand {T : Type} (ctl : Controls T) (second : List Char) : Option s9xcommand_t :=
  if (S9xGetPortCommandT second).type = .S9xBadMapping then
    if (ctl.S9xGetCommandT second).type = .S9xBadMapping then none
    else some (ctl.S9xGetCommandT second)
  else some (S9xGetPortCommandT second)

/-- The pairs a run of the loop of `S9xSetupDefaultKeymap` reports nothing for,
in order: the pairs it inserts. -/
def insertedPairs {T : Type} (ctl : Controls T) :
    List (List Char × List Char) → T → List (List Char × List Char)
  | [], _ => []
  | p :: ps, t =>
    if (keymapIteration ctl p.1 p.2 t).2 = none then
      p :: insertedPairs ctl ps (keymapIteration ctl p.1 p.2 t).1
    else insertedPairs ctl ps (keymapIteration ctl p.1 p.2 t).1

/-- A mapping function of `controls.cpp` leaves the binding table as it was
when it answers `false`. -/
def FailureKeepsTable {T : Type} (f : Nat → s9xcommand_t → T → Bool × T) : Prop :=
  ∀ id cmd t, (f id cmd t).1 = false → (f id cmd t).2 = t

/-! ## `S9xSyncSpeed` (unix.cpp) -/

/-- `struct timeval`: seconds and microseconds, both signed 64-bit. -/
structure timeval where
  tv_sec : Int
  tv_usec : Int
  deriving DecidableEq, Repr

/-- `timercmp(&a, &b, <)`. -/
def timercmpLt (a b : timeval) : Bool :=
  if a.tv_sec = b.tv_sec then decide (a.tv_usec < b.tv_usec) else decide (a.tv_sec < b.tv_sec)

/-- `timercmp(&a, &b, >)`. -/
def timercmpGt (a b : timeval) : Bool :=
  if a.tv_sec = b.tv_sec then decide (a.tv_usec > b.tv_usec) else decide (a.tv_sec > b.tv_sec)

/-- The time of a `timeval` in microseconds. -/
def timeval.micros (a : timeval) : Int := a.tv_sec * 1000000 + a.tv_usec

/-- The globals `S9xSyncSpeed` reads and writes: the fields of `Settings` and
`IPPU` it uses (the counters are `uint32`) and its static `next1`. -/
structure SyncState where
  SoundSync : Bool
  DumpStreams : Bool
  HighSpeedSeek : Nat
  TurboMode : Bool
  TurboSkipFrames : Nat
  SkipFrames : Nat
  FrameTime : Nat
  FrameSkip : Nat
  SkippedFrames : Nat
  RenderThisFrame : Bool
  next1 : timeval
  deriving DecidableEq, Repr

/-- What one call of `S9xSyncSpeed` leaves: the globals, the arguments of its
`usleep` calls in order, whether line 660 (`next1 = now`, the lag resync) was
executed, and the wall-clock samples not yet read. -/
structure SyncOut where
  state : SyncState
  sleeps : List Nat
  resync : Bool
  clock : List timeval
  deriving DecidableEq, Repr

/-- Lines 667-675: the wait loop on the deadline `next1`, entered with the sample
`now`; every further `gettimeofday` reads the next sample of `clock`. Returns
the `usleep` arguments and the unread samples, or `none` when the samples run
out while the deadline is still ahead. -/
def waitLoop (next1 : timeval) : timeval → List timeval → Option (List Nat × List timeval)
  | now, clock =>
    if timercmpGt next1 now then
      match clock with
      | [] => none
      | s :: rest =>
        match waitLoop next1 s rest with
        | none => none
        | some (sl, c) =>
          some (wrap32 ((next1.tv_sec - now.tv_sec) * 1000000 + next1.tv_usec - now.tv_usec)
                  :: sl, c)
    else some ([], clock)

/-- Lines 678-683: the deadline advanced by `FrameTime`, the carry moved into
the seconds. -/
def advance (next1 : timeval) (FrameTime : Nat) : timeval :=
  let usec := next1.tv_usec + (FrameTime : Int)
  if usec ≥ 1000000 then
    { tv_sec := next1.tv_sec + usec.tdiv 1000000, tv_usec := usec.tmod 1000000 }
  else { tv_sec := next1.tv_sec, tv_usec := usec }

/-- Lines 610-611: `Settings.HighSpeedSeek` counted down. -/
def afterSeek (st : SyncState) : SyncState :=
  if st.HighSpeedSeek > 0 then { st with HighSpeedSeek := st.HighSpeedSeek - 1 } else st

/-- Lines 615-627: the turbo branch. -/
def turboPacing (st : SyncState) : SyncState :=
  let fs := (st.FrameSkip + 1) % 4294967296
  if decide (fs ≥ st.TurboSkipFrames) && st.HighSpeedSeek == 0 then
    { st with FrameSkip := 0, SkippedFrames := 0, RenderThisFrame := true }
  else
    { st with FrameSkip := fs, SkippedFrames := (st.SkippedFrames + 1) % 4294967296,
              RenderThisFrame := false }

/-- Lines 636-640: the deadline a normal-pacing call works with: `next1`,
initialised from the sample `now` when `next1.tv_sec` is zero. -/
def deadlineAt (st : SyncState) (now : timeval) : timeval :=
  if st.next1.tv_sec = 0 then { tv_sec := now.tv_sec, tv_usec := now.tv_usec + 1 }
  else st.next1

/-- Line 644: the bound `limit` for the deadline `next1` and the sample `now`. -/
def skipLimit (AUTO_FRAMERATE : Nat) (st : SyncState) (next1 now : timeval) : Nat :=
  if st.SkipFrames = AUTO_FRAMERATE then (if timercmpLt next1 now then 10 else 1)
  else st.SkipFrames

/-- Line 646: the render decision `++IPPU.SkippedFrames >= limit`. -/
def renderDecision (AUTO_FRAMERATE : Nat) (st : SyncState) (now : timeval) : Bool :=
  decide ((st.SkippedFrames + 1) % 4294967296
    ≥ skipLimit AUTO_FRAMERATE st (deadlineAt st now) now)

/-- Lines 648-663: whether line 660, `next1 = now`, is executed: the frame is not
rendered, the deadline is before `now`, and the `unsigned lag` is at least
500000. -/
def lagResync (AUTO_FRAMERATE : Nat) (st : SyncState) (now : timeval) : Bool :=
  !renderDecision AUTO_FRAMERATE st now && timercmpLt (deadlineAt st now) now
    && decide (wrap32 ((now.tv_sec - (deadlineAt st now).tv_sec) * 1000000
        + now.tv_usec - (deadlineAt st now).tv_usec) ≥ 500000)

/-- The deadline the wait loop of a normal-pacing call waits for. -/
def waitDeadline (AUTO_FRAMERATE : Nat) (st : SyncState) (now : timeval) : timeval :=
  if lagResync AUTO_FRAMERATE st now then now else deadlineAt st now

/-- Lines 630-684: normal pacing, on the sample `now` of line 633 and the
samples `clock1` that follow it. -/
def normalPacing (AUTO_FRAMERATE : Nat) (st : SyncState) (now : timeval)
    (clock1 : List timeval) : Option SyncOut :=
  match waitLoop (waitDeadline AUTO_FRAMERATE st now) now clock1 with
  | none => none
  | some (sl, clock2) =>
    some { state := { st with
                        RenderThisFrame := renderDecision AUTO_FRAMERATE st now,
                        SkippedFrames := if renderDecision AUTO_FRAMERATE st now then 0
                                         else (st.SkippedFrames + 1) % 4294967296,
                        next1 := advance (waitDeadline AUTO_FRAMERATE st now) st.FrameTime },
           sleeps := sl, resync := lagResync AUTO_FRAMERATE st now, clock := clock2 }

/-- `S9xSyncSpeed()` on the globals `st`, with the wall clock given by the list
of the samples successive `gettimeofday` calls return. `AUTO_FRAMERATE` is the
constant of `snes9x.h`. The result is `none` when the samples run out before
the call returns. -/
def S9xSyncSpeed (AUTO_FRAMERATE : Nat) (st : SyncState) (clock : List timeval) :
    Option SyncOut :=
  if st.SoundSync then some { state := st, sleeps := [], resync := false, clock := clock }
  else if st.DumpStreams then some { state := st, sleeps := [], resync := false, clock := clock }
  else if (afterSeek st).TurboMode then
    some { state := turboPacing (afterSeek st), sleeps := [], resync := false, clock := clock }
  else
    match clock with
    | [] => none
    | now :: clock1 => normalPacing AUTO_FRAMERATE (afterSeek st) now clock1

/-- The settings under which `S9xSyncSpeed` paces normally. -/
def NormalPacing (st : SyncState) : Prop :=
  st.SoundSync = false ∧ st.DumpStreams = false ∧ st.TurboMode = false

/-- Consecutive calls of `S9xSyncSpeed`, each on the globals and the unread
samples the previous one left: what each of the `n` calls leaves, in order. -/
def syncTicks (AUTO_FRAMERATE : Nat) : Nat → SyncState → List timeval → Option (List SyncOut)
  | 0, _, _ => some []
  | n + 1, st, clock =>
    match S9xSyncSpeed AUTO_FRAMERATE st clock with
    | none => none
    | some o =>
      match syncTicks AUTO_FRAMERATE n o.state o.clock with
      | none => none
      | some os => some (o :: os)

/-! ## The binding table of the specification -/

/-- Modelled from the spec: the active binding table kept by `controls.cpp`
(not part of the port's sources), "an ordered collection keyed by
InputAddress; later insertions for the same address overwrite earlier ones". -/
abbrev BindingTable := List (Nat × s9xcommand_t)

/-- Modelled from the spec: `S9xMapButton`, `S9xMapAxis` and `S9xMapPointer` of
`controls.cpp` as the insertion of one BindingTableEntry, which overwrites an
earlier entry for the same address. -/
def bindingInsert (id : Nat) (cmd : s9xcommand_t) (t : BindingTable) : Bool × BindingTable :=
  (true, t.filter (fun e => e.1 != id) ++ [(id, cmd)])

/-- Modelled from the spec: the collaborators of `controls.cpp` over the
binding table above. The pseudo-devices "occupy reserved, non-overlapping
sub-ranges" at the top of the address space: 8 pointers below the invalid id
`0xFFFFFFFF` and 256 buttons below them; `S9xUnmapAllControls` clears the
table; the command-name resolver knows no name of its own. -/
def specControls : Controls BindingTable where
  PseudoPointerBase := 0xFFFFFFF7
  PseudoButtonBase := 0xFFFFFEF7
  S9xMapPointer := bindingInsert
  S9xMapButton := bindingInsert
  S9xMapAxis := bindingInsert
  S9xUnmapAllControls := fun _ => []
  S9xGetCommandT := S9xGetDisplayCommandT

/-! ## The decoder of the specification -/

/-- The decimal numeral of `n`, written without leading zeros; `fuel` bounds
the number of digits after the first. -/
def decimalFuel : Nat → Nat → List Char
  | 0, n => [decChar (n % 10)]
  | fuel + 1, n =>
    if n < 10 then [decChar n] else decimalFuel fuel (n / 10) ++ [decChar (n % 10)]

/-- The decimal numeral of `n`. -/
def decimal (n : Nat) : List Char := decimalFuel n n

/-- The modifier tokens whose bit `15 + k` is set in the address `a`, in
increasing `k`. -/
def modifiersOf (a : Nat) : List Nat :=
  [1, 2, 3, 4, 5, 6, 7, 8].filter (fun k => a.testBit (15 + k))

/-- Modelled from the spec: `decode(addr: InputAddress) -> string` of the
InputBindingCodec; no function under src/ turns an address into a descriptor.
An address in one of the two pseudo ranges is written `PseudoPointer<1-8>` or
`PseudoButton<0-255>`. Any other address is written as a `J` descriptor from
its fields: the device index (6 bits from bit 24, "device index 0-63") with
two digits, then the "modifier tokens before the element token", "`X+`
preferred over enumerating `M` bits when the single reserved discriminant bit
is set" (bit 14), then `Axis` when the axis discriminant (bit 15) is set and
`B` otherwise, then the element index (the low 14 bits, "<= 0x3FFF"). -/
def decode (PseudoPointerBase PseudoButtonBase a : Nat) : List Char :=
  if PseudoPointerBase ≤ a ∧ a < PseudoPointerBase + 8 then
    strPseudoPointer ++ [decChar (a - PseudoPointerBase + 1)]
  else if PseudoButtonBase ≤ a ∧ a < PseudoButtonBase + 256 then
    strPseudoButton ++ decimal (a - PseudoButtonBase)
  else
    jDescriptor (a / 16777216 % 64)
      (if a.testBit 14 then .X else .M (modifiersOf a))
      (if a.testBit 15 then .Axis else .B)
      (decimal (a % 16384))

/-- The pseudo ranges lie above the `J` addresses of the grammar and do not
overlap: the layout of `controls.h`. -/
def PseudoLayout (PseudoPointerBase PseudoButtonBase : Nat) : Prop :=
  0xC0000000 ≤ PseudoButtonBase ∧ PseudoButtonBase + 256 ≤ PseudoPointerBase ∧
    PseudoPointerBase + 8 ≤ 4294967296

/-! ## The main loop of `main` (unix.cpp) -/

/-- A call on the `StateManager` object `stateMan` issued by `main`. -/
inductive StateManCall where
  /-- `stateMan.init(bytes)`. -/
  | init (bytes : Nat)
  /-- `stateMan.push()`. -/
  | push
  /-- `stateMan.pop()`. -/
  | pop
  deriving DecidableEq, Repr

/-- The file-scope variables of unix.cpp that `S9xParseArg` and the main loop
read and write: the statics `rewinding` and `frame_advance`, the two rewind
fields of `unixSettings` (both `uint32`), and whether `play_smv_filename` and
`record_smv_filename` are set. -/
structure PortState where
  rewinding : Bool
  frame_advance : Int
  rewindBufferSize : Nat
  rewindGranularity : Nat
  play_smv : Bool
  record_smv : Bool
  deriving DecidableEq, Repr

/-- Lines 93, 1034-1039 of `main`: the values before the arguments are parsed. -/
def initialPort : PortState :=
  { rewinding := false, frame_advance := 0, rewindBufferSize := 0, rewindGranularity := 1,
    play_smv := false, record_smv := false }

/-- `atoi` of libc: `(int) strtol(s, NULL, 10)`. -/
def atoi (s : List Char) : Int := asInt32 (wrap32 (strtol s).1)

/-- `!strcasecmp(a, b)`: equality up to the case of ASCII letters. -/
def strcasecmpEq (a b : List Char) : Bool := a.map Char.toLower == b.map Char.toLower

/-- What a call of `S9xParseArg` ends with: it returns with the index `i` and
the variables it left, or it has called `S9xUsage()`, or it has passed the
null pointer `argv[argc]` to `atoi`. -/
inductive ArgResult where
  | parsed (i : Nat) (p : PortState)
  | usage
  | nullArgument
  deriving DecidableEq, Repr

/-- An option of `S9xParseArg` that takes one value and stores it in a variable
that is not part of `PortState`. -/
def valueOptions : List (List Char) :=
  [['-', 'c', 'a', 'r', 't', 'a'], ['-', 'c', 'a', 'r', 't', 'b'],
   ['-', 'b', 'u', 'f', 'f', 'e', 'r', 's', 'i', 'z', 'e'],
   ['-', 'f', 'r', 'a', 'g', 'm', 'e', 'n', 't', 's', 'i', 'z', 'e'],
   ['-', 's', 'o', 'u', 'n', 'd', 'd', 'e', 'v'],
   ['-', 'l', 'o', 'a', 'd', 's', 'n', 'a', 'p', 's', 'h', 'o', 't']]

/-- `S9xParseArg(argv, i, argc)` as far as `PortState` goes, with `argc` the
length of `argv`. The branches are tested in the order of the source; a value
is stored in a `uint32` field by the conversion of the `int` that `atoi`
returns. `-dumpmaxframes` reads its value without the test of `argc`: as the
last argument it hands `argv[argc]`, the null pointer, to `atoi`. The last
branch is `S9xParseDisplayArg` (x11.cpp), whose body is empty. -/
def S9xParseArg (argv : List (List Char)) (i : Nat) (p : PortState) : ArgResult :=
  let a := argv.getD i []
  if strcasecmpEq a ['-', 'm', 'u', 'l', 't', 'i'] then .parsed i p
  else if valueOptions.any (strcasecmpEq a) then
    if i + 1 < argv.length then .parsed (i + 1) p else .usage
  else if strcasecmpEq a ['-', 'p', 'l', 'a', 'y', 'm', 'o', 'v', 'i', 'e'] then
    if i + 1 < argv.length then .parsed (i + 1) { p with play_smv := true } else .usage
  else if strcasecmpEq a ['-', 'r', 'e', 'c', 'o', 'r', 'd', 'm', 'o', 'v', 'i', 'e'] then
    if i + 1 < argv.length then .parsed (i + 1) { p with record_smv := true } else .usage
  else if strcasecmpEq a ['-', 'd', 'u', 'm', 'p', 's', 't', 'r', 'e', 'a', 'm', 's'] then
    .parsed i p
  else if strcasecmpEq a ['-', 'd', 'u', 'm', 'p', 'm', 'a', 'x', 'f', 'r', 'a', 'm', 'e', 's'] then
    if i + 1 < argv.length then .parsed (i + 1) p else .nullArgument
  else if strcasecmpEq a ['-', 'r', 'w', 'b', 'u', 'f', 'f', 'e', 'r', 's', 'i', 'z', 'e'] then
    if i + 1 < argv.length then
      .parsed (i + 1) { p with rewindBufferSize := wrap32 (atoi (argv.getD (i + 1) [])) }
    else .usage
  else if strcasecmpEq a ['-', 'r', 'w', 'g', 'r', 'a', 'n', 'u', 'l', 'a', 'r', 'i', 't', 'y'] then
    if i + 1 < argv.length then
      .parsed (i + 1) { p with rewindGranularity := wrap32 (atoi (argv.getD (i + 1) [])) }
    else .usage
  else .parsed i p

/-- Lines 1153-1177 of `main`: the call of `stateMan.init`, made only when no
movie is played or recorded and `rewindBufferSize` is not zero; the size is a
`uint32` product. -/
def startupStateManCalls (p : PortState) : List StateManCall :=
  if p.play_smv then []
  else if p.record_smv then []
  else if p.rewindBufferSize != 0 then [.init ((p.rewindBufferSize * 1024 * 1024) % 4294967296)]
  else []

/-- A command handed to `S9xHandlePortCommand` with its two data words. -/
abbrev PortCommand := s9xcommand_t × Int × Int

/-- The collaborators of the main loop outside unix.cpp, over the state `E` of
the emulator: `Settings.Paused`, `IPPU.TotalEmulatedFrames`, the joypad
accessors of the core, `stateMan.push()` (its result is not used),
`stateMan.pop()` with its result, and the calls `S9xMainLoop()` and
`S9xSetSoundMute(mute)`. `S9xMainLoop` also yields the commands the core hands
to `S9xHandlePortCommand` while it runs. -/
structure Emulator (E : Type) where
  Paused : E → Bool
  TotalEmulatedFrames : E → Nat
  MovieGetJoypad : Nat → E → Nat
  MovieSetJoypad : Nat → Nat → E → E
  push : E → E
  pop : E → Bool × E
  S9xMainLoop : E → E × List PortCommand
  S9xSetSoundMute : Bool → E → E

/-- `S9xHandlePortCommand(cmd, data1, data2)` (unix.cpp): the body is empty. -/
def S9xHandlePortCommand (_cmd : s9xcommand_t) (_data1 _data2 : Int) (p : PortState) :
    PortState := p

/-- `S9xProcessEvents(block)` (x11.cpp): the body is empty. -/
def S9xProcessEvents {E : Type} (_block : Bool) (s : PortState × E) : PortState × E := s

/-- `LogSpecialMemory()` (unix.cpp): the body is a comment. -/
def LogSpecialMemory {E : Type} (s : PortState × E) : PortState × E := s

/-- The commands of one collaborator call handed to `S9xHandlePortCommand`, in
order. -/
def handlePortCommands (cmds : List PortCommand) (p : PortState) : PortState :=
  cmds.foldl (fun q c => S9xHandlePortCommand c.1 c.2.1 c.2.2 q) p

/-- Lines 1197-1199: `for (i = 0; i < 8; i++) MovieSetJoypad(i, joypads[i])`. -/
def restoreJoypads {E : Type} (em : Emulator E) (joypads : List Nat) (e : E) : E :=
  (List.range 8).foldl (fun x i => em.MovieSetJoypad i (joypads.getD i 0) x) e

/-- Lines 1190-1202: the rewind logic of one iteration that is not paused. The
result is `none` when `rewindGranularity` is zero and the test of line 1201 is
reached: the `%` is a division by zero. -/
def rewindStep {E : Type} (em : Emulator E) (p : PortState) (e : E) :
    Option (PortState × E × List StateManCall) :=
  if p.rewinding then
    let joypads := (List.range 8).map (fun i => em.MovieGetJoypad i e)
    let r := em.pop e
    some ({ p with rewinding := r.1 }, restoreJoypads em joypads r.2, [.pop])
  else if p.rewindGranularity = 0 then none
  else if em.TotalEmulatedFrames e % p.rewindGranularity = 0 then some (p, em.push e, [.push])
  else some (p, e, [])

/-- Lines 1208-1233: the rest of an iteration, after the block of line 1188;
`usleep(100000)` touches none of the variables. -/
def pausedPart {E : Type} (em : Emulator E) (p : PortState) (e : E) : PortState × E :=
  let s1 : PortState × E :=
    if em.Paused e && p.frame_advance != 0 then
      ({ handlePortCommands (em.S9xMainLoop e).2 p with frame_advance := 0 }, (em.S9xMainLoop e).1)
    else (p, e)
  let e2 := if em.Paused s1.2 then em.S9xSetSoundMute true s1.2 else s1.2
  let s3 : PortState × E :=
    if em.Paused e2 then S9xProcessEvents false (s1.1, e2) else (s1.1, e2)
  let s4 : PortState × E := S9xProcessEvents false s3
  (s4.1, if !em.Paused s4.2 then em.S9xSetSoundMute false s4.2 else s4.2)

/-- One iteration of the `while (1)` loop of `main`: the variables and the
emulator state it leaves and the `stateMan` calls it issues, or `none` when it
divides by zero. -/
def mainLoopIteration {E : Type} (em : Emulator E) (p : PortState) (e : E) :
    Option (PortState × E × List StateManCall) :=
  if !em.Paused e then
    match rewindStep em p e with
    | none => none
    | some (p1, e1, calls) =>
      let s0 := LogSpecialMemory (p1, e1)
      let s := pausedPart em (handlePortCommands (em.S9xMainLoop s0.2).2 s0.1)
        (em.S9xMainLoop s0.2).1
      some (s.1, s.2, calls)
  else
    let s := pausedPart em p e
    some (s.1, s.2, [])

/-- The first `n` iterations of the main loop: what they leave and all the
`stateMan` calls they issue, in order. -/
def mainLoop {E : Type} (em : Emulator E) : Nat → PortState → E →
    Option (PortState × E × List StateManCall)
  | 0, p, e => some (p, e, [])
  | n + 1, p, e =>
    match mainLoopIteration em p e with
    | none => none
    | some (p1, e1, calls) =>
      match mainLoop em n p1 e1 with
      | none => none
      | some (p2, e2, calls2) => some (p2, e2, calls ++ calls2)

/-! ## An emulator for concrete runs -/

/-- Modelled from the spec: the state of the collaborators of the main loop:
the pause flag, the frame counter, the joypad state of the 8 controller ports,
and the history buffer as the list of the joypad states captured, newest
first; a port without an entry in `joypads` reads 0. -/
structure SpecEmu where
  paused : Bool
  frames : Nat
  joypads : List Nat
  history : List (List Nat)
  deriving DecidableEq, Repr

/-- Modelled from the spec: the collaborators of the main loop. `push` captures
the current state; `pop` restores the newest captured state and answers
whether "more history remains"; `S9xMainLoop` emulates one frame and hands
no command to the port; `S9xSetSoundMute` changes nothing of this state. -/
def specEmulator : Emulator SpecEmu where
  Paused := fun e => e.paused
  TotalEmulatedFrames := fun e => e.frames
  MovieGetJoypad := fun i e => e.joypads.getD i 0
  MovieSetJoypad := fun i v e =>
    { e with joypads := (List.range 8).map (fun j => if j = i then v else e.joypads.getD j 0) }
  push := fun e => { e with history := e.joypads :: e.history }
  pop := fun e =>
    match e.history with
    | [] => (false, e)
    | h :: t => (!t.isEmpty, { e with joypads := h, history := t })
  S9xMainLoop := fun e => ({ e with frames := e.frames + 1 }, [])
  S9xSetSoundMute := fun _ e => e

/-- A running emulator at frame 10 with one captured state. -/
def exampleEmu : SpecEmu :=
  { paused := false, frames := 10, joypads := [1, 2, 3, 4, 5, 6, 7, 8],
    history := [[0, 0, 0, 0, 0, 0, 0, 0]] }

/-- The same emulator, paused. -/
def pausedEmu : SpecEmu := { exampleEmu with paused := true }

/-- The joypad values `joypads[0..7]` read at lines 1193-1194. -/
def joypadSnapshot {E : Type} (em : Emulator E) (e : E) : List Nat :=
  (List.range 8).map (fun i => em.MovieGetJoypad i e)

/-! ## Concrete inputs -/

/-- Two well-formed pairs around a malformed one. -/
def exampleKeymaps : List (List Char × List Char) :=
  [(['J', '0', '0', ':', 'B', '0'], ['J', 'S', '1', ' ', 'M', 'e', 't', 'a', '1']),
   (['J', '0', ':', 'B', '1'], ['J', 'S', '1', ' ', 'M', 'e', 't', 'a', '2']),
   (['J', '0', '0', ':', 'A', 'x', 'i', 's', '1'], strRewind)]

/-- The settings and the initial globals of `main`: `SkipFrames` is
`AUTO_FRAMERATE`, for which the concrete runs take the value 200,
`TurboSkipFrames = 15`, `FrameTime` is the NTSC frame time 16667, and there is
no deadline yet. -/
def initialSync : SyncState :=
  { SoundSync := false, DumpStreams := false, HighSpeedSeek := 0, TurboMode := false,
    TurboSkipFrames := 15, SkipFrames := 200, FrameTime := 16667, FrameSkip := 0,
    SkippedFrames := 0, RenderThisFrame := false, next1 := { tv_sec := 0, tv_usec := 0 } }

/-- The `timeval` of a time given in microseconds. -/
def ofMicros (m : Int) : timeval := { tv_sec := m / 1000000, tv_usec := m % 1000000 }

/-- A wall clock on which `n` calls starting at `t0` microseconds never lag: the
first call reads `t0` and, after its sleep, `t0 + 1`; each later call reads the
deadline it finds. -/
def pacedClock (t0 : Int) (ft n : Nat) : List timeval :=
  ofMicros t0 :: ofMicros (t0 + 1)
    :: (List.range (n - 1)).map (fun k => ofMicros (t0 + 1 + ((k : Int) + 1) * ft))

/-- What 600 calls leave on the paced clock that starts one microsecond before
second 1700000001, with the initial globals of `main`. -/
def pacedRun : List SyncOut :=
  (syncTicks 200 600 initialSync (pacedClock 1700000000999999 16667 600)).getD []

/-- The initial globals of `main` with the deadline set to second 100. -/
def laggingSync : SyncState := { initialSync with next1 := { tv_sec := 100, tv_usec := 0 } }

/-- The initial globals of `main` with sound sync on and the render decision
`false`. -/
def soundSyncState : SyncState := { initialSync with SoundSync := true, RenderThisFrame := false }

/-- The settings under which a call of `S9xSyncSpeed` takes the turbo branch
with `HighSpeedSeek` at 0. -/
def TurboPacing (st : SyncState) : Prop :=
  st.SoundSync = false ∧ st.DumpStreams = false ∧ st.TurboMode = true ∧ st.HighSpeedSeek = 0

/-- A `timeval` as `gettimeofday` returns it: `0 <= tv_usec < 1000000`. -/
def timeval.Normal (s : timeval) : Prop := 0 ≤ s.tv_usec ∧ s.tv_usec < 1000000

/-- The argument of `usleep` at line 671 for the deadline `d` and the sample `s`:
the remaining time in microseconds, stored in an `unsigned`. -/
def sleepRequest (d s : timeval) : Nat := wrap32 (d.micros - s.micros)

/-- The initial globals of `main` with the deadline set to second 5000. -/
def aheadSync : SyncState := { initialSync with next1 := { tv_sec := 5000, tv_usec := 0 } }

/-- What the call two seconds past the deadline `{100, 0}` leaves. -/
def laggingOut : SyncOut :=
  { state := { laggingSync with SkippedFrames := 1, RenderThisFrame := false,
                                next1 := { tv_sec := 102, tv_usec := 16667 } },
    sleeps := [], resync := true, clock := [] }

/-- The initial globals of `main` in turbo mode with `TurboSkipFrames = 3`. -/
def turboSync : SyncState := { initialSync with TurboMode := true, TurboSkipFrames := 3 }

/-! ## Facts about the libc model -/

theorem isdigit_toNat {c : Char} (h : isdigit c = true) : 48 ≤ c.toNat ∧ c.toNat ≤ 57 := by
  simpa [isdigit] using h

theorem isspace_of_isdigit {c : Char} (h : isdigit c = true) : isspace c = false := by
  have h1 := isdigit_toNat h
  simp only [isspace, Bool.or_eq_false_iff, Bool.and_eq_false_imp, beq_eq_false_iff_ne,
    decide_eq_true_eq, decide_eq_false_iff_not]
  omega

theorem ne_of_toNat_ne {c e : Char} (h : c.toNat ≠ e.toNat) : (c == e) = false := by
  rw [beq_eq_false_iff_ne]
  intro hce
  exact h (by rw [hce])

theorem takeWhile_isdigit {ds : List Char} (h : ∀ c ∈ ds, isdigit c = true) :
    ds.takeWhile isdigit = ds := by
  induction ds with
  | nil => rfl
  | cons c t ih =>
    have hc := h c (List.mem_cons_self _ _)
    simp only [List.takeWhile_cons, hc, if_true]
    rw [ih (fun x hx => h x (List.mem_cons_of_mem _ hx))]

theorem dropWhile_isdigit {ds : List Char} (h : ∀ c ∈ ds, isdigit c = true) :
    ds.dropWhile isdigit = [] := by
  induction ds with
  | nil => rfl
  | cons c t ih =>
    have hc := h c (List.mem_cons_self _ _)
    simp only [List.dropWhile_cons, hc, if_true]
    exact ih (fun x hx => h x (List.mem_cons_of_mem _ hx))

/-- On a numeral `strtol` converts all of it: the value is the numeral's,
clamped to `LONG_MAX`, and nothing is left over. -/
theorem strtol_numeral {ds : List Char} (h : IsNumeral ds) :
    strtol ds = (if LONG_MAX < (decVal ds : Int) then LONG_MAX else (decVal ds : Int), []) := by
  obtain ⟨hne, hd⟩ := h
  obtain ⟨c, t, rfl⟩ := List.exists_cons_of_ne_nil hne
  have hc := hd c (List.mem_cons_self _ _)
  have hcn := isdigit_toNat hc
  have hsp := isspace_of_isdigit hc
  have hm : (c == '-') = false := ne_of_toNat_ne (by have : ('-').toNat = 45 := rfl; omega)
  have hp : (c == '+') = false := ne_of_toNat_ne (by have : ('+').toNat = 43 := rfl; omega)
  have h0 : charAt (c :: t) 0 = c := rfl
  simp only [strtol, List.dropWhile_cons, hsp, h0, hm, hp, Bool.or_self, if_false,
    takeWhile_isdigit hd, dropWhile_isdigit hd, Bool.false_eq_true, List.isEmpty_cons]

/-! ## The modifier loop -/

theorem decChar_toNat {k : Nat} (h : k ≤ 9) : (decChar k).toNat = 48 + k := by
  interval_cases k <;> rfl

theorem decChar_beq {j k : Nat} (hj : j ≤ 9) (hk : k ≤ 9) : (decChar j == decChar k) = decide (j = k) := by
  by_cases h : j = k
  · subst h; simp
  · rw [decide_eq_false h]
    apply ne_of_toNat_ne
    rw [decChar_toNat hj, decChar_toNat hk]; omega

theorem isdigit_decChar {k : Nat} (h : k ≤ 9) : isdigit (decChar k) = true := by
  interval_cases k <;> rfl

theorem modifierDigits_eq : modifierDigits = [1, 2, 3, 4, 5, 6, 7, 8].map decChar := by
  rfl

theorem modifierLoop_text (tail : List Char)
    (htail : ∀ b, strncmpEq tail ['M', b, '+'] = false) :
    ∀ (js ks : List Nat) (d : Nat) (pre : List Char),
      (∀ j ∈ js, 1 ≤ j ∧ j ≤ 8) → (∀ k ∈ ks, 1 ≤ k ∧ k ≤ 8) →
      modifierLoop (pre ++ (modText ks ++ tail)) (js.map decChar) (d, pre.length)
        = (d ||| modBits (takenTokens js ks), pre.length + 3 * (takenTokens js ks).length) := by
  intro js
  induction js with
  | nil => intro ks d pre _ _; simp [modifierLoop, takenTokens, modBits]
  | cons j js ih =>
    intro ks d pre hjs hks
    have hj := hjs j (List.mem_cons_self _ _)
    have hjs' : ∀ x ∈ js, 1 ≤ x ∧ x ≤ 8 := fun x hx => hjs x (List.mem_cons_of_mem _ hx)
    cases ks with
    | nil =>
      have := ih [] d pre hjs' hks
      simp only [modText, List.nil_append] at this ⊢
      simp only [List.map_cons, modifierLoop, List.drop_left, htail, Bool.false_eq_true, if_false,
        this]
      cases js <;> simp [takenTokens]
    | cons k ks =>
      have hk := hks k (List.mem_cons_self _ _)
      have hks' : ∀ x ∈ ks, 1 ≤ x ∧ x ≤ 8 := fun x hx => hks x (List.mem_cons_of_mem _ hx)
      have hpre : strncmpEq (List.drop pre.length (pre ++ (modText (k :: ks) ++ tail)))
          ['M', decChar j, '+'] = decide (j = k) := by
        simp [strncmpEq, modText, List.isPrefixOf, decChar_beq (by omega : j ≤ 9) (by omega : k ≤ 9)]
      simp only [List.map_cons, modifierLoop, hpre]
      by_cases hjk : j = k
      · subst hjk
        have h3 := ih ks (d ||| 1 <<< ((decChar j).toNat - '1'.toNat + 16))
          (pre ++ ['M', decChar j, '+']) hjs' hks'
        have hb : (decChar j).toNat - '1'.toNat + 16 = 15 + j := by
          rw [decChar_toNat (by omega)]
          have : ('1').toNat = 49 := rfl
          omega
        simp only [List.length_append, List.length_cons, List.length_nil, List.append_assoc,
          List.cons_append, List.nil_append, hb] at h3
        simp only [decide_True, if_true, modText, List.cons_append, hb, h3, takenTokens,
          modBits, List.length_cons, Nat.or_assoc]
        congr 1
        omega
      · have h3 := ih (k :: ks) d pre hjs' hks
        have hkj : ¬ k = j := fun h => hjk h.symm
        simp only [decide_eq_false hjk, Bool.false_eq_true, if_false, h3, takenTokens, hkj]

theorem takenTokens_prefix : ∀ (js ks : List Nat), ∃ rest, ks = takenTokens js ks ++ rest := by
  intro js
  induction js with
  | nil => intro ks; exact ⟨ks, by simp [takenTokens]⟩
  | cons j js ih =>
    intro ks
    cases ks with
    | nil => exact ⟨[], by simp [takenTokens]⟩
    | cons k ks =>
      by_cases h : k = j
      · obtain ⟨r, hr⟩ := ih ks
        refine ⟨r, ?_⟩
        simp only [takenTokens, h, if_true, List.cons_append]
        rw [← hr]
      · obtain ⟨r, hr⟩ := ih (k :: ks)
        exact ⟨r, by simpa only [takenTokens, h, if_false] using hr⟩

theorem takenTokens_length_le (js ks : List Nat) : (takenTokens js ks).length ≤ ks.length := by
  obtain ⟨r, hr⟩ := takenTokens_prefix js ks
  have := congrArg List.length hr
  simp only [List.length_append] at this
  omega

/-- Tokens written in increasing order, each with an iteration of its own, are
all taken. -/
theorem takenTokens_sorted : ∀ (js ks : List Nat), js.Pairwise (· < ·) → ks.Pairwise (· < ·) →
    (∀ k ∈ ks, k ∈ js) → takenTokens js ks = ks := by
  intro js
  induction js with
  | nil =>
    intro ks _ _ hsub
    cases ks with
    | nil => rfl
    | cons k ks => exact absurd (hsub k (List.mem_cons_self _ _)) (List.not_mem_nil _)
  | cons j js ih =>
    intro ks hjs hks hsub
    rw [List.pairwise_cons] at hjs
    cases ks with
    | nil => rfl
    | cons k ks =>
      rw [List.pairwise_cons] at hks
      by_cases h : k = j
      · subst h
        simp only [takenTokens, if_true]
        rw [ih ks hjs.2 hks.2]
        intro x hx
        have h1 := hsub x (List.mem_cons_of_mem _ hx)
        have h2 := hks.1 x hx
        rcases List.mem_cons.1 h1 with h3 | h3
        · omega
        · exact h3
      · simp only [takenTokens, h, if_false]
        have hkjs : k ∈ js := by
          rcases List.mem_cons.1 (hsub k (List.mem_cons_self _ _)) with h3 | h3
          · exact absurd h3 h
          · exact h3
        have hjk := hjs.1 k hkjs
        apply ih (k :: ks) hjs.2 (List.pairwise_cons.2 hks)
        intro x hx
        have h1 := hsub x hx
        rcases List.mem_cons.1 h1 with h3 | h3
        · rcases List.mem_cons.1 hx with h4 | h4
          · omega
          · have := hks.1 x h4; omega
        · exact h3

/-- The loop takes all the tokens only if they are written in increasing order. -/
theorem sorted_of_takenTokens : ∀ (js ks : List Nat), js.Pairwise (· < ·) →
    takenTokens js ks = ks → ks.Pairwise (· < ·) ∧ ∀ k ∈ ks, k ∈ js := by
  intro js
  induction js with
  | nil =>
    intro ks _ h
    cases ks with
    | nil => simp
    | cons k ks => simp [takenTokens] at h
  | cons j js ih =>
    intro ks hjs h
    rw [List.pairwise_cons] at hjs
    cases ks with
    | nil => simp
    | cons k ks =>
      by_cases hk : k = j
      · subst hk
        simp only [takenTokens, if_true, List.cons.injEq, true_and] at h
        obtain ⟨h1, h2⟩ := ih ks hjs.2 h
        refine ⟨List.pairwise_cons.2 ⟨fun x hx => hjs.1 x (h2 x hx), h1⟩, ?_⟩
        intro x hx
        rcases List.mem_cons.1 hx with h3 | h3
        · rw [h3]; exact List.mem_cons_self _ _
        · exact List.mem_cons_of_mem _ (h2 x h3)
      · simp only [takenTokens, hk, if_false] at h
        obtain ⟨h1, h2⟩ := ih (k :: ks) hjs.2 h
        exact ⟨h1, fun x hx => List.mem_cons_of_mem _ (h2 x hx)⟩

/-! ## Address arithmetic -/

theorem or_low (p a b i : Nat) (hp : p = 2 ^ i) (hb : b < p) : p * a ||| b = p * a + b := by
  subst hp
  exact (Nat.mul_add_lt_is_or hb a).symm

theorem and_bit15 (e : Nat) : (e &&& 0x8000 != 0) = decide (e / 32768 % 2 = 1) := by
  have h : e &&& 0x8000 = if e.testBit 15 then 32768 else 0 := by
    apply Nat.eq_of_testBit_eq
    intro i
    have h2 : (32768 : Nat) = 2 ^ 15 := by norm_num
    rw [Nat.testBit_and]
    by_cases hb : e.testBit 15 = true
    · simp only [hb, if_true]
      rw [h2, Nat.testBit_two_pow]
      by_cases hi : 15 = i
      · subst hi; simp [hb]
      · simp [hi]
    · simp only [hb, if_false, Bool.false_eq_true]
      rw [h2, Nat.testBit_two_pow]
      by_cases hi : 15 = i
      · subst hi; simp [hb]
      · simp [hi]
  rw [h, ← Nat.testBit_to_div_mod (x := e) (i := 15)]
  by_cases hb : e.testBit 15 = true <;> simp [hb]

theorem testBit_modBits (ks : List Nat) (i : Nat) :
    (modBits ks).testBit i = true ↔ ∃ k ∈ ks, i = 15 + k := by
  induction ks with
  | nil => simp [modBits]
  | cons k ks ih =>
    simp only [modBits, Nat.testBit_or, Bool.or_eq_true, ih, Nat.one_shiftLeft,
      Nat.testBit_two_pow, decide_eq_true_eq, List.mem_cons, exists_eq_or_imp]
    constructor
    · rintro (h | h)
      · exact Or.inl h.symm
      · exact Or.inr h
    · rintro (h | h)
      · exact Or.inl h.symm
      · exact Or.inr h

theorem modBits_lt {ks : List Nat} (h : ∀ k ∈ ks, 1 ≤ k ∧ k ≤ 8) : modBits ks < 2 ^ 24 := by
  induction ks with
  | nil => simp [modBits]
  | cons k ks ih =>
    have hk := h k (List.mem_cons_self _ _)
    refine Nat.or_lt_two_pow ?_ (ih (fun x hx => h x (List.mem_cons_of_mem _ hx)))
    rw [Nat.one_shiftLeft]
    exact Nat.pow_lt_pow_right (by norm_num) (by omega)

theorem modBits_mod {ks : List Nat} (h : ∀ k ∈ ks, 1 ≤ k ∧ k ≤ 8) : modBits ks % 2 ^ 16 = 0 := by
  apply Nat.eq_of_testBit_eq
  intro i
  rw [Nat.testBit_mod_two_pow, Nat.zero_testBit]
  by_cases hi : i < 16
  · have : (modBits ks).testBit i = false := by
      rw [← Bool.not_eq_true, testBit_modBits]
      rintro ⟨k, hk, hik⟩
      have := h k hk
      omega
    simp [this]
  · simp [hi]

/-- The modifier bits of tokens with `k` in `1..8` lie in bits 16-23. -/
theorem modBits_field {ks : List Nat} (h : ∀ k ∈ ks, 1 ≤ k ∧ k ≤ 8) :
    ∃ q, q < 256 ∧ modBits ks = 65536 * q := by
  have h1 := modBits_lt h
  have h2 := modBits_mod h
  norm_num at h1 h2
  exact ⟨modBits ks / 65536, by omega, by omega⟩

/-- The fields of a `J` address occupy disjoint bits, so their OR is their sum. -/
theorem fields_or (dd q a x n : Nat) (hdd : dd ≤ 99) (hq : q < 256) (ha : a ≤ 1) (hx : x ≤ 1)
    (hn : n < 16384) :
    0x80000000 ||| (dd <<< 24) ||| (65536 * q + 16384 * x) ||| (32768 * a) ||| n
      = 2147483648 + 16777216 * dd + 65536 * q + 32768 * a + 16384 * x + n := by
  have e0 : dd <<< 24 = 16777216 * dd := by rw [Nat.shiftLeft_eq]; norm_num; omega
  have h1 : 2147483648 * 1 ||| 16777216 * dd = 2147483648 * 1 + 16777216 * dd :=
    or_low _ 1 _ 31 (by norm_num) (by omega)
  have h2 : 16777216 * (128 + dd) ||| (65536 * q + 16384 * x)
      = 16777216 * (128 + dd) + (65536 * q + 16384 * x) :=
    or_low _ _ _ 24 (by norm_num) (by omega)
  have h3 : 65536 * (256 * (128 + dd) + q) ||| 16384 * x
      = 65536 * (256 * (128 + dd) + q) + 16384 * x :=
    or_low _ _ _ 16 (by norm_num) (by omega)
  have h4 : 65536 * (256 * (128 + dd) + q) ||| 32768 * a
      = 65536 * (256 * (128 + dd) + q) + 32768 * a :=
    or_low _ _ _ 16 (by norm_num) (by omega)
  have h5 : 32768 * (2 * (256 * (128 + dd) + q) + a) ||| 16384 * x
      = 32768 * (2 * (256 * (128 + dd) + q) + a) + 16384 * x :=
    or_low _ _ _ 15 (by norm_num) (by omega)
  have h6 : 16384 * (2 * (2 * (256 * (128 + dd) + q) + a) + x) ||| n
      = 16384 * (2 * (2 * (256 * (128 + dd) + q) + a) + x) + n :=
    or_low _ _ _ 14 (by norm_num) (by omega)
  have s1 : (0x80000000 : Nat) ||| (dd <<< 24) = 16777216 * (128 + dd) := by
    rw [e0, show (0x80000000 : Nat) = 2147483648 * 1 by norm_num, h1]; omega
  have s2 : 16777216 * (128 + dd) ||| (65536 * q + 16384 * x)
      = 65536 * (256 * (128 + dd) + q) ||| 16384 * x := by
    rw [h2, h3]; omega
  have s3 : 65536 * (256 * (128 + dd) + q) ||| 16384 * x ||| 32768 * a
      = 32768 * (2 * (256 * (128 + dd) + q) + a) ||| 16384 * x := by
    have e : 65536 * (256 * (128 + dd) + q) + 32768 * a
        = 32768 * (2 * (256 * (128 + dd) + q) + a) := by omega
    rw [Nat.or_assoc, Nat.or_comm (16384 * x), ← Nat.or_assoc, h4, e]
  have s4 : 32768 * (2 * (256 * (128 + dd) + q) + a) ||| 16384 * x
      = 16384 * (2 * (2 * (256 * (128 + dd) + q) + a) + x) := by
    rw [h5]; omega
  rw [s1, s2, s3, s4, h6]
  omega

/-! ## The element part -/

theorem charAt_drop (n : List Char) (i : Nat) : charAt n i = charAt (n.drop i) 0 := by
  simp [charAt, List.getD, List.getElem?_drop]

theorem wrap32_small {v : Nat} (h : v < 4294967296) : wrap32 (v : Int) = v := by
  unfold wrap32
  omega

theorem asInt32_small {v : Nat} (h : v < 2147483648) : asInt32 v = v := by
  simp [asInt32, h]

theorem mapIndex_numeral (n : List Char) (d i : Nat) (ds : List Char) (h : n.drop i = ds)
    (hnum : IsNumeral ds) (hv : decVal ds ≤ 0x3FFF) :
    mapIndex n d i = callOf (d ||| decVal ds) := by
  have h1 : ¬ (LONG_MAX < (decVal ds : Int)) := by
    unfold LONG_MAX; omega
  have h2 : wrap32 (decVal ds : Int) = decVal ds := wrap32_small (by omega)
  have h3 : asInt32 (decVal ds) = decVal ds := asInt32_small (by omega)
  have h4 : ¬ ((0x3fff : Int) < (decVal ds : Int)) := by omega
  simp only [mapIndex, h, strtol_numeral hnum, h1, if_false, h2, h3, h4, callOf]
  simp [charAt]

theorem mapElement_kind (n : List Char) (d i : Nat) (k : ElemKind) (ds : List Char)
    (h : n.drop i = k.text ++ ds) (hnum : IsNumeral ds) (hv : decVal ds ≤ 0x3FFF) :
    mapElement n d i = callOf (d ||| k.bit ||| decVal ds) := by
  cases k with
  | Axis =>
    have h1 : strncmpEq (n.drop i) strAxis = true := by
      rw [h]; simp [strncmpEq, ElemKind.text]
    have h2 : n.drop (i + 4) = ds := by
      rw [← List.drop_drop, h]; rfl
    simp only [mapElement, h1, if_true, ElemKind.bit]
    exact mapIndex_numeral n _ _ ds h2 hnum hv
  | B =>
    have h1 : strncmpEq (n.drop i) strAxis = false := by
      rw [h]; simp [strncmpEq, ElemKind.text, strAxis, List.isPrefixOf]
    have h2 : n.drop (i + 1) = ds := by
      rw [← List.drop_drop, h]; rfl
    have h3 : charAt n i = 'B' := by
      rw [charAt_drop, h]; rfl
    simp only [mapElement, h1, h3, beq_self_eq_true, if_true, Bool.false_eq_true, if_false,
      ElemKind.bit, Nat.or_zero]
    exact mapIndex_numeral n _ _ ds h2 hnum hv

theorem mapElement_M (n : List Char) (d i : Nat) (rest : List Char)
    (h : n.drop i = 'M' :: rest) : mapElement n d i = .S9xMapDisplayInput := by
  have h1 : strncmpEq (n.drop i) strAxis = false := by
    rw [h]; simp [strncmpEq, strAxis, List.isPrefixOf]
  have h3 : (charAt n i == 'B') = false := by
    rw [charAt_drop, h]; rfl
  simp [mapElement, h1, h3]

/-! ## `S9xMapInput` on `J` descriptors -/

theorem modText_append (a b : List Nat) : modText (a ++ b) = modText a ++ modText b := by
  induction a with
  | nil => rfl
  | cons k a ih => simp [modText, ih]

theorem modText_length (a : List Nat) : (modText a).length = 3 * a.length := by
  induction a with
  | nil => rfl
  | cons k a ih => simp only [modText, List.length_cons, ih]; omega

theorem kind_not_token (k : ElemKind) (ds : List Char) (b : Char) :
    strncmpEq (k.text ++ ds) ['M', b, '+'] = false := by
  cases k <;> simp [strncmpEq, ElemKind.text, strAxis, List.isPrefixOf]

/-- The state in which the element part of `J<dd>:M..` is reached. -/
theorem scanModifiers_M (dd : Nat) (ks : List Nat) (k : ElemKind) (ds : List Char) (d : Nat)
    (hks : ∀ x ∈ ks, 1 ≤ x ∧ x ≤ 8) :
    scanModifiers (jDescriptor dd (.M ks) k ds) d 4
      = (d ||| modBits (takenTokens [1, 2, 3, 4, 5, 6, 7, 8] ks),
         4 + 3 * (takenTokens [1, 2, 3, 4, 5, 6, 7, 8] ks).length) := by
  have hx : strncmpEq (List.drop 4 (jDescriptor dd (.M ks) k ds)) ['X', '+'] = false := by
    cases ks with
    | nil => cases k <;> simp [strncmpEq, jDescriptor, ModPart.text, modText, ElemKind.text,
        strAxis, List.isPrefixOf]
    | cons a ks => simp [strncmpEq, jDescriptor, ModPart.text, modText, List.isPrefixOf]
  have hl := modifierLoop_text (k.text ++ ds) (kind_not_token k ds) [1, 2, 3, 4, 5, 6, 7, 8] ks d
    ['J', decChar (dd / 10), decChar (dd % 10), ':'] (by decide) hks
  simp only [scanModifiers, hx, Bool.false_eq_true, if_false, modifierDigits_eq]
  exact hl

theorem scanModifiers_X (dd : Nat) (k : ElemKind) (ds : List Char) (d : Nat) :
    scanModifiers (jDescriptor dd .X k ds) d 4 = (d ||| 0x4000, 6) := by
  simp [scanModifiers, strncmpEq, jDescriptor, ModPart.text, List.isPrefixOf]

/-- A string that starts with `J`, two digits and `:` reaches the modifiers with
the device index in bits 24 and up and bit 31 set. -/
theorem mapInputCall_J (PPB PBB dd : Nat) (m : ModPart) (k : ElemKind) (ds : List Char)
    (hdd : dd ≤ 99) :
    S9xMapInputCall PPB PBB (jDescriptor dd m k ds)
      = mapElement (jDescriptor dd m k ds)
          (scanModifiers (jDescriptor dd m k ds) ((dd <<< 24) ||| 0x80000000) 4).1
          (scanModifiers (jDescriptor dd m k ds) ((dd <<< 24) ||| 0x80000000) 4).2 := by
  have h1 : strncmpEq (jDescriptor dd m k ds) strPseudoPointer = false := by
    simp [strncmpEq, jDescriptor, strPseudoPointer, List.isPrefixOf]
  have h2 : strncmpEq (jDescriptor dd m k ds) strPseudoButton = false := by
    simp [strncmpEq, jDescriptor, strPseudoButton, List.isPrefixOf]
  have c0 : charAt (jDescriptor dd m k ds) 0 = 'J' := rfl
  have c1 : charAt (jDescriptor dd m k ds) 1 = decChar (dd / 10) := rfl
  have c2 : charAt (jDescriptor dd m k ds) 2 = decChar (dd % 10) := rfl
  have c3 : charAt (jDescriptor dd m k ds) 3 = ':' := rfl
  have d1 : isdigit (decChar (dd / 10)) = true := isdigit_decChar (by omega)
  have d2 : isdigit (decChar (dd % 10)) = true := isdigit_decChar (by omega)
  have hv : ((decChar (dd / 10)).toNat - '0'.toNat) * 10 + ((decChar (dd % 10)).toNat - '0'.toNat)
      = dd := by
    rw [decChar_toNat (by omega), decChar_toNat (by omega)]
    have : ('0').toNat = 48 := rfl
    omega
  simp only [S9xMapInputCall, isNativePseudoPointer, isNativePseudoButton, hasJPrefix, h1, h2,
    c0, c1, c2, c3, d1, d2, hv, Bool.false_and, Bool.false_eq_true, if_false, beq_self_eq_true,
    Bool.and_self, Bool.not_true]

theorem ModPart.Valid.inRange {m : ModPart} (h : m.Valid) : m.InRange := by
  cases m with
  | X => trivial
  | M ks => exact h.2

/-- The address of a `J` descriptor as the sum of its fields: bit 31, the device
index from bit 24, the modifier mask from bit 16, the axis bit 15, the `X` bit 14
and the element index in bits 0-13. -/
theorem jAddress_sum (dd : Nat) (m : ModPart) (k : ElemKind) (n : Nat) (hdd : dd ≤ 99)
    (hm : m.InRange) (hn : n ≤ 0x3FFF) :
    ∃ q x a, q < 256 ∧ x ≤ 1 ∧ a ≤ 1 ∧ (x = 1 ↔ m = .X) ∧ (a = 1 ↔ k = .Axis)
      ∧ m.bits = 65536 * q + 16384 * x
      ∧ jAddress dd m k n
          = 2147483648 + 16777216 * dd + 65536 * q + 32768 * a + 16384 * x + n := by
  obtain ⟨q, x, hq, hx, hxm, hbits⟩ :
      ∃ q x, q < 256 ∧ x ≤ 1 ∧ (x = 1 ↔ m = .X) ∧ m.bits = 65536 * q + 16384 * x := by
    cases m with
    | X => exact ⟨0, 1, by omega, by omega, by simp, by simp [ModPart.bits]⟩
    | M ks =>
      obtain ⟨q, hq, hqe⟩ := modBits_field hm
      exact ⟨q, 0, hq, by omega, by simp, by simp [ModPart.bits, hqe]⟩
  obtain ⟨a, ha, hak, hbit⟩ : ∃ a, a ≤ 1 ∧ (a = 1 ↔ k = .Axis) ∧ k.bit = 32768 * a := by
    cases k with
    | Axis => exact ⟨1, by omega, by simp, by simp [ElemKind.bit]⟩
    | B => exact ⟨0, by omega, by simp, by simp [ElemKind.bit]⟩
  refine ⟨q, x, a, hq, hx, ha, hxm, hak, hbits, ?_⟩
  unfold jAddress
  rw [hbits, hbit]
  exact fields_or dd q a x n hdd hq ha hx (by omega)

/-- Bit 15 of the address of a `J` descriptor is its axis discriminant, so the
test `d & 0x8000` selects the call of the descriptor's kind. -/
theorem callOf_jAddress (dd : Nat) (m : ModPart) (k : ElemKind) (n : Nat) (hdd : dd ≤ 99)
    (hm : m.InRange) (hn : n ≤ 0x3FFF) :
    callOf (jAddress dd m k n) = jCall k (jAddress dd m k n) := by
  obtain ⟨q, x, a, hq, hx, ha, -, hak, -, hsum⟩ := jAddress_sum dd m k n hdd hm hn
  unfold callOf
  rw [and_bit15, hsum]
  have h15 : (2147483648 + 16777216 * dd + 65536 * q + 32768 * a + 16384 * x + n) / 32768 % 2
      = a := by omega
  rw [h15]
  cases k with
  | Axis =>
    have : a = 1 := hak.2 rfl
    simp [this, jCall]
  | B =>
    have : a ≠ 1 := fun h => by have := hak.1 h; cases this
    simp [this, jCall]

/-- `S9xMapInput` on a `J` descriptor whose tokens the modifier loop takes in
full: the address is the OR of the fields and bit 15 selects the call. -/
theorem mapInputCall_taken (PPB PBB dd : Nat) (m : ModPart) (k : ElemKind) (ds : List Char)
    (hdd : dd ≤ 99) (hm : m.InRange)
    (ht : ∀ ks, m = .M ks → takenTokens [1, 2, 3, 4, 5, 6, 7, 8] ks = ks)
    (hnum : IsNumeral ds) (hv : decVal ds ≤ 0x3FFF) :
    S9xMapInputCall PPB PBB (jDescriptor dd m k ds) = jCall k (jAddress dd m k (decVal ds)) := by
  rw [mapInputCall_J PPB PBB dd m k ds hdd, ← callOf_jAddress dd m k _ hdd hm hv]
  cases m with
  | X =>
    rw [scanModifiers_X]
    have hdrop : List.drop 6 (jDescriptor dd .X k ds) = k.text ++ ds := rfl
    rw [mapElement_kind _ _ 6 k ds hdrop hnum hv]
    simp only [jAddress, ModPart.bits, Nat.or_comm (dd <<< 24)]
  | M ks =>
    rw [scanModifiers_M dd ks k ds _ hm, ht ks rfl]
    have hdrop : List.drop (4 + 3 * ks.length) (jDescriptor dd (.M ks) k ds) = k.text ++ ds := by
      have e : jDescriptor dd (.M ks) k ds
          = (['J', decChar (dd / 10), decChar (dd % 10), ':'] ++ modText ks) ++ (k.text ++ ds) := by
        simp [jDescriptor, ModPart.text]
      have l : (['J', decChar (dd / 10), decChar (dd % 10), ':'] ++ modText ks).length
          = 4 + 3 * ks.length := by
        simp [modText_length]; omega
      rw [e, ← l, List.drop_left]
    rw [mapElement_kind _ _ _ k ds hdrop hnum hv]
    simp only [jAddress, ModPart.bits, Nat.or_comm (dd <<< 24)]

/-- `S9xMapInput` on a `J` descriptor of the grammar. -/
theorem mapInputCall_valid (PPB PBB dd : Nat) (m : ModPart) (k : ElemKind) (ds : List Char)
    (hdd : dd ≤ 99) (hm : m.Valid) (hnum : IsNumeral ds) (hv : decVal ds ≤ 0x3FFF) :
    S9xMapInputCall PPB PBB (jDescriptor dd m k ds) = jCall k (jAddress dd m k (decVal ds)) := by
  apply mapInputCall_taken PPB PBB dd m k ds hdd hm.inRange _ hnum hv
  intro ks hks
  subst hks
  apply takenTokens_sorted _ _ (by decide) hm.1
  intro x hx
  have := hm.2 x hx
  have h8 : x = 1 ∨ x = 2 ∨ x = 3 ∨ x = 4 ∨ x = 5 ∨ x = 6 ∨ x = 7 ∨ x = 8 := by omega
  simp only [List.mem_cons, List.mem_singleton]
  rcases h8 with h | h | h | h | h | h | h | h <;> simp [h]

/-- A `J` descriptor whose tokens are not written in increasing order is handed
to `S9xMapDisplayInput`. -/
theorem mapInputCall_unsorted (PPB PBB dd : Nat) (ks : List Nat) (k : ElemKind) (ds : List Char)
    (hdd : dd ≤ 99) (hr : ∀ x ∈ ks, 1 ≤ x ∧ x ≤ 8) (hns : ¬ ks.Pairwise (· < ·)) :
    S9xMapInputCall PPB PBB (jDescriptor dd (.M ks) k ds) = .S9xMapDisplayInput := by
  rw [mapInputCall_J PPB PBB dd _ k ds hdd, scanModifiers_M dd ks k ds _ hr]
  obtain ⟨rest, hrest⟩ := takenTokens_prefix [1, 2, 3, 4, 5, 6, 7, 8] ks
  have hne : rest ≠ [] := by
    intro h
    rw [h, List.append_nil] at hrest
    exact hns (sorted_of_takenTokens _ _ (by decide) hrest.symm).1
  obtain ⟨r, rs, rfl⟩ := List.exists_cons_of_ne_nil hne
  apply mapElement_M _ _ _ (decChar r :: '+' :: (modText rs ++ (k.text ++ ds)))
  have e : jDescriptor dd (.M ks) k ds
      = (['J', decChar (dd / 10), decChar (dd % 10), ':']
          ++ modText (takenTokens [1, 2, 3, 4, 5, 6, 7, 8] ks))
        ++ ('M' :: decChar r :: '+' :: (modText rs ++ (k.text ++ ds))) := by
    conv_lhs => rw [hrest]
    simp [jDescriptor, ModPart.text, modText_append, modText]
  have l : (['J', decChar (dd / 10), decChar (dd % 10), ':']
      ++ modText (takenTokens [1, 2, 3, 4, 5, 6, 7, 8] ks)).length
        = 4 + 3 * (takenTokens [1, 2, 3, 4, 5, 6, 7, 8] ks).length := by
    simp [modText_length]; omega
  rw [e, ← l, List.drop_left]

theorem and_eq_zero_of_lt (p a b i : Nat) (hp : p = 2 ^ i) (hb : b < p) : p * a &&& b = 0 := by
  subst hp
  apply Nat.eq_of_testBit_eq
  intro j
  rw [Nat.testBit_and, Nat.zero_testBit, Nat.testBit_mul_pow_two]
  by_cases hj : i ≤ j
  · have : b < 2 ^ j := lt_of_lt_of_le hb (Nat.pow_le_pow_right (by norm_num) hj)
    simp [Nat.testBit_lt_two_pow this]
  · simp [hj]

/-- Two increasing token lists with the same modifier bits are the same list. -/
theorem modBits_injective {ks ks' : List Nat} (h : ks.Pairwise (· < ·))
    (h' : ks'.Pairwise (· < ·)) (e : modBits ks = modBits ks') : ks = ks' := by
  have hmem : ∀ k, k ∈ ks ↔ k ∈ ks' := by
    intro k
    have h1 := testBit_modBits ks (15 + k)
    have h2 := testBit_modBits ks' (15 + k)
    rw [e] at h1
    constructor
    · intro hk
      obtain ⟨x, hx, hxe⟩ := h2.1 (h1.2 ⟨k, hk, rfl⟩)
      have : x = k := by omega
      rw [← this]; exact hx
    · intro hk
      obtain ⟨x, hx, hxe⟩ := h1.1 (h2.2 ⟨k, hk, rfl⟩)
      have : x = k := by omega
      rw [← this]; exact hx
  have hn : ks.Nodup := h.imp (fun hab => Nat.ne_of_lt hab)
  have hn' : ks'.Nodup := h'.imp (fun hab => Nat.ne_of_lt hab)
  exact List.eq_of_perm_of_sorted ((List.perm_ext_iff_of_nodup hn hn').2 hmem) h h'

/-! ## The `PseudoButton` branch -/

/-- The `PseudoButton` branch on a numeral below `2^31`: it is mapped, on
`PseudoButtonBase` plus its value, exactly when the value is at most 255. -/
theorem mapInputCall_pseudoButton (PPB PBB : Nat) (ds : List Char) (hnum : IsNumeral ds)
    (hv : decVal ds < 2147483648) :
    S9xMapInputCall PPB PBB (strPseudoButton ++ ds)
      = if decVal ds < 256 then .S9xMapButton ((PBB + decVal ds) % 4294967296)
        else .S9xMapDisplayInput := by
  obtain ⟨c, t, rfl⟩ := List.exists_cons_of_ne_nil hnum.1
  have hc : isdigit c = true := hnum.2 c (List.mem_cons_self _ _)
  have h1 : isNativePseudoPointer (strPseudoButton ++ c :: t) = false := by
    simp [isNativePseudoPointer, strncmpEq, strPseudoButton, strPseudoPointer, List.isPrefixOf]
  have hdrop : List.drop 12 (strPseudoButton ++ c :: t) = c :: t := rfl
  have hpre : strncmpEq (strPseudoButton ++ c :: t) strPseudoButton = true := by
    simp [strncmpEq, strPseudoButton, List.isPrefixOf]
  have h12 : charAt (strPseudoButton ++ c :: t) 12 = c := rfl
  have hl : ¬ (LONG_MAX < (decVal (c :: t) : Int)) := by unfold LONG_MAX; omega
  have hw : wrap32 (decVal (c :: t) : Int) = decVal (c :: t) := wrap32_small (by omega)
  have hi : asInt32 (decVal (c :: t)) = decVal (c :: t) := asInt32_small hv
  have hj : hasJPrefix (strPseudoButton ++ c :: t) = false := by
    simp [hasJPrefix, strPseudoButton, charAt]
  have hnul : (charAt ([] : List Char) 0 == NUL) = true := by decide
  simp only [S9xMapInputCall, h1, Bool.false_eq_true, if_false, isNativePseudoButton, hpre, h12,
    hc, hdrop, strtol_numeral hnum, hl, hw, hi, Bool.true_and, hnul, Bool.and_true, hj,
    Bool.not_false, if_true, decide_eq_true_eq]
  by_cases h : decVal (c :: t) < 256
  · have h2 : ((decVal (c :: t) : Nat) : Int) < 256 := by omega
    simp [h, h2]
  · have h2 : ¬ (((decVal (c :: t) : Nat) : Int) < 256) := by omega
    simp [h, h2]

/-- The addresses of `PseudoButton0` .. `PseudoButton255` are pairwise distinct. -/
theorem pseudoButton_distinct (PBB v w : Nat) (hv : v ≤ 255) (hw : w ≤ 255)
    (h : (PBB + v) % 4294967296 = (PBB + w) % 4294967296) : v = w := by
  omega

/-! ## The pseudo-descriptor tests in terms of the grammar -/

theorem charAt_zero_eq_NUL {l : List Char} (h : NUL ∉ l) : (charAt l 0 == NUL) = true ↔ l = [] := by
  cases l with
  | nil => simp [charAt]
  | cons x t =>
    have hx : x ≠ NUL := fun e => h (by rw [← e]; exact List.mem_cons_self _ _)
    simp [charAt, hx]

/-- On a text that starts with a digit `strtol` converts its longest run of
digits and leaves the rest. -/
theorem strtol_digit_first (c : Char) (t : List Char) (hc : isdigit c = true) :
    strtol (c :: t)
      = (if LONG_MAX < (decVal ((c :: t).takeWhile isdigit) : Int) then LONG_MAX
         else (decVal ((c :: t).takeWhile isdigit) : Int), (c :: t).dropWhile isdigit) := by
  have hcn := isdigit_toNat hc
  have hsp := isspace_of_isdigit hc
  have hm : (c == '-') = false := ne_of_toNat_ne (by have : ('-').toNat = 45 := rfl; omega)
  have hp : (c == '+') = false := ne_of_toNat_ne (by have : ('+').toNat = 43 := rfl; omega)
  have h0 : charAt (c :: t) 0 = c := rfl
  have hne : ((c :: t).takeWhile isdigit).isEmpty = false := by
    simp [List.takeWhile_cons, hc]
  simp only [strtol, List.dropWhile_cons, hsp, h0, hm, hp, Bool.or_self, if_false,
    Bool.false_eq_true, hne]

/-- The test of line 692 holds exactly for `PseudoPointer<1-8>`. -/
theorem isNativePseudoPointer_iff (n : List Char) (hn : NUL ∉ n) :
    isNativePseudoPointer n = true ↔ ∃ c, is1to8 c = true ∧ n = strPseudoPointer ++ [c] := by
  constructor
  · intro h
    simp only [isNativePseudoPointer, Bool.and_eq_true, decide_eq_true_eq, strncmpEq,
      List.isPrefixOf_iff_prefix] at h
    obtain ⟨⟨⟨⟨rest, hpre⟩, h1⟩, h8⟩, hend⟩ := h
    subst hpre
    cases rest with
    | nil =>
      have : (charAt (strPseudoPointer ++ []) 13).toNat = 0 := rfl
      have h49 : ('1').toNat = 49 := rfl
      omega
    | cons c r =>
      have hc13 : charAt (strPseudoPointer ++ c :: r) 13 = c := rfl
      have hc14 : charAt (strPseudoPointer ++ c :: r) 14 = charAt r 0 := rfl
      rw [hc13] at h1 h8
      rw [hc14] at hend
      have hr : NUL ∉ r := fun hm => hn (by
        simp only [List.mem_append, List.mem_cons]; exact Or.inr (Or.inr hm))
      have : r = [] := (charAt_zero_eq_NUL hr).1 hend
      subst this
      exact ⟨c, by simp only [is1to8, Bool.and_eq_true, decide_eq_true_eq]; exact ⟨h1, h8⟩, rfl⟩
  · rintro ⟨c, hc, rfl⟩
    simp only [is1to8, Bool.and_eq_true, decide_eq_true_eq] at hc
    have hc13 : charAt (strPseudoPointer ++ [c]) 13 = c := rfl
    have hc14 : charAt (strPseudoPointer ++ [c]) 14 = NUL := rfl
    have hp : strncmpEq (strPseudoPointer ++ [c]) strPseudoPointer = true := by
      simp [strncmpEq, strPseudoPointer, List.isPrefixOf]
    simp only [isNativePseudoPointer, hc13, hc14, hp, Bool.true_and, Bool.and_eq_true,
      decide_eq_true_eq, beq_self_eq_true, and_true]
    exact hc

/-- The test of line 695 holds exactly for `PseudoButton` followed by a numeral
whose value, clamped to `LONG_MAX` and stored in an `int`, is below 256. -/
theorem isNativePseudoButton_iff (n : List Char) (hn : NUL ∉ n) :
    isNativePseudoButton n = true ↔
      ∃ ds, IsNumeral ds ∧ n = strPseudoButton ++ ds
        ∧ asInt32 (wrap32 (if LONG_MAX < (decVal ds : Int) then LONG_MAX
            else (decVal ds : Int))) < 256 := by
  constructor
  · intro h
    simp only [isNativePseudoButton, Bool.and_eq_true, decide_eq_true_eq, strncmpEq,
      List.isPrefixOf_iff_prefix] at h
    obtain ⟨⟨⟨⟨rest, hpre⟩, hd⟩, hlt⟩, hend⟩ := h
    subst hpre
    have hdrop : List.drop 12 (strPseudoButton ++ rest) = rest := rfl
    rw [hdrop] at hlt hend
    cases rest with
    | nil => exact absurd hd (by decide)
    | cons c t =>
      have hc : isdigit c = true := hd
      rw [strtol_digit_first c t hc] at hlt hend
      have hr : NUL ∉ (c :: t).dropWhile isdigit := fun hm => hn (by
        simp only [List.mem_append]
        exact Or.inr ((List.dropWhile_sublist _).subset hm))
      have hnil := (charAt_zero_eq_NUL hr).1 hend
      have hall : ∀ x ∈ c :: t, isdigit x = true := List.dropWhile_eq_nil_iff.1 hnil
      rw [takeWhile_isdigit hall] at hlt
      exact ⟨c :: t, ⟨List.cons_ne_nil _ _, hall⟩, rfl, hlt⟩
  · rintro ⟨ds, hnum, rfl, hlt⟩
    obtain ⟨c, t, rfl⟩ := List.exists_cons_of_ne_nil hnum.1
    have hc : isdigit c = true := hnum.2 c (List.mem_cons_self _ _)
    have hpre : strncmpEq (strPseudoButton ++ c :: t) strPseudoButton = true := by
      simp [strncmpEq, strPseudoButton, List.isPrefixOf]
    have h12 : charAt (strPseudoButton ++ c :: t) 12 = c := rfl
    have hdrop : List.drop 12 (strPseudoButton ++ c :: t) = c :: t := rfl
    have hnul : (charAt ([] : List Char) 0 == NUL) = true := by decide
    simp only [isNativePseudoButton, hpre, h12, hc, hdrop, strtol_numeral hnum, hnul,
      Bool.true_and, Bool.and_true, decide_eq_true_eq]
    exact hlt

/-! ## The claims on `S9xMapInput` -/

/-- C1: for every device index `dd` in `00..63`, every modifier part that is
empty, the prefix `X+` or tokens `M<k>+` (`k` in `1..8`) in increasing `k`,
every kind `Axis` or `B` and every element index `n <= 0x3FFF` written in
decimal digits, `S9xMapInput` on `J<dd>:<modifiers><kind><n>` ends with the call
`S9xMapAxis` (kind `Axis`) or `S9xMapButton` (kind `B`) on exactly the address
`0x80000000 | (dd << 24) | modifier bits | (0x8000 if Axis) | n`, and returns
the result of that call. -/
theorem C1_mapInput_address {T : Type} (ctl : Controls T) (dd : Nat) (m : ModPart)
    (k : ElemKind) (ds : List Char) (cmd : s9xcommand_t) (t : T)
    (hdd : dd ≤ 63) (hm : m.Valid) (hnum : IsNumeral ds) (hv : decVal ds ≤ 0x3FFF) :
    S9xMapInputCall ctl.PseudoPointerBase ctl.PseudoButtonBase (jDescriptor dd m k ds)
        = jCall k (jAddress dd m k (decVal ds))
      ∧ S9xMapInput ctl (jDescriptor dd m k ds) cmd t
        = (match k with
           | .Axis => ctl.S9xMapAxis (jAddress dd m k (decVal ds)) cmd t
           | .B => ctl.S9xMapButton (jAddress dd m k (decVal ds)) cmd t) := by
  have h := mapInputCall_valid ctl.PseudoPointerBase ctl.PseudoButtonBase dd m k ds
    (by omega) hm hnum hv
  refine ⟨h, ?_⟩
  unfold S9xMapInput
  rw [h]
  cases k <;> rfl

/-- C1 at the descriptor `J63:M1+M8+Axis16383`. -/
theorem C1_mapInput_address_witness :
    (63 ≤ 63 ∧ (ModPart.M [1, 8]).Valid ∧ IsNumeral ['1', '6', '3', '8', '3']
      ∧ decVal ['1', '6', '3', '8', '3'] ≤ 0x3FFF)
    ∧ S9xMapInputCall specControls.PseudoPointerBase specControls.PseudoButtonBase
        (jDescriptor 63 (.M [1, 8]) .Axis ['1', '6', '3', '8', '3'])
        = jCall .Axis (jAddress 63 (.M [1, 8]) .Axis (decVal ['1', '6', '3', '8', '3']))
    ∧ S9xMapInput specControls (jDescriptor 63 (.M [1, 8]) .Axis ['1', '6', '3', '8', '3'])
        (S9xGetPortCommandT strRewind) []
        = specControls.S9xMapAxis
            (jAddress 63 (.M [1, 8]) .Axis (decVal ['1', '6', '3', '8', '3']))
            (S9xGetPortCommandT strRewind) [] :=
  have h1 : (ModPart.M [1, 8]).Valid := by unfold ModPart.Valid; decide
  have h2 : IsNumeral ['1', '6', '3', '8', '3'] := by unfold IsNumeral; decide
  have h3 : decVal ['1', '6', '3', '8', '3'] ≤ 0x3FFF := by decide
  ⟨⟨le_refl _, h1, h2, h3⟩,
    C1_mapInput_address specControls 63 (.M [1, 8]) .Axis ['1', '6', '3', '8', '3']
      (S9xGetPortCommandT strRewind) [] (le_refl _) h1 h2 h3⟩

/-- C2: the element text of a `J` descriptor is read by `strtol` without a
check for a leading digit or for a negative value, so texts that are not a
numeral up to `0x3FFF` are mapped natively: `J00:B-1` ends with `S9xMapAxis` on
`0xFFFFFFFF`, and `J00:B` (empty), `J00:B+5` (signed), `J00:B 5` (white space)
and `J00:B4294967296` (truncated to `int`) end with `S9xMapButton` on the
addresses of `J00:B0`, `J00:B5`, `J00:B5` and `J00:B0`; only `J00:B16384` and
`J00:B1x` are handed to `S9xMapDisplayInput`. -/
theorem C2_element_text_accepted :
    S9xMapInputCall specControls.PseudoPointerBase specControls.PseudoButtonBase
        ['J', '0', '0', ':', 'B', '-', '1'] = .S9xMapAxis 0xFFFFFFFF
    ∧ S9xMapInputCall specControls.PseudoPointerBase specControls.PseudoButtonBase
        ['J', '0', '0', ':', 'B'] = .S9xMapButton 0x80000000
    ∧ S9xMapInputCall specControls.PseudoPointerBase specControls.PseudoButtonBase
        ['J', '0', '0', ':', 'B', '+', '5'] = .S9xMapButton 0x80000005
    ∧ S9xMapInputCall specControls.PseudoPointerBase specControls.PseudoButtonBase
        ['J', '0', '0', ':', 'B', ' ', '5'] = .S9xMapButton 0x80000005
    ∧ S9xMapInputCall specControls.PseudoPointerBase specControls.PseudoButtonBase
        ['J', '0', '0', ':', 'B', '4', '2', '9', '4', '9', '6', '7', '2', '9', '6']
        = .S9xMapButton 0x80000000
    ∧ S9xMapInputCall specControls.PseudoPointerBase specControls.PseudoButtonBase
        ['J', '0', '0', ':', 'B', '1', '6', '3', '8', '4'] = .S9xMapDisplayInput
    ∧ S9xMapInputCall specControls.PseudoPointerBase specControls.PseudoButtonBase
        ['J', '0', '0', ':', 'B', '1', 'x'] = .S9xMapDisplayInput := by
  refine ⟨?_, ?_, ?_, ?_, ?_, ?_, ?_⟩ <;> decide

/-- C3: the range check `j < 256` of the `PseudoButton` branch is made on the
`int` that receives the `long` result of `strtol`, so numbers above 255 whose
low 32 bits read as an `int` below 256 are mapped: `PseudoButton4294967296`
ends with `S9xMapButton` on the address of `PseudoButton0`, and
`PseudoButton9223372036854775808` on the address below `PseudoButtonBase`;
`PseudoButton255` is mapped and `PseudoButton256`, `PseudoButton999` are not. -/
theorem C3_pseudoButton_overflow :
    S9xMapInputCall specControls.PseudoPointerBase specControls.PseudoButtonBase
        (strPseudoButton ++ ['4', '2', '9', '4', '9', '6', '7', '2', '9', '6'])
        = .S9xMapButton specControls.PseudoButtonBase
    ∧ S9xMapInputCall specControls.PseudoPointerBase specControls.PseudoButtonBase
        (strPseudoButton ++ ['0']) = .S9xMapButton specControls.PseudoButtonBase
    ∧ S9xMapInputCall specControls.PseudoPointerBase specControls.PseudoButtonBase
        (strPseudoButton ++ ['9', '2', '2', '3', '3', '7', '2', '0', '3', '6', '8', '5', '4',
          '7', '7', '5', '8', '0', '8'])
        = .S9xMapButton (specControls.PseudoButtonBase - 1)
    ∧ S9xMapInputCall specControls.PseudoPointerBase specControls.PseudoButtonBase
        (strPseudoButton ++ ['2', '5', '5']) = .S9xMapButton (specControls.PseudoButtonBase + 255)
    ∧ S9xMapInputCall specControls.PseudoPointerBase specControls.PseudoButtonBase
        (strPseudoButton ++ ['2', '5', '6']) = .S9xMapDisplayInput
    ∧ S9xMapInputCall specControls.PseudoPointerBase specControls.PseudoButtonBase
        (strPseudoButton ++ ['9', '9', '9']) = .S9xMapDisplayInput := by
  refine ⟨?_, ?_, ?_, ?_, ?_, ?_⟩ <;> decide

/-- C4: `S9xMapInput` does not check the two digits of `J<dd>:` against 63:
`J64:B0` ends with `S9xMapButton` on `0xC0000000` and `J99:Axis5` with
`S9xMapAxis` on `0xE3008005`, addresses with bit 30 set, while `J63:B0` maps
`0xBF000000`, where bit 30 is clear. -/
theorem C4_device_index_unchecked :
    S9xMapInputCall specControls.PseudoPointerBase specControls.PseudoButtonBase
        ['J', '6', '4', ':', 'B', '0'] = .S9xMapButton 0xC0000000
    ∧ Nat.testBit 0xC0000000 30 = true
    ∧ S9xMapInputCall specControls.PseudoPointerBase specControls.PseudoButtonBase
        ['J', '9', '9', ':', 'A', 'x', 'i', 's', '5'] = .S9xMapAxis 0xE3008005
    ∧ Nat.testBit 0xE3008005 30 = true
    ∧ S9xMapInputCall specControls.PseudoPointerBase specControls.PseudoButtonBase
        ['J', '6', '3', ':', 'B', '0'] = .S9xMapButton 0xBF000000
    ∧ Nat.testBit 0xBF000000 30 = false := by
  refine ⟨?_, ?_, ?_, ?_, ?_, ?_⟩ <;> decide

/-- C6 as stated fails: `J00:M1+M2+B0` is mapped, to `0x80030000`, and its
reordering `J00:M2+M1+B0` is handed to `S9xMapDisplayInput`. -/
theorem C6_reordering_rejected :
    S9xMapInputCall specControls.PseudoPointerBase specControls.PseudoButtonBase
        ['J', '0', '0', ':', 'M', '1', '+', 'M', '2', '+', 'B', '0'] = .S9xMapButton 0x80030000
    ∧ S9xMapInputCall specControls.PseudoPointerBase specControls.PseudoButtonBase
        ['J', '0', '0', ':', 'M', '2', '+', 'M', '1', '+', 'B', '0'] = .S9xMapDisplayInput := by
  refine ⟨?_, ?_⟩ <;> decide

theorem modBits_perm {ks ks' : List Nat} (h : ks'.Perm ks) : modBits ks' = modBits ks := by
  induction h with
  | nil => rfl
  | cons x _ ih => simp only [modBits, ih]
  | swap x y l =>
    simp only [modBits]
    rw [← Nat.or_assoc, ← Nat.or_assoc, Nat.or_comm (1 <<< (15 + y))]
  | trans _ _ ih1 ih2 => rw [ih1, ih2]

/-- C6, amended: the modifier bits are the OR of `1 << (15 + k)` over the
tokens, a value that does not depend on their order, but `S9xMapInput` takes
the tokens `M<k>+` only in increasing `k`: a `J` descriptor with `dd <= 63`,
tokens with `k` in `1..8`, a kind and an element index `<= 0x3FFF` in decimal
digits is mapped to its address when the tokens are written in increasing `k`
and is handed to `S9xMapDisplayInput` in every other order. -/
theorem C6_modifier_order (PPB PBB dd : Nat) (ks : List Nat) (k : ElemKind) (ds : List Char)
    (hdd : dd ≤ 63) (hr : ∀ x ∈ ks, 1 ≤ x ∧ x ≤ 8) (hnum : IsNumeral ds)
    (hv : decVal ds ≤ 0x3FFF) :
    (∀ ks1 : List Nat, ks1.Perm ks → modBits ks1 = modBits ks)
    ∧ (ks.Pairwise (· < ·) →
        S9xMapInputCall PPB PBB (jDescriptor dd (.M ks) k ds)
          = jCall k (jAddress dd (.M ks) k (decVal ds)))
    ∧ (¬ ks.Pairwise (· < ·) →
        S9xMapInputCall PPB PBB (jDescriptor dd (.M ks) k ds) = .S9xMapDisplayInput) := by
  refine ⟨fun ks1 h => modBits_perm h, ?_, ?_⟩
  · intro hs
    exact mapInputCall_valid PPB PBB dd (.M ks) k ds (by omega) ⟨hs, hr⟩ hnum hv
  · intro hns
    exact mapInputCall_unsorted PPB PBB dd ks k ds (by omega) hr hns

/-- C6, amended, at the tokens `M2+M1+` of `J00:M2+M1+B0`. -/
theorem C6_modifier_order_witness :
    (0 ≤ 63 ∧ (∀ x ∈ [2, 1], 1 ≤ x ∧ x ≤ 8) ∧ IsNumeral ['0'] ∧ decVal ['0'] ≤ 0x3FFF)
    ∧ (∀ ks1 : List Nat, ks1.Perm [2, 1] → modBits ks1 = modBits [2, 1])
    ∧ ([2, 1].Pairwise (· < ·) →
        S9xMapInputCall 0xFFFFFFF7 0xFFFFFEF7 (jDescriptor 0 (.M [2, 1]) .B ['0'])
          = jCall .B (jAddress 0 (.M [2, 1]) .B (decVal ['0'])))
    ∧ (¬ [2, 1].Pairwise (· < ·) →
        S9xMapInputCall 0xFFFFFFF7 0xFFFFFEF7 (jDescriptor 0 (.M [2, 1]) .B ['0'])
          = .S9xMapDisplayInput) :=
  have h1 : ∀ x ∈ [2, 1], 1 ≤ x ∧ x ≤ 8 := by decide
  have h2 : IsNumeral ['0'] := by unfold IsNumeral; decide
  have h3 : decVal ['0'] ≤ 0x3FFF := by decide
  ⟨⟨Nat.zero_le _, h1, h2, h3⟩,
    C6_modifier_order 0xFFFFFFF7 0xFFFFFEF7 0 [2, 1] .B ['0'] (Nat.zero_le _) h1 h2 h3⟩

theorem address_jCall (k : ElemKind) (a : Nat) : (jCall k a).address? = some a := by
  cases k <;> rfl

/-- Equal addresses of two `J` descriptors of the grammar force equal fields. -/
theorem jAddress_injective (dd dd' : Nat) (m m' : ModPart) (k k' : ElemKind) (n n' : Nat)
    (hdd : dd ≤ 99) (hdd' : dd' ≤ 99) (hm : m.Valid) (hm' : m'.Valid)
    (hn : n ≤ 0x3FFF) (hn' : n' ≤ 0x3FFF)
    (e : jAddress dd m k n = jAddress dd' m' k' n') :
    dd = dd' ∧ m = m' ∧ k = k' ∧ n = n' := by
  obtain ⟨q, x, a, hq, hx, ha, hxm, hak, hbits, hsum⟩ :=
    jAddress_sum dd m k n hdd hm.inRange hn
  obtain ⟨q', x', a', hq', hx', ha', hxm', hak', hbits', hsum'⟩ :=
    jAddress_sum dd' m' k' n' hdd' hm'.inRange hn'
  rw [hsum, hsum'] at e
  have e1 : dd = dd' := by omega
  have e2 : q = q' := by omega
  have e3 : a = a' := by omega
  have e4 : x = x' := by omega
  have e5 : n = n' := by omega
  subst e1 e2 e3 e4 e5
  refine ⟨rfl, ?_, ?_, rfl⟩
  · cases m with
    | X =>
      have : x = 1 := hxm.2 rfl
      exact (hxm'.1 this).symm
    | M ks =>
      cases m' with
      | X =>
        have : x = 1 := hxm'.2 rfl
        exact hxm.1 this
      | M ks' =>
        have hb : modBits ks = modBits ks' := by
          have h1 : (ModPart.M ks).bits = (ModPart.M ks').bits := by rw [hbits, hbits']
          exact h1
        rw [modBits_injective hm.1 hm'.1 hb]
  · cases k <;> cases k' <;> simp_all

/-- C5: `S9xMapInput` is injective on the `J` descriptors of the grammar: two
descriptors `J<dd>:[X+ | M<k>+ in increasing k](Axis|B)<n>` with `dd <= 63` and
`n <= 0x3FFF` are both mapped, and their addresses are equal only if they have
the same device index, the same modifier part, the same kind and the same
element index; the device, modifier, `X`, kind and index fields have no bit in
common. -/
theorem C5_mapInput_injective (PPB PBB dd dd1 : Nat) (m m1 : ModPart) (k k1 : ElemKind)
    (ds ds1 : List Char) (hdd : dd ≤ 63) (hdd1 : dd1 ≤ 63) (hm : m.Valid) (hm1 : m1.Valid)
    (hnum : IsNumeral ds) (hnum1 : IsNumeral ds1) (hv : decVal ds ≤ 0x3FFF)
    (hv1 : decVal ds1 ≤ 0x3FFF) :
    (S9xMapInputCall PPB PBB (jDescriptor dd m k ds)).address?
        = some (jAddress dd m k (decVal ds))
    ∧ ((S9xMapInputCall PPB PBB (jDescriptor dd m k ds)).address?
          = (S9xMapInputCall PPB PBB (jDescriptor dd1 m1 k1 ds1)).address?
        → dd = dd1 ∧ m = m1 ∧ k = k1 ∧ decVal ds = decVal ds1)
    ∧ (k ≠ k1 → S9xMapInputCall PPB PBB (jDescriptor dd m k ds)
          ≠ S9xMapInputCall PPB PBB (jDescriptor dd1 m1 k1 ds1))
    ∧ (∀ ks : List Nat, (∀ x ∈ ks, 1 ≤ x ∧ x ≤ 8) →
        (dd <<< 24) &&& modBits ks = 0 ∧ (dd <<< 24) &&& 0x4000 = 0
        ∧ (dd <<< 24) &&& 0x8000 = 0 ∧ (dd <<< 24) &&& decVal ds = 0
        ∧ modBits ks &&& 0x4000 = 0 ∧ modBits ks &&& 0x8000 = 0
        ∧ modBits ks &&& decVal ds = 0 ∧ 0x4000 &&& 0x8000 = 0
        ∧ 0x4000 &&& decVal ds = 0 ∧ 0x8000 &&& decVal ds = 0) := by
  have h := mapInputCall_valid PPB PBB dd m k ds (by omega) hm hnum hv
  have h1 := mapInputCall_valid PPB PBB dd1 m1 k1 ds1 (by omega) hm1 hnum1 hv1
  have hinj : (S9xMapInputCall PPB PBB (jDescriptor dd m k ds)).address?
          = (S9xMapInputCall PPB PBB (jDescriptor dd1 m1 k1 ds1)).address?
        → dd = dd1 ∧ m = m1 ∧ k = k1 ∧ decVal ds = decVal ds1 := by
    rw [h, h1, address_jCall, address_jCall]
    intro e
    exact jAddress_injective dd dd1 m m1 k k1 _ _ (by omega) (by omega) hm hm1 hv hv1
      (Option.some.inj e)
  refine ⟨by rw [h, address_jCall], hinj, ?_, ?_⟩
  · intro hk e
    exact hk (hinj (by rw [e])).2.2.1
  · intro ks hks
    obtain ⟨q, hq, hqe⟩ := modBits_field hks
    have e0 : dd <<< 24 = 16777216 * dd := by rw [Nat.shiftLeft_eq]; norm_num; omega
    rw [e0, hqe]
    refine ⟨?_, ?_, ?_, ?_, ?_, ?_, ?_, ?_, ?_, ?_⟩
    · exact and_eq_zero_of_lt _ _ _ 24 (by norm_num) (by omega)
    · exact and_eq_zero_of_lt _ _ _ 24 (by norm_num) (by norm_num)
    · exact and_eq_zero_of_lt _ _ _ 24 (by norm_num) (by norm_num)
    · exact and_eq_zero_of_lt _ _ _ 24 (by norm_num) (by omega)
    · exact and_eq_zero_of_lt _ _ _ 16 (by norm_num) (by norm_num)
    · exact and_eq_zero_of_lt _ _ _ 16 (by norm_num) (by norm_num)
    · exact and_eq_zero_of_lt _ _ _ 16 (by norm_num) (by omega)
    · decide
    · exact and_eq_zero_of_lt 0x4000 1 _ 14 (by norm_num) (by omega)
    · exact and_eq_zero_of_lt 0x8000 1 _ 15 (by norm_num) (by omega)

/-- C5 at the descriptors `J00:X+B6` and `J01:M1+M3+Axis06`. -/
theorem C5_mapInput_injective_witness :
    (S9xMapInputCall 0xFFFFFFF7 0xFFFFFEF7 (jDescriptor 0 .X .B ['6'])).address?
        = some (jAddress 0 .X .B (decVal ['6']))
    ∧ ((S9xMapInputCall 0xFFFFFFF7 0xFFFFFEF7 (jDescriptor 0 .X .B ['6'])).address?
          = (S9xMapInputCall 0xFFFFFFF7 0xFFFFFEF7
              (jDescriptor 1 (.M [1, 3]) .Axis ['0', '6'])).address?
        → 0 = 1 ∧ ModPart.X = ModPart.M [1, 3] ∧ ElemKind.B = ElemKind.Axis
          ∧ decVal ['6'] = decVal ['0', '6'])
    ∧ (ElemKind.B ≠ ElemKind.Axis →
        S9xMapInputCall 0xFFFFFFF7 0xFFFFFEF7 (jDescriptor 0 .X .B ['6'])
          ≠ S9xMapInputCall 0xFFFFFFF7 0xFFFFFEF7 (jDescriptor 1 (.M [1, 3]) .Axis ['0', '6']))
    ∧ (∀ ks : List Nat, (∀ x ∈ ks, 1 ≤ x ∧ x ≤ 8) →
        (0 <<< 24) &&& modBits ks = 0 ∧ (0 <<< 24) &&& 0x4000 = 0
        ∧ (0 <<< 24) &&& 0x8000 = 0 ∧ (0 <<< 24) &&& decVal ['6'] = 0
        ∧ modBits ks &&& 0x4000 = 0 ∧ modBits ks &&& 0x8000 = 0
        ∧ modBits ks &&& decVal ['6'] = 0 ∧ 0x4000 &&& 0x8000 = 0
        ∧ 0x4000 &&& decVal ['6'] = 0 ∧ 0x8000 &&& decVal ['6'] = 0) :=
  C5_mapInput_injective 0xFFFFFFF7 0xFFFFFEF7 0 1 .X (.M [1, 3]) .B .Axis ['6'] ['0', '6']
    (by decide) (by decide) (by unfold ModPart.Valid; trivial)
    (by unfold ModPart.Valid; decide) (by unfold IsNumeral; decide)
    (by unfold IsNumeral; decide) (by decide) (by decide)

theorem modifierLoop_snd (n : List Char) : ∀ (bs : List Char) (d d1 i : Nat),
    (modifierLoop n bs (d, i)).2 = (modifierLoop n bs (d1, i)).2 := by
  intro bs
  induction bs with
  | nil => intro d d1 i; rfl
  | cons b bs ih =>
    intro d d1 i
    simp only [modifierLoop]
    split
    · exact ih _ _ _
    · exact ih _ _ _

theorem scanModifiers_snd (n : List Char) (d i : Nat) :
    (scanModifiers n d i).2 = (scanModifiers n 0 i).2 := by
  simp only [scanModifiers]
  split
  · rfl
  · exact modifierLoop_snd n _ _ _ _

/-- A string that passes neither pseudo-descriptor test of `S9xMapInput`
(`isNativePseudoPointer_iff` and `isNativePseudoButton_iff` say which strings
pass them) and either does not begin with `J`, two decimal digits and `:`, or has neither
`Axis` nor `B` where its modifiers end, makes `S9xMapInput` end with the call of
`S9xMapDisplayInput`: none of `S9xMapPointer`, `S9xMapButton`, `S9xMapAxis` is
called, the binding table is left as it was, and the result is that of
`S9xMapDisplayInput` on the same arguments, which is `false`. -/
theorem mapInput_delegated_of_tests {T : Type} (ctl : Controls T) (n : List Char)
    (cmd : s9xcommand_t) (t : T)
    (hp : isNativePseudoPointer n = false) (hb : isNativePseudoButton n = false)
    (h : hasJPrefix n = false
      ∨ (strncmpEq (n.drop (elementStart n)) strAxis = false
          ∧ (charAt n (elementStart n) == 'B') = false)) :
    S9xMapInputCall ctl.PseudoPointerBase ctl.PseudoButtonBase n = .S9xMapDisplayInput
    ∧ S9xMapInput ctl n cmd t = (S9xMapDisplayInput n cmd, t)
    ∧ S9xMapDisplayInput n cmd = false := by
  have hc : S9xMapInputCall ctl.PseudoPointerBase ctl.PseudoButtonBase n
      = .S9xMapDisplayInput := by
    simp only [S9xMapInputCall, hp, hb, Bool.false_eq_true, if_false]
    by_cases hj : hasJPrefix n = true
    · rcases h with h | ⟨h1, h2⟩
      · rw [hj] at h; cases h
      · simp only [hj, Bool.not_true, Bool.false_eq_true, if_false, mapElement]
        rw [scanModifiers_snd]
        unfold elementStart at h1 h2
        simp only [h1, h2, Bool.false_eq_true, if_false]
    · simp [hj]
  refine ⟨hc, ?_, rfl⟩
  unfold S9xMapInput
  rw [hc]

/-- A string without a NUL that is not `PseudoPointer<1-8>`, that is not
`PseudoButton` followed by a numeral below 256 or from `2^31` on, and that
either does not begin with `J`, two decimal digits and `:`, or has neither
`Axis` nor `B` where its modifiers end, makes `S9xMapInput` end with the call
of `S9xMapDisplayInput`. -/
theorem mapInput_delegated {T : Type} (ctl : Controls T) (n : List Char)
    (cmd : s9xcommand_t) (t : T) (hn : NUL ∉ n)
    (hpp : ∀ c, is1to8 c = true → n ≠ strPseudoPointer ++ [c])
    (hpb : ∀ ds, IsNumeral ds → n = strPseudoButton ++ ds →
      256 ≤ decVal ds ∧ decVal ds < 2147483648)
    (h : hasJPrefix n = false
      ∨ (strncmpEq (n.drop (elementStart n)) strAxis = false
          ∧ (charAt n (elementStart n) == 'B') = false)) :
    S9xMapInputCall ctl.PseudoPointerBase ctl.PseudoButtonBase n = .S9xMapDisplayInput
    ∧ S9xMapInput ctl n cmd t = (S9xMapDisplayInput n cmd, t)
    ∧ S9xMapDisplayInput n cmd = false := by
  have hp : isNativePseudoPointer n = false := by
    cases hc : isNativePseudoPointer n with
    | false => rfl
    | true =>
      obtain ⟨c, h1, h2⟩ := (isNativePseudoPointer_iff n hn).1 hc
      exact absurd h2 (hpp c h1)
  have hb : isNativePseudoButton n = false := by
    cases hc : isNativePseudoButton n with
    | false => rfl
    | true =>
      obtain ⟨ds, h1, h2, h3⟩ := (isNativePseudoButton_iff n hn).1 hc
      obtain ⟨h4, h5⟩ := hpb ds h1 h2
      have hmax : ¬ (LONG_MAX < (decVal ds : Int)) := by
        unfold LONG_MAX
        omega
      rw [if_neg hmax] at h3
      rw [wrap32_small (by omega), asInt32_small h5] at h3
      omega
  exact mapInput_delegated_of_tests ctl n cmd t hp hb h

/-- C7: `PseudoButton4294967296` is no `PseudoButton<0-255>` and has no `J`
prefix, yet `S9xMapInput` does not hand it to `S9xMapDisplayInput`: it ends
with `S9xMapButton` on `PseudoButtonBase + 0`, returns that call's result and
leaves the binding inserted; `PseudoButton2147483648` is mapped likewise, on
`PseudoButtonBase + 0x80000000` modulo `2^32`. `S9xMapDisplayInput` would have
answered false. The strings `J0:B1`, `J000:B1`, `K00:B1` and `J00:Q1` are
handed to `S9xMapDisplayInput`. -/
theorem C7_pseudoButton_not_delegated :
    hasJPrefix (strPseudoButton ++ ['4', '2', '9', '4', '9', '6', '7', '2', '9', '6']) = false
    ∧ decVal ['4', '2', '9', '4', '9', '6', '7', '2', '9', '6'] = 4294967296
    ∧ S9xMapInputCall specControls.PseudoPointerBase specControls.PseudoButtonBase
        (strPseudoButton ++ ['4', '2', '9', '4', '9', '6', '7', '2', '9', '6'])
        = .S9xMapButton specControls.PseudoButtonBase
    ∧ S9xMapInput specControls
        (strPseudoButton ++ ['4', '2', '9', '4', '9', '6', '7', '2', '9', '6'])
        (S9xGetPortCommandT strRewind) []
        = (true, [(specControls.PseudoButtonBase, S9xGetPortCommandT strRewind)])
    ∧ S9xMapDisplayInput
        (strPseudoButton ++ ['4', '2', '9', '4', '9', '6', '7', '2', '9', '6'])
        (S9xGetPortCommandT strRewind) = false
    ∧ hasJPrefix (strPseudoButton ++ ['2', '1', '4', '7', '4', '8', '3', '6', '4', '8']) = false
    ∧ S9xMapInputCall specControls.PseudoPointerBase specControls.PseudoButtonBase
        (strPseudoButton ++ ['2', '1', '4', '7', '4', '8', '3', '6', '4', '8'])
        = .S9xMapButton 0x7FFFFEF7
    ∧ S9xMapInputCall specControls.PseudoPointerBase specControls.PseudoButtonBase
        ['J', '0', ':', 'B', '1'] = .S9xMapDisplayInput
    ∧ S9xMapInputCall specControls.PseudoPointerBase specControls.PseudoButtonBase
        ['J', '0', '0', '0', ':', 'B', '1'] = .S9xMapDisplayInput
    ∧ S9xMapInputCall specControls.PseudoPointerBase specControls.PseudoButtonBase
        ['K', '0', '0', ':', 'B', '1'] = .S9xMapDisplayInput
    ∧ S9xMapInputCall specControls.PseudoPointerBase specControls.PseudoButtonBase
        ['J', '0', '0', ':', 'Q', '1'] = .S9xMapDisplayInput := by
  refine ⟨?_, ?_, ?_, ?_, ?_, ?_, ?_, ?_, ?_, ?_, ?_⟩ <;> decide

/-! ## `S9xSetupDefaultKeymap` -/

theorem S9xMapInput_failure {T : Type} (ctl : Controls T)
    (hP : FailureKeepsTable ctl.S9xMapPointer) (hB : FailureKeepsTable ctl.S9xMapButton)
    (hA : FailureKeepsTable ctl.S9xMapAxis) (n : List Char) (cmd : s9xcommand_t) (t : T)
    (h : (S9xMapInput ctl n cmd t).1 = false) : (S9xMapInput ctl n cmd t).2 = t := by
  unfold S9xMapInput at h ⊢
  split at h
  · exact hP _ _ _ h
  · exact hB _ _ _ h
  · exact hA _ _ _ h
  · rfl

/-- One iteration of the loop, as the specification words it: the pair is
inserted when its command resolves and `S9xMapInput` accepts the descriptor;
otherwise one message is reported and the table is left as it was. -/
theorem keymapIteration_spec {T : Type} (ctl : Controls T)
    (hP : FailureKeepsTable ctl.S9xMapPointer) (hB : FailureKeepsTable ctl.S9xMapButton)
    (hA : FailureKeepsTable ctl.S9xMapAxis) (first second : List Char) (t : T) :
    keymapIteration ctl first second t
      = match resolveCommand ctl second with
        | none => (t, some (.unrecognizedCommand second))
        | some cmd =>
          if (S9xMapInput ctl first cmd t).1 then ((S9xMapInput ctl first cmd t).2, none)
          else (t, some (.couldNotMap second first)) := by
  have key : ∀ cmd, (if (!(S9xMapInput ctl first cmd t).1) = true
        then ((S9xMapInput ctl first cmd t).2, some (Diagnostic.couldNotMap second first))
        else ((S9xMapInput ctl first cmd t).2, none))
      = if (S9xMapInput ctl first cmd t).1 then ((S9xMapInput ctl first cmd t).2, none)
        else (t, some (.couldNotMap second first)) := by
    intro cmd
    by_cases h : (S9xMapInput ctl first cmd t).1 = true
    · simp [h]
    · have h1 : (S9xMapInput ctl first cmd t).1 = false := by simpa using h
      simp [h1, S9xMapInput_failure ctl hP hB hA first cmd t h1]
  unfold keymapIteration resolveCommand
  by_cases h1 : (S9xGetPortCommandT second).type = .S9xBadMapping
  · by_cases h2 : (ctl.S9xGetCommandT second).type = .S9xBadMapping
    · simp [h1, h2]
    · simp only [h1, h2, if_true, if_false]
      exact key _
  · simp only [h1, if_false]
    exact key _

theorem keymapIteration_unchanged {T : Type} (ctl : Controls T)
    (hP : FailureKeepsTable ctl.S9xMapPointer) (hB : FailureKeepsTable ctl.S9xMapButton)
    (hA : FailureKeepsTable ctl.S9xMapAxis) (first second : List Char) (t : T)
    (h : (keymapIteration ctl first second t).2 ≠ none) :
    (keymapIteration ctl first second t).1 = t := by
  rw [keymapIteration_spec ctl hP hB hA] at h ⊢
  cases hr : resolveCommand ctl second with
  | none => rfl
  | some cmd =>
    simp only [hr] at h ⊢
    by_cases h1 : (S9xMapInput ctl first cmd t).1 = true
    · simp [h1] at h
    · simp [h1]

theorem keymapLoop_length {T : Type} (ctl : Controls T) :
    ∀ (ps : List (List Char × List Char)) (t : T), (keymapLoop ctl ps t).2.length = ps.length := by
  intro ps
  induction ps with
  | nil => intro t; rfl
  | cons p ps ih => intro t; simp [keymapLoop, ih]

theorem insertedPairs_count {T : Type} (ctl : Controls T) :
    ∀ (ps : List (List Char × List Char)) (t : T),
      (insertedPairs ctl ps t).length + ((keymapLoop ctl ps t).2.filterMap id).length
        = ps.length := by
  intro ps
  induction ps with
  | nil => intro t; rfl
  | cons p ps ih =>
    intro t
    have := ih (keymapIteration ctl p.1 p.2 t).1
    cases h : (keymapIteration ctl p.1 p.2 t).2 with
    | none =>
      simp only [insertedPairs, keymapLoop, h, if_true, List.length_cons,
        List.filterMap_cons_none, id]
      omega
    | some d =>
      simp only [insertedPairs, keymapLoop, h, List.length_cons, reduceCtorEq, if_false]
      rw [List.filterMap_cons_some (by rfl : id (some d) = some d), List.length_cons]
      omega

theorem insertedPairs_sublist {T : Type} (ctl : Controls T) :
    ∀ (ps : List (List Char × List Char)) (t : T), (insertedPairs ctl ps t).Sublist ps := by
  intro ps
  induction ps with
  | nil => intro t; exact List.Sublist.slnil
  | cons p ps ih =>
    intro t
    simp only [insertedPairs]
    split
    · exact (ih _).cons₂ _
    · exact (ih _).cons _

theorem keymapLoop_inserted {T : Type} (ctl : Controls T)
    (hP : FailureKeepsTable ctl.S9xMapPointer) (hB : FailureKeepsTable ctl.S9xMapButton)
    (hA : FailureKeepsTable ctl.S9xMapAxis) :
    ∀ (ps : List (List Char × List Char)) (t : T),
      (keymapLoop ctl (insertedPairs ctl ps t) t).1 = (keymapLoop ctl ps t).1
      ∧ (keymapLoop ctl (insertedPairs ctl ps t) t).2.filterMap id = [] := by
  intro ps
  induction ps with
  | nil => intro t; exact ⟨rfl, rfl⟩
  | cons p ps ih =>
    intro t
    by_cases h : (keymapIteration ctl p.1 p.2 t).2 = none
    · have := ih (keymapIteration ctl p.1 p.2 t).1
      simp only [insertedPairs, h, if_true, keymapLoop, List.filterMap_cons_none, id]
      exact this
    · have hu := keymapIteration_unchanged ctl hP hB hA p.1 p.2 t h
      have := ih t
      simp only [insertedPairs, h, if_false, keymapLoop, hu]
      exact this

/-- C8: `S9xSetupDefaultKeymap` first clears the binding table and then runs
its loop over the pairs in list order. An iteration inserts its pair exactly
when the command resolves (by `S9xGetPortCommandT` or else `S9xGetCommandT`) and
`S9xMapInput` accepts the descriptor; every other iteration reports exactly one
message and leaves the table as it was. Hence the number of inserted pairs plus
the number of messages is the length of the list, and the final table is the
one built from the sub-list of the inserted pairs alone, which reports nothing.
The mapping functions of `controls.cpp` are assumed to leave the table
unchanged when they answer `false`. -/
theorem C8_setupDefaultKeymap {T : Type} (ctl : Controls T)
    (hP : FailureKeepsTable ctl.S9xMapPointer) (hB : FailureKeepsTable ctl.S9xMapButton)
    (hA : FailureKeepsTable ctl.S9xMapAxis)
    (keymaps : List (List Char × List Char)) (t : T) :
    (S9xSetupDefaultKeymap ctl [] t).table = ctl.S9xUnmapAllControls t
    ∧ (S9xSetupDefaultKeymap ctl keymaps t).table
        = (keymapLoop ctl keymaps (ctl.S9xUnmapAllControls t)).1
    ∧ (∀ p ps t1, (keymapLoop ctl (p :: ps) t1).1
        = (keymapLoop ctl ps (keymapIteration ctl p.1 p.2 t1).1).1)
    ∧ (∀ first second t1, keymapIteration ctl first second t1
        = match resolveCommand ctl second with
          | none => (t1, some (.unrecognizedCommand second))
          | some cmd =>
            if (S9xMapInput ctl first cmd t1).1 then ((S9xMapInput ctl first cmd t1).2, none)
            else (t1, some (.couldNotMap second first)))
    ∧ (insertedPairs ctl keymaps (ctl.S9xUnmapAllControls t)).length
        + (S9xSetupDefaultKeymap ctl keymaps t).diagnostics.length = keymaps.length
    ∧ (insertedPairs ctl keymaps (ctl.S9xUnmapAllControls t)).Sublist keymaps
    ∧ (S9xSetupDefaultKeymap ctl
          (insertedPairs ctl keymaps (ctl.S9xUnmapAllControls t)) t).table
        = (S9xSetupDefaultKeymap ctl keymaps t).table
    ∧ (S9xSetupDefaultKeymap ctl
          (insertedPairs ctl keymaps (ctl.S9xUnmapAllControls t)) t).diagnostics = [] := by
  refine ⟨rfl, rfl, fun _ _ _ => rfl, keymapIteration_spec ctl hP hB hA, ?_, ?_, ?_, ?_⟩
  · exact insertedPairs_count ctl keymaps _
  · exact insertedPairs_sublist ctl keymaps _
  · exact (keymapLoop_inserted ctl hP hB hA keymaps _).1
  · exact (keymapLoop_inserted ctl hP hB hA keymaps _).2

theorem bindingInsert_keeps : FailureKeepsTable bindingInsert := by
  intro id cmd t h
  simp [bindingInsert] at h

/-- C8 on the binding table of the specification: the pairs `J00:B0`,
`J0:B1` and `J00:Axis1` give two bindings and one message. -/
theorem C8_setupDefaultKeymap_witness :
    (FailureKeepsTable specControls.S9xMapPointer ∧ FailureKeepsTable specControls.S9xMapButton
      ∧ FailureKeepsTable specControls.S9xMapAxis)
    ∧ ((S9xSetupDefaultKeymap specControls exampleKeymaps []).table.length = 2
      ∧ (S9xSetupDefaultKeymap specControls exampleKeymaps []).diagnostics
          = [.couldNotMap ['J', 'S', '1', ' ', 'M', 'e', 't', 'a', '2'] ['J', '0', ':', 'B', '1']]
      ∧ (insertedPairs specControls exampleKeymaps []).length = 2)
    ∧ (insertedPairs specControls exampleKeymaps (specControls.S9xUnmapAllControls [])).length
        + (S9xSetupDefaultKeymap specControls exampleKeymaps []).diagnostics.length
        = exampleKeymaps.length
    ∧ (S9xSetupDefaultKeymap specControls
          (insertedPairs specControls exampleKeymaps (specControls.S9xUnmapAllControls []))
          []).table
        = (S9xSetupDefaultKeymap specControls exampleKeymaps []).table :=
  have h := C8_setupDefaultKeymap specControls bindingInsert_keeps bindingInsert_keeps
    bindingInsert_keeps exampleKeymaps []
  ⟨⟨bindingInsert_keeps, bindingInsert_keeps, bindingInsert_keeps⟩,
    ⟨by decide, by decide, by decide⟩, h.2.2.2.2.1, h.2.2.2.2.2.2.1⟩

/-! ## `S9xSyncSpeed` -/

theorem advance_micros (a : timeval) (ft : Nat) (h : 0 ≤ a.tv_usec) :
    (advance a ft).micros = a.micros + ft ∧ 0 ≤ (advance a ft).tv_usec
      ∧ a.tv_sec ≤ (advance a ft).tv_sec := by
  unfold advance timeval.micros
  by_cases hc : a.tv_usec + (ft : Int) ≥ 1000000
  · have h1 : (a.tv_usec + (ft : Int)).tdiv 1000000 = (a.tv_usec + (ft : Int)) / 1000000 :=
      Int.tdiv_eq_ediv (by omega) (by norm_num)
    have h2 : (a.tv_usec + (ft : Int)).tmod 1000000 = (a.tv_usec + (ft : Int)) % 1000000 :=
      Int.tmod_eq_emod (by omega) (by norm_num)
    simp only [hc, if_true, h1, h2]
    omega
  · simp only [hc, if_false]
    omega

theorem advance_usec_lt (a : timeval) (ft : Nat) : (advance a ft).tv_usec < 1000000 := by
  unfold advance
  by_cases hc : a.tv_usec + (ft : Int) ≥ 1000000
  · have h2 : (a.tv_usec + (ft : Int)).tmod 1000000 = (a.tv_usec + (ft : Int)) % 1000000 :=
      Int.tmod_eq_emod (by omega) (by norm_num)
    simp only [hc, if_true, h2]
    omega
  · simp only [hc, if_false]
    omega

theorem afterSeek_fields (st : SyncState) :
    (afterSeek st).SoundSync = st.SoundSync ∧ (afterSeek st).DumpStreams = st.DumpStreams
    ∧ (afterSeek st).TurboMode = st.TurboMode ∧ (afterSeek st).SkipFrames = st.SkipFrames
    ∧ (afterSeek st).FrameTime = st.FrameTime ∧ (afterSeek st).SkippedFrames = st.SkippedFrames
    ∧ (afterSeek st).next1 = st.next1 := by
  unfold afterSeek
  split <;> simp

theorem deadlineAt_afterSeek (st : SyncState) (now : timeval) :
    deadlineAt (afterSeek st) now = deadlineAt st now := by
  simp only [deadlineAt, (afterSeek_fields st).2.2.2.2.2.2]

theorem renderDecision_afterSeek (AUTO : Nat) (st : SyncState) (now : timeval) :
    renderDecision AUTO (afterSeek st) now = renderDecision AUTO st now := by
  have h := afterSeek_fields st
  simp only [renderDecision, skipLimit, deadlineAt_afterSeek, h.2.2.2.1, h.2.2.2.2.2.1]

theorem lagResync_afterSeek (AUTO : Nat) (st : SyncState) (now : timeval) :
    lagResync AUTO (afterSeek st) now = lagResync AUTO st now := by
  simp only [lagResync, renderDecision_afterSeek, deadlineAt_afterSeek]

theorem waitDeadline_afterSeek (AUTO : Nat) (st : SyncState) (now : timeval) :
    waitDeadline AUTO (afterSeek st) now = waitDeadline AUTO st now := by
  simp only [waitDeadline, lagResync_afterSeek, deadlineAt_afterSeek]

/-- What a normal-pacing call leaves, in terms of the render decision, the lag
resync and the wait loop. -/
theorem syncSpeed_normal (AUTO : Nat) (st : SyncState) (clock : List timeval) (o : SyncOut)
    (hn : NormalPacing st) (h : S9xSyncSpeed AUTO st clock = some o) :
    ∃ now clock1, clock = now :: clock1
      ∧ waitLoop (waitDeadline AUTO st now) now clock1 = some (o.sleeps, o.clock)
      ∧ o.resync = lagResync AUTO st now
      ∧ o.state.RenderThisFrame = renderDecision AUTO st now
      ∧ o.state.SkippedFrames = (if renderDecision AUTO st now then 0
          else (st.SkippedFrames + 1) % 4294967296)
      ∧ o.state.next1 = advance (waitDeadline AUTO st now) st.FrameTime
      ∧ NormalPacing o.state ∧ o.state.FrameTime = st.FrameTime
      ∧ o.state.SkipFrames = st.SkipFrames := by
  obtain ⟨hs, hd, ht⟩ := hn
  have ha := afterSeek_fields st
  have ht1 : (afterSeek st).TurboMode = false := by rw [ha.2.2.1, ht]
  unfold S9xSyncSpeed at h
  simp only [hs, hd, ht1, Bool.false_eq_true, if_false] at h
  cases clock with
  | nil => cases h
  | cons now clock1 =>
    refine ⟨now, clock1, rfl, ?_⟩
    simp only [normalPacing, waitDeadline_afterSeek, renderDecision_afterSeek,
      lagResync_afterSeek] at h
    split at h
    · cases h
    · rename_i sl clock2 hw
      cases h
      refine ⟨hw, rfl, rfl, ?_, ?_, ?_, ?_, ?_⟩
      · simp only [ha.2.2.2.2.2.1]
      · simp only [ha.2.2.2.2.1]
      · exact ⟨by simp only [ha.1, hs], by simp only [ha.2.1, hd], by simp only [ha.2.2.1, ht]⟩
      · exact ha.2.2.2.2.1
      · exact ha.2.2.2.1

theorem deadlineAt_set (st : SyncState) (now : timeval) (h : 1 ≤ st.next1.tv_sec) :
    deadlineAt st now = st.next1 := by
  unfold deadlineAt
  have : st.next1.tv_sec ≠ 0 := by omega
  simp [this]

/-- A normal-pacing call without lag resync advances the deadline it works with
by exactly `FrameTime` and leaves it normalised. -/
theorem syncSpeed_step (AUTO : Nat) (st : SyncState) (now : timeval) (clock1 : List timeval)
    (o : SyncOut) (hn : NormalPacing st) (h : S9xSyncSpeed AUTO st (now :: clock1) = some o)
    (hr : o.resync = false) (hsec : 1 ≤ (deadlineAt st now).tv_sec)
    (hus : 0 ≤ (deadlineAt st now).tv_usec) :
    o.state.next1.micros = (deadlineAt st now).micros + st.FrameTime
    ∧ 1 ≤ o.state.next1.tv_sec ∧ 0 ≤ o.state.next1.tv_usec ∧ o.state.next1.tv_usec < 1000000
    ∧ NormalPacing o.state ∧ o.state.FrameTime = st.FrameTime := by
  obtain ⟨now1, c1, hc, -, hres, -, -, hnext, hnp, hft, -⟩ := syncSpeed_normal AUTO st _ o hn h
  cases hc
  have hw : waitDeadline AUTO st now = deadlineAt st now := by
    unfold waitDeadline
    rw [← hres, hr]
    simp
  rw [hw] at hnext
  obtain ⟨a1, a2, a3⟩ := advance_micros (deadlineAt st now) st.FrameTime hus
  have a4 := advance_usec_lt (deadlineAt st now) st.FrameTime
  rw [hnext]
  exact ⟨a1, by omega, a2, a4, hnp, hft⟩

/-- From a set deadline, `n` normal-pacing calls without lag resync: after call
`i + 1` the deadline is the initial one plus `(i + 1) * FrameTime`. -/
theorem syncTicks_from_set (AUTO : Nat) : ∀ (n : Nat) (st : SyncState) (clock : List timeval)
    (outs : List SyncOut), NormalPacing st → 1 ≤ st.next1.tv_sec → 0 ≤ st.next1.tv_usec →
    syncTicks AUTO n st clock = some outs → (∀ o ∈ outs, o.resync = false) →
    ∀ (i : Nat) (o : SyncOut), outs[i]? = some o →
      o.state.next1.micros = st.next1.micros + ((i : Int) + 1) * st.FrameTime
      ∧ 0 ≤ o.state.next1.tv_usec ∧ o.state.next1.tv_usec < 1000000 := by
  intro n
  induction n with
  | zero =>
    intro st clock outs _ _ _ h _ i o hi
    simp only [syncTicks, Option.some.injEq] at h
    subst h
    simp at hi
  | succ n ih =>
    intro st clock outs hn hsec hus h hno i o hi
    simp only [syncTicks] at h
    cases h1 : S9xSyncSpeed AUTO st clock with
    | none => simp [h1] at h
    | some o1 =>
      simp only [h1] at h
      cases h2 : syncTicks AUTO n o1.state o1.clock with
      | none => simp [h2] at h
      | some os =>
        simp only [h2, Option.some.injEq] at h
        subst h
        obtain ⟨now, c1, hc, -⟩ := syncSpeed_normal AUTO st _ o1 hn h1
        subst hc
        have hd := deadlineAt_set st now hsec
        obtain ⟨s1, s2, s3, s4, s5, s6⟩ := syncSpeed_step AUTO st now c1 o1 hn h1
          (hno o1 (List.mem_cons_self _ _)) (by rw [hd]; exact hsec) (by rw [hd]; exact hus)
        rw [hd] at s1
        cases i with
        | zero =>
          simp only [List.getElem?_cons_zero, Option.some.injEq] at hi
          subst hi
          refine ⟨?_, s3, s4⟩
          rw [s1]; push_cast; ring
        | succ j =>
          simp only [List.getElem?_cons_succ] at hi
          obtain ⟨r1, r2, r3⟩ := ih o1.state o1.clock os s5 s2 s3 h2
            (fun x hx => hno x (List.mem_cons_of_mem _ hx)) j o hi
          refine ⟨?_, r2, r3⟩
          rw [r1, s1, s6]; push_cast; ring

theorem syncTicks_length (AUTO : Nat) : ∀ (n : Nat) (st : SyncState) (clock : List timeval)
    (outs : List SyncOut), syncTicks AUTO n st clock = some outs → outs.length = n := by
  intro n
  induction n with
  | zero => intro st clock outs h; simp only [syncTicks, Option.some.injEq] at h; subst h; rfl
  | succ n ih =>
    intro st clock outs h
    simp only [syncTicks] at h
    cases h1 : S9xSyncSpeed AUTO st clock with
    | none => simp [h1] at h
    | some o1 =>
      simp only [h1] at h
      cases h2 : syncTicks AUTO n o1.state o1.clock with
      | none => simp [h2] at h
      | some os =>
        simp only [h2, Option.some.injEq] at h
        subst h
        simp [ih _ _ _ h2]

/-- C9 as stated fails when the wall clock reads less than one second: with
the first sample at 5 microseconds and `FrameTime = 16667`, the first call leaves
the deadline `{0, 16673}`, whose `tv_sec` is still the zero sentinel, so the
second call initialises again and leaves `{0, 16675}` instead of
`5 + 1 + 2 * 16667` microseconds; no lag resync happened. -/
theorem C9_zero_second_reinitialised :
    (syncTicks 200 2 initialSync
        [{ tv_sec := 0, tv_usec := 5 }, { tv_sec := 0, tv_usec := 6 },
         { tv_sec := 0, tv_usec := 7 }, { tv_sec := 0, tv_usec := 8 }]).map
      (fun outs => outs.map (fun o => (o.state.next1, o.resync)))
      = some [({ tv_sec := 0, tv_usec := 16673 }, false),
              ({ tv_sec := 0, tv_usec := 16675 }, false)]
    ∧ timeval.micros { tv_sec := 0, tv_usec := 16675 }
        ≠ (timeval.micros { tv_sec := 0, tv_usec := 5 } + 1) + 2 * 16667 := by
  refine ⟨?_, ?_⟩ <;> decide

/-- C9, amended: provided the wall time sampled at the first call has
`tv_sec >= 1` (a deadline whose `tv_sec` is zero is taken for "no deadline yet"
and initialised again), the deadline does not drift: for every `n`, every
`FrameTime` and every wall clock, if `n` consecutive normal-pacing calls that
start without a deadline return and none of them resyncs, then after call
`i + 1` the deadline `tv_sec * 1000000 + tv_usec` is exactly (wall time sampled
at the first call + 1) + `(i + 1) * FrameTime`, with `0 <= tv_usec < 1000000`. -/
theorem C9_deadline_no_drift (AUTO n : Nat) (st : SyncState) (t0 : timeval)
    (rest : List timeval) (outs : List SyncOut)
    (hn : NormalPacing st) (h0 : st.next1.tv_sec = 0)
    (hsec : 1 ≤ t0.tv_sec) (hus : 0 ≤ t0.tv_usec)
    (hrun : syncTicks AUTO n st (t0 :: rest) = some outs)
    (hno : ∀ o ∈ outs, o.resync = false) :
    outs.length = n
    ∧ ∀ (i : Nat) (o : SyncOut), outs[i]? = some o →
        o.state.next1.micros = (t0.micros + 1) + ((i : Int) + 1) * st.FrameTime
        ∧ 0 ≤ o.state.next1.tv_usec ∧ o.state.next1.tv_usec < 1000000 := by
  refine ⟨syncTicks_length AUTO n st _ outs hrun, ?_⟩
  intro i o hi
  cases n with
  | zero =>
    simp only [syncTicks, Option.some.injEq] at hrun
    subst hrun
    simp at hi
  | succ n =>
    simp only [syncTicks] at hrun
    cases h1 : S9xSyncSpeed AUTO st (t0 :: rest) with
    | none => simp [h1] at hrun
    | some o1 =>
      simp only [h1] at hrun
      cases h2 : syncTicks AUTO n o1.state o1.clock with
      | none => simp [h2] at hrun
      | some os =>
        simp only [h2, Option.some.injEq] at hrun
        subst hrun
        have hd : deadlineAt st t0 = { tv_sec := t0.tv_sec, tv_usec := t0.tv_usec + 1 } := by
          simp [deadlineAt, h0]
        obtain ⟨s1, s2, s3, s4, s5, s6⟩ := syncSpeed_step AUTO st t0 rest o1 hn h1
          (hno o1 (List.mem_cons_self _ _)) (by rw [hd]; exact hsec)
          (by rw [hd]; show 0 ≤ t0.tv_usec + 1; omega)
        have hm : (deadlineAt st t0).micros = t0.micros + 1 := by
          rw [hd]; simp only [timeval.micros]; ring
        rw [hm] at s1
        cases i with
        | zero =>
          simp only [List.getElem?_cons_zero, Option.some.injEq] at hi
          subst hi
          refine ⟨?_, s3, s4⟩
          rw [s1]; push_cast; ring
        | succ j =>
          simp only [List.getElem?_cons_succ] at hi
          obtain ⟨r1, r2, r3⟩ := syncTicks_from_set AUTO n o1.state o1.clock os s5 s2 s3 h2
            (fun x hx => hno x (List.mem_cons_of_mem _ hx)) j o hi
          refine ⟨?_, r2, r3⟩
          rw [r1, s1, s6]; push_cast; ring

/-- C9, amended, on a run of 600 calls with `FrameTime = 16667` that starts one
microsecond before second 1700000001. -/
theorem C9_deadline_no_drift_witness :
    (NormalPacing initialSync ∧ initialSync.next1.tv_sec = 0
      ∧ 1 ≤ (ofMicros 1700000000999999).tv_sec ∧ 0 ≤ (ofMicros 1700000000999999).tv_usec
      ∧ syncTicks 200 600 initialSync (pacedClock 1700000000999999 16667 600) = some pacedRun
      ∧ ∀ o ∈ pacedRun, o.resync = false)
    ∧ pacedRun.length = 600
    ∧ ∀ (i : Nat) (o : SyncOut), pacedRun[i]? = some o →
        o.state.next1.micros
          = ((ofMicros 1700000000999999).micros + 1) + ((i : Int) + 1) * initialSync.FrameTime
        ∧ 0 ≤ o.state.next1.tv_usec ∧ o.state.next1.tv_usec < 1000000 :=
  have h1 : NormalPacing initialSync := ⟨rfl, rfl, rfl⟩
  have h2 : (1 : Int) ≤ (ofMicros 1700000000999999).tv_sec := by decide
  have h3 : (0 : Int) ≤ (ofMicros 1700000000999999).tv_usec := by decide
  have h4 : syncTicks 200 600 initialSync (pacedClock 1700000000999999 16667 600)
      = some pacedRun := by decide!
  have h5 : ∀ o ∈ pacedRun, o.resync = false := by decide!
  ⟨⟨h1, rfl, h2, h3, h4, h5⟩,
    C9_deadline_no_drift 200 600 initialSync (ofMicros 1700000000999999)
      (ofMicros (1700000000999999 + 1)
        :: (List.range (600 - 1)).map
            (fun k => ofMicros (1700000000999999 + 1 + ((k : Int) + 1) * (16667 : Nat))))
      pacedRun h1 rfl h2 h3 h4 h5⟩

theorem timercmpLt_micros (a b : timeval) (ha0 : 0 ≤ a.tv_usec) (ha1 : a.tv_usec < 1000000)
    (hb0 : 0 ≤ b.tv_usec) (hb1 : b.tv_usec < 1000000) :
    timercmpLt a b = decide (a.micros < b.micros) := by
  unfold timercmpLt timeval.micros
  by_cases h : a.tv_sec = b.tv_sec
  · simp only [h, if_true]
    congr 1
    apply propext
    constructor <;> intro h1 <;> omega
  · simp only [h, if_false]
    congr 1
    apply propext
    constructor <;> intro h1 <;> omega

theorem timercmpGt_micros (a b : timeval) (ha0 : 0 ≤ a.tv_usec) (ha1 : a.tv_usec < 1000000)
    (hb0 : 0 ≤ b.tv_usec) (hb1 : b.tv_usec < 1000000) :
    timercmpGt a b = decide (a.micros > b.micros) := by
  unfold timercmpGt timeval.micros
  by_cases h : a.tv_sec = b.tv_sec
  · simp only [h, if_true]
    congr 1
    apply propext
    constructor <;> intro h1 <;> omega
  · simp only [h, if_false]
    congr 1
    apply propext
    constructor <;> intro h1 <;> omega

theorem waitLoop_done (d now : timeval) (clock : List timeval) (h : timercmpGt d now = false) :
    waitLoop d now clock = some ([], clock) := by
  unfold waitLoop
  simp [h]

theorem syncSpeed_returns (AUTO : Nat) (st : SyncState) (now : timeval)
    (clock1 : List timeval) (sl : List Nat) (c2 : List timeval) (hn : NormalPacing st)
    (hw : waitLoop (waitDeadline AUTO st now) now clock1 = some (sl, c2)) :
    ∃ o, S9xSyncSpeed AUTO st (now :: clock1) = some o := by
  obtain ⟨hs, hd, ht⟩ := hn
  have ht1 : (afterSeek st).TurboMode = false := by rw [(afterSeek_fields st).2.2.1, ht]
  unfold S9xSyncSpeed
  simp only [hs, hd, ht1, Bool.false_eq_true, if_false, normalPacing, waitDeadline_afterSeek, hw]
  exact ⟨_, rfl⟩

/-- C10 as stated fails on a call that renders: two seconds past the deadline
`{100, 0}`, a call with the fixed policy `SkipFrames = 1`, and a call with the
automatic policy and the skip counter at 9, both render, do not resync, and
leave the deadline `{100, 16667}` instead of `{102, 16667}`; with the counter at
0 the automatic policy skips the frame and resyncs. It also fails for a gap of
`2^32 + 100` microseconds on a call that skips the frame (`SkipFrames = 3`):
the `unsigned lag` is 100 and the deadline is not snapped. -/
theorem C10_render_tick_not_resynced :
    (S9xSyncSpeed 200 { initialSync with next1 := { tv_sec := 100, tv_usec := 0 }, SkipFrames := 1 }
        [{ tv_sec := 102, tv_usec := 0 }]).map
      (fun o => (o.state.RenderThisFrame, o.resync, o.state.next1))
      = some (true, false, { tv_sec := 100, tv_usec := 16667 })
    ∧ (S9xSyncSpeed 200
        { initialSync with next1 := { tv_sec := 100, tv_usec := 0 }, SkippedFrames := 9 }
        [{ tv_sec := 102, tv_usec := 0 }]).map
      (fun o => (o.state.RenderThisFrame, o.resync, o.state.next1))
      = some (true, false, { tv_sec := 100, tv_usec := 16667 })
    ∧ (S9xSyncSpeed 200 { initialSync with next1 := { tv_sec := 100, tv_usec := 0 } }
        [{ tv_sec := 102, tv_usec := 0 }]).map
      (fun o => (o.state.RenderThisFrame, o.resync, o.state.next1))
      = some (false, true, { tv_sec := 102, tv_usec := 16667 })
    ∧ (S9xSyncSpeed 200 { initialSync with next1 := { tv_sec := 100, tv_usec := 0 }, SkipFrames := 3 }
        [{ tv_sec := 4394, tv_usec := 967396 }]).map
      (fun o => (o.state.RenderThisFrame, o.resync, o.state.next1))
      = some (false, false, { tv_sec := 100, tv_usec := 16667 }) := by
  refine ⟨?_, ?_, ?_, ?_⟩ <;> decide

/-- C10, amended: on a normal-pacing call that finds a deadline set and samples
a wall time past it by more than 500,000 and less than `2^32` microseconds,
`S9xSyncSpeed` returns without sleeping; the frame is rendered exactly when
`SkippedFrames + 1 >= limit`, with `limit` 10 under `AUTO_FRAMERATE` and
`Settings.SkipFrames` under a fixed policy. If the frame is not rendered the
deadline is snapped to the sampled wall time before it is advanced, so that
after the call it equals `now + FrameTime`; if the frame is rendered the
deadline is not snapped and after the call equals the old deadline plus
`FrameTime`. -/
theorem C10_lag_resync (AUTO : Nat) (st : SyncState) (now : timeval) (rest : List timeval)
    (hn : NormalPacing st) (hset : st.next1.tv_sec ≠ 0)
    (hd0 : 0 ≤ st.next1.tv_usec) (hd1 : st.next1.tv_usec < 1000000)
    (hn0 : 0 ≤ now.tv_usec) (hn1 : now.tv_usec < 1000000)
    (hlag : 500000 < now.micros - st.next1.micros)
    (hgap : now.micros - st.next1.micros < 4294967296) :
    ∃ o, S9xSyncSpeed AUTO st (now :: rest) = some o ∧ o.sleeps = [] ∧ o.clock = rest
      ∧ o.state.RenderThisFrame
          = decide ((st.SkippedFrames + 1) % 4294967296
              ≥ (if st.SkipFrames = AUTO then 10 else st.SkipFrames))
      ∧ (o.state.RenderThisFrame = false →
          o.resync = true ∧ o.state.next1.micros = now.micros + st.FrameTime)
      ∧ (o.state.RenderThisFrame = true →
          o.resync = false ∧ o.state.next1.micros = st.next1.micros + st.FrameTime) := by
  have hd : deadlineAt st now = st.next1 := by simp [deadlineAt, hset]
  have hlt : timercmpLt st.next1 now = true := by
    rw [timercmpLt_micros _ _ hd0 hd1 hn0 hn1]
    simp only [decide_eq_true_eq]
    omega
  have hlim : skipLimit AUTO st st.next1 now = (if st.SkipFrames = AUTO then 10 else st.SkipFrames) := by
    simp [skipLimit, hlt]
  have hw32 : wrap32 ((now.tv_sec - st.next1.tv_sec) * 1000000 + now.tv_usec - st.next1.tv_usec)
      ≥ 500000 := by
    have e : (now.tv_sec - st.next1.tv_sec) * 1000000 + now.tv_usec - st.next1.tv_usec
        = now.micros - st.next1.micros := by
      simp only [timeval.micros]; ring
    rw [e]
    unfold wrap32
    omega
  have hres : lagResync AUTO st now = !renderDecision AUTO st now := by
    simp only [lagResync, hd, hlt, Bool.and_true, decide_eq_true hw32]
  have hgt1 : timercmpGt now now = false := by simp [timercmpGt]
  have hgt2 : timercmpGt st.next1 now = false := by
    rw [timercmpGt_micros _ _ hd0 hd1 hn0 hn1]
    simp only [decide_eq_false_iff_not]
    omega
  have hwait : waitLoop (waitDeadline AUTO st now) now rest = some ([], rest) := by
    apply waitLoop_done
    unfold waitDeadline
    split
    · exact hgt1
    · rw [hd]; exact hgt2
  obtain ⟨o, ho⟩ := syncSpeed_returns AUTO st now rest [] rest hn hwait
  obtain ⟨now1, c1, hc, hw, hr, hrender, -, hnext, -, -, -⟩ := syncSpeed_normal AUTO st _ o hn ho
  cases hc
  rw [hwait] at hw
  have hpair := Prod.mk.inj (Option.some.inj hw)
  have hsl : o.sleeps = [] := hpair.1.symm
  have hcl : o.clock = rest := hpair.2.symm
  refine ⟨o, ho, hsl, hcl, ?_, ?_, ?_⟩
  · rw [hrender]; simp only [renderDecision, hd, hlim]
  · intro hf
    rw [hrender] at hf
    have hr1 : o.resync = true := by rw [hr, hres, hf]; rfl
    refine ⟨hr1, ?_⟩
    have : waitDeadline AUTO st now = now := by
      unfold waitDeadline; rw [← hr, hr1]; simp
    rw [hnext, this]
    exact (advance_micros now st.FrameTime hn0).1
  · intro hf
    rw [hrender] at hf
    have hr1 : o.resync = false := by rw [hr, hres, hf]; rfl
    refine ⟨hr1, ?_⟩
    have : waitDeadline AUTO st now = st.next1 := by
      unfold waitDeadline; rw [← hr, hr1, hd]; simp
    rw [hnext, this]
    exact (advance_micros st.next1 st.FrameTime hd0).1

/-- C10, amended, two seconds past the deadline `{100, 0}`. -/
theorem C10_lag_resync_witness :
    (NormalPacing laggingSync ∧ laggingSync.next1.tv_sec ≠ 0
      ∧ 500000 < timeval.micros { tv_sec := 102, tv_usec := 0 } - laggingSync.next1.micros
      ∧ timeval.micros { tv_sec := 102, tv_usec := 0 } - laggingSync.next1.micros < 4294967296)
    ∧ ∃ o, S9xSyncSpeed 200 laggingSync [{ tv_sec := 102, tv_usec := 0 }] = some o
      ∧ o.sleeps = [] ∧ o.clock = []
      ∧ o.state.RenderThisFrame
          = decide ((laggingSync.SkippedFrames + 1) % 4294967296
              ≥ (if laggingSync.SkipFrames = 200 then 10 else laggingSync.SkipFrames))
      ∧ (o.state.RenderThisFrame = false →
          o.resync = true
          ∧ o.state.next1.micros
              = timeval.micros { tv_sec := 102, tv_usec := 0 } + laggingSync.FrameTime)
      ∧ (o.state.RenderThisFrame = true →
          o.resync = false
          ∧ o.state.next1.micros = laggingSync.next1.micros + laggingSync.FrameTime) :=
  have h1 : NormalPacing laggingSync := ⟨rfl, rfl, rfl⟩
  have h2 : laggingSync.next1.tv_sec ≠ 0 := by decide
  have h3 : 500000 < timeval.micros { tv_sec := 102, tv_usec := 0 } - laggingSync.next1.micros := by
    decide
  have h4 : timeval.micros { tv_sec := 102, tv_usec := 0 } - laggingSync.next1.micros
      < 4294967296 := by decide
  ⟨⟨h1, h2, h3, h4⟩,
    C10_lag_resync 200 laggingSync { tv_sec := 102, tv_usec := 0 } [] h1 h2 (by decide)
      (by decide) (by decide) (by decide) h3 h4⟩

/-- C11: on every normal-pacing call that returns, with normalised samples and
a deadline that is unset or normalised, `RenderThisFrame` is `true` exactly
when the incremented counter `SkippedFrames + 1` (a `uint32`) is at least
`limit`, where `limit` is 10 if the policy is `AUTO_FRAMERATE` and the deadline
the call works with is strictly before the sampled wall time, 1 if the policy
is `AUTO_FRAMERATE` and it is not, and `Settings.SkipFrames` for a fixed policy;
`SkippedFrames` becomes 0 when the call renders and the incremented counter
otherwise. Short of the overflow of the counter the incremented counter is
`SkippedFrames + 1`. -/
theorem C11_render_decision (AUTO : Nat) (st : SyncState) (now : timeval)
    (clock1 : List timeval) (o : SyncOut) (hn : NormalPacing st)
    (hn0 : 0 ≤ now.tv_usec) (hn1 : now.tv_usec < 1000000)
    (hd : st.next1.tv_sec = 0 ∨ (0 ≤ st.next1.tv_usec ∧ st.next1.tv_usec < 1000000))
    (h : S9xSyncSpeed AUTO st (now :: clock1) = some o) :
    (o.state.RenderThisFrame = true ↔
        (st.SkippedFrames + 1) % 4294967296
          ≥ (if st.SkipFrames = AUTO then
               (if (deadlineAt st now).micros < now.micros then 10 else 1)
             else st.SkipFrames))
    ∧ o.state.SkippedFrames
        = (if o.state.RenderThisFrame then 0 else (st.SkippedFrames + 1) % 4294967296)
    ∧ (st.SkippedFrames + 1 < 4294967296 →
        (st.SkippedFrames + 1) % 4294967296 = st.SkippedFrames + 1) := by
  obtain ⟨now1, c1, hc, -, -, hrender, hsk, -, -, -, -⟩ := syncSpeed_normal AUTO st _ o hn h
  cases hc
  have hlt : timercmpLt (deadlineAt st now) now = decide ((deadlineAt st now).micros < now.micros) := by
    unfold deadlineAt
    by_cases h0 : st.next1.tv_sec = 0
    · simp only [h0, if_true, timercmpLt, timeval.micros]
      congr 1
      apply propext
      constructor <;> intro h1 <;> omega
    · simp only [h0, if_false]
      rcases hd with hd | hd
      · exact absurd hd h0
      · exact timercmpLt_micros _ _ hd.1 hd.2 hn0 hn1
  refine ⟨?_, ?_, fun hlt1 => Nat.mod_eq_of_lt hlt1⟩
  · rw [hrender]
    simp only [renderDecision, skipLimit, hlt, decide_eq_true_eq]
  · rw [hsk, hrender]

/-- C12 as stated fails: with `Settings.SoundSync` set, or `Settings.DumpStreams`
set, and `RenderThisFrame` false before the call, `S9xSyncSpeed` returns with
`RenderThisFrame` still false. -/
theorem C12_render_flag_untouched :
    (S9xSyncSpeed 200 soundSyncState [{ tv_sec := 102, tv_usec := 0 }]).map
        (fun o => o.state.RenderThisFrame) = some false
    ∧ (S9xSyncSpeed 200 { initialSync with DumpStreams := true, RenderThisFrame := false }
        [{ tv_sec := 102, tv_usec := 0 }]).map
        (fun o => o.state.RenderThisFrame) = some false := by
  refine ⟨?_, ?_⟩ <;> decide

/-- C12, amended: whenever `Settings.SoundSync` or `Settings.DumpStreams` is set,
`S9xSyncSpeed` returns at once: it requests no sleep, reads no wall-clock
sample, and leaves every global as it was, so `RenderThisFrame` keeps the value
it had before the call. -/
theorem C12_sound_sync_returns (AUTO : Nat) (st : SyncState) (clock : List timeval)
    (h : st.SoundSync = true ∨ st.DumpStreams = true) :
    S9xSyncSpeed AUTO st clock
      = some { state := st, sleeps := [], resync := false, clock := clock } := by
  unfold S9xSyncSpeed
  rcases h with h | h
  · simp [h]
  · by_cases hs : st.SoundSync = true
    · simp [hs]
    · simp [hs, h]

/-- C12, amended, on the initial globals with sound sync on. -/
theorem C12_sound_sync_returns_witness :
    (soundSyncState.SoundSync = true ∨ soundSyncState.DumpStreams = true)
    ∧ S9xSyncSpeed 200 soundSyncState [{ tv_sec := 102, tv_usec := 0 }]
      = some { state := soundSyncState, sleeps := [], resync := false,
               clock := [{ tv_sec := 102, tv_usec := 0 }] } :=
  ⟨Or.inl rfl, C12_sound_sync_returns 200 soundSyncState _ (Or.inl rfl)⟩

/-- One turbo call with `FrameSkip < TurboSkipFrames`: no sleep, no sample read,
the deadline kept, `FrameSkip` counted modulo `TurboSkipFrames`, and the frame
rendered exactly when the count comes back to 0. -/
theorem syncSpeed_turbo (AUTO : Nat) (st : SyncState) (clock : List timeval)
    (ht : TurboPacing st) (hN : st.TurboSkipFrames < 4294967296)
    (hf : st.FrameSkip < st.TurboSkipFrames) :
    ∃ o, S9xSyncSpeed AUTO st clock = some o ∧ o.sleeps = [] ∧ o.clock = clock
      ∧ o.resync = false ∧ o.state.next1 = st.next1 ∧ TurboPacing o.state
      ∧ o.state.TurboSkipFrames = st.TurboSkipFrames
      ∧ o.state.FrameSkip = (st.FrameSkip + 1) % st.TurboSkipFrames
      ∧ (o.state.RenderThisFrame = true ↔ st.FrameSkip + 1 = st.TurboSkipFrames) := by
  obtain ⟨hs, hd, htm, hh⟩ := ht
  have ha : afterSeek st = st := by simp [afterSeek, hh]
  have hm : (st.FrameSkip + 1) % 4294967296 = st.FrameSkip + 1 := Nat.mod_eq_of_lt (by omega)
  have hcall : S9xSyncSpeed AUTO st clock
      = some { state := turboPacing st, sleeps := [], resync := false, clock := clock } := by
    unfold S9xSyncSpeed
    simp only [hs, hd, ha, htm, Bool.false_eq_true, if_false, if_true]
  refine ⟨_, hcall, rfl, rfl, rfl, ?_⟩
  show (turboPacing st).next1 = st.next1 ∧ TurboPacing (turboPacing st)
    ∧ (turboPacing st).TurboSkipFrames = st.TurboSkipFrames
    ∧ (turboPacing st).FrameSkip = (st.FrameSkip + 1) % st.TurboSkipFrames
    ∧ ((turboPacing st).RenderThisFrame = true ↔ st.FrameSkip + 1 = st.TurboSkipFrames)
  by_cases hr : st.FrameSkip + 1 ≥ st.TurboSkipFrames
  · have he : st.FrameSkip + 1 = st.TurboSkipFrames := by omega
    have e : turboPacing st
        = { st with FrameSkip := 0, SkippedFrames := 0, RenderThisFrame := true } := by
      unfold turboPacing
      rw [hm]
      simp only [hr, hh, decide_True, beq_self_eq_true, Bool.and_self, if_true]
    rw [e]
    refine ⟨rfl, ⟨hs, hd, htm, hh⟩, rfl, ?_, ?_⟩
    · show 0 = (st.FrameSkip + 1) % st.TurboSkipFrames
      rw [he, Nat.mod_self]
    · simp [he]
  · have hne : st.FrameSkip + 1 ≠ st.TurboSkipFrames := by omega
    have e : turboPacing st
        = { st with FrameSkip := (st.FrameSkip + 1) % 4294967296,
                    SkippedFrames := (st.SkippedFrames + 1) % 4294967296,
                    RenderThisFrame := false } := by
      unfold turboPacing
      simp only [hm, hr, decide_False, Bool.false_and, Bool.false_eq_true, if_false]
    rw [e]
    refine ⟨rfl, ⟨hs, hd, htm, hh⟩, rfl, ?_, ?_⟩
    · show (st.FrameSkip + 1) % 4294967296 = (st.FrameSkip + 1) % st.TurboSkipFrames
      rw [hm]
      exact (Nat.mod_eq_of_lt (by omega)).symm
    · simp [hne]

/-- Consecutive turbo calls from `FrameSkip = j mod N`: call `i + 1` renders
exactly when `N` divides `j + i + 1`. -/
theorem syncTicks_turbo (AUTO : Nat) (clock : List timeval) : ∀ (k j : Nat) (st : SyncState),
    TurboPacing st → st.TurboSkipFrames < 4294967296 → 1 ≤ st.TurboSkipFrames →
    st.FrameSkip = j % st.TurboSkipFrames →
    ∃ outs, syncTicks AUTO k st clock = some outs ∧ outs.length = k
      ∧ ∀ (i : Nat) (o : SyncOut), outs[i]? = some o →
          (o.state.RenderThisFrame = true ↔ st.TurboSkipFrames ∣ j + i + 1)
          ∧ o.sleeps = [] ∧ o.clock = clock ∧ o.state.next1 = st.next1 := by
  intro k
  induction k with
  | zero =>
    intro j st _ _ _ _
    exact ⟨[], rfl, rfl, by intro i o hi; simp at hi⟩
  | succ k ih =>
    intro j st ht hN hN1 hf
    have hlt : st.FrameSkip < st.TurboSkipFrames := by
      rw [hf]; exact Nat.mod_lt _ (by omega)
    obtain ⟨o1, h1, hsl, hcl, -, hnx, htp, hts, hfs, hr⟩ := syncSpeed_turbo AUTO st clock ht hN hlt
    have hf1 : o1.state.FrameSkip = (j + 1) % o1.state.TurboSkipFrames := by
      rw [hfs, hts, hf, Nat.mod_add_mod]
    obtain ⟨os, h2, hlen, hall⟩ := ih (j + 1) o1.state htp (by rw [hts]; exact hN)
      (by rw [hts]; exact hN1) hf1
    refine ⟨o1 :: os, ?_, by simp [hlen], ?_⟩
    · simp only [syncTicks, h1]
      rw [hcl, h2]
    · intro i o hi
      cases i with
      | zero =>
        simp only [List.getElem?_cons_zero, Option.some.injEq] at hi
        subst hi
        refine ⟨?_, hsl, hcl, hnx⟩
        rw [hr, hf]
        constructor
        · intro he
          have : (j + 1) % st.TurboSkipFrames = 0 := by
            rw [← Nat.mod_add_mod, he, Nat.mod_self]
          exact Nat.dvd_of_mod_eq_zero this
        · intro hdvd
          have h0 : (j % st.TurboSkipFrames + 1) % st.TurboSkipFrames = 0 := by
            rw [Nat.mod_add_mod]; exact Nat.mod_eq_zero_of_dvd hdvd
          have hb : j % st.TurboSkipFrames < st.TurboSkipFrames := Nat.mod_lt _ (by omega)
          by_contra hne
          have : (j % st.TurboSkipFrames + 1) % st.TurboSkipFrames
              = j % st.TurboSkipFrames + 1 := Nat.mod_eq_of_lt (by omega)
          omega
      | succ i =>
        simp only [List.getElem?_cons_succ] at hi
        obtain ⟨r1, r2, r3, r4⟩ := hall i o hi
        refine ⟨?_, r2, r3, by rw [r4, hnx]⟩
        rw [r1, hts]
        have : j + 1 + i + 1 = j + (i + 1) + 1 := by omega
        rw [this]

/-- C13: with the turbo branch taken (no sound sync, no stream dump, turbo mode),
`HighSpeedSeek` equal to 0 and `TurboSkipFrames = N >= 1`, starting from
`FrameSkip = 0`, `k` consecutive calls of `S9xSyncSpeed` all return, and call
`i + 1` sets `RenderThisFrame` to `true` exactly when `N` divides `i + 1`; no
call requests a sleep, reads a sample or changes the deadline. -/
theorem C13_turbo_render (AUTO N k : Nat) (st : SyncState) (clock : List timeval)
    (ht : TurboPacing st) (hN : st.TurboSkipFrames = N) (hN1 : 1 ≤ N) (hN2 : N < 4294967296)
    (hf : st.FrameSkip = 0) :
    ∃ outs, syncTicks AUTO k st clock = some outs ∧ outs.length = k
      ∧ ∀ (i : Nat) (o : SyncOut), outs[i]? = some o →
          (o.state.RenderThisFrame = true ↔ N ∣ i + 1)
          ∧ o.sleeps = [] ∧ o.clock = clock ∧ o.state.next1 = st.next1 := by
  subst hN
  have := syncTicks_turbo AUTO clock k 0 st ht hN2 hN1 (by rw [hf]; simp)
  simpa using this

theorem timercmpGt_deadline (d s : timeval) (hd0 : 0 ≤ d.tv_usec) (hd1 : d.tv_usec ≤ 1000000)
    (hs : s.Normal) : timercmpGt d s = decide (s.micros < d.micros) := by
  obtain ⟨hs0, hs1⟩ := hs
  unfold timercmpGt timeval.micros
  by_cases h : d.tv_sec = s.tv_sec
  · simp only [h, if_true]
    congr 1
    apply propext
    constructor <;> intro h1 <;> omega
  · simp only [h, if_false]
    congr 1
    apply propext
    constructor <;> intro h1 <;> omega

theorem waitLoop_request (d now : timeval) :
    wrap32 ((d.tv_sec - now.tv_sec) * 1000000 + d.tv_usec - now.tv_usec) = sleepRequest d now := by
  unfold sleepRequest timeval.micros
  congr 1
  ring

/-- A wait loop that ends has slept once after each sample before the deadline
and has stopped at the first sample that is not before it. -/
theorem waitLoop_some (d : timeval) (hd0 : 0 ≤ d.tv_usec) (hd1 : d.tv_usec ≤ 1000000) :
    ∀ (clock : List timeval) (now : timeval) (sl : List Nat) (c : List timeval),
      (∀ s ∈ now :: clock, s.Normal) → waitLoop d now clock = some (sl, c) →
      ∃ early s, now :: clock = early ++ s :: c ∧ (∀ e ∈ early, e.micros < d.micros)
        ∧ ¬ s.micros < d.micros ∧ sl = early.map (sleepRequest d) := by
  intro clock
  induction clock with
  | nil =>
    intro now sl c hnorm h
    have hg := timercmpGt_deadline d now hd0 hd1 (hnorm now (List.mem_cons_self _ _))
    unfold waitLoop at h
    by_cases hb : now.micros < d.micros
    · simp [hg, hb] at h
    · simp only [hg, hb, decide_False, Bool.false_eq_true, if_false, Option.some.injEq,
        Prod.mk.injEq] at h
      exact ⟨[], now, by simp [h.2], by simp, hb, by simp [h.1]⟩
  | cons x rest ih =>
    intro now sl c hnorm h
    have hg := timercmpGt_deadline d now hd0 hd1 (hnorm now (List.mem_cons_self _ _))
    unfold waitLoop at h
    by_cases hb : now.micros < d.micros
    · simp only [hg, hb, decide_True, if_true] at h
      cases hw : waitLoop d x rest with
      | none => simp [hw] at h
      | some p =>
        obtain ⟨sl1, c1⟩ := p
        simp only [hw, Option.some.injEq, Prod.mk.injEq] at h
        obtain ⟨early, s, he, hall, hs, hsl⟩ := ih x sl1 c1
          (fun y hy => hnorm y (List.mem_cons_of_mem _ hy)) hw
        refine ⟨now :: early, s, ?_, ?_, hs, ?_⟩
        · rw [he, ← h.2]; rfl
        · intro e hmem
          rcases List.mem_cons.1 hmem with h1 | h1
          · rw [h1]; exact hb
          · exact hall e h1
        · rw [← h.1, hsl, waitLoop_request]; rfl
    · simp only [hg, hb, decide_False, Bool.false_eq_true, if_false, Option.some.injEq,
        Prod.mk.injEq] at h
      exact ⟨[], now, by simp [h.2], by simp, hb, by simp [h.1]⟩

/-- The wait loop does not end exactly when every sample is before the deadline. -/
theorem waitLoop_none (d : timeval) (hd0 : 0 ≤ d.tv_usec) (hd1 : d.tv_usec ≤ 1000000) :
    ∀ (clock : List timeval) (now : timeval), (∀ s ∈ now :: clock, s.Normal) →
      (waitLoop d now clock = none ↔ ∀ s ∈ now :: clock, s.micros < d.micros) := by
  intro clock
  induction clock with
  | nil =>
    intro now hnorm
    have hg := timercmpGt_deadline d now hd0 hd1 (hnorm now (List.mem_cons_self _ _))
    unfold waitLoop
    by_cases hb : now.micros < d.micros <;> simp [hg, hb]
  | cons x rest ih =>
    intro now hnorm
    have hg := timercmpGt_deadline d now hd0 hd1 (hnorm now (List.mem_cons_self _ _))
    have ih1 := ih x (fun y hy => hnorm y (List.mem_cons_of_mem _ hy))
    unfold waitLoop
    by_cases hb : now.micros < d.micros
    · simp only [hg, hb, decide_True, if_true]
      cases hw : waitLoop d x rest with
      | none =>
        have := ih1.1 hw
        simp only [true_iff]
        intro s hs
        rcases List.mem_cons.1 hs with h1 | h1
        · rw [h1]; exact hb
        · exact this s h1
      | some p =>
        simp only [reduceCtorEq, false_iff]
        intro hall
        have := ih1.2 (fun s hs => hall s (List.mem_cons_of_mem _ hs))
        rw [hw] at this
        cases this
    · simp only [hg, hb, decide_False, Bool.false_eq_true, if_false, reduceCtorEq, false_iff]
      intro hall
      exact hb (hall now (List.mem_cons_self _ _))

/-- The deadline a normal-pacing call waits for has `0 <= tv_usec <= 1000000`. -/
theorem waitDeadline_usec (AUTO : Nat) (st : SyncState) (now : timeval) (hnow : now.Normal)
    (hd : st.next1.tv_sec = 0 ∨ st.next1.Normal) :
    0 ≤ (waitDeadline AUTO st now).tv_usec ∧ (waitDeadline AUTO st now).tv_usec ≤ 1000000 := by
  obtain ⟨h0, h1⟩ := hnow
  unfold waitDeadline deadlineAt
  split
  · omega
  · split
    · show 0 ≤ now.tv_usec + 1 ∧ now.tv_usec + 1 ≤ 1000000
      omega
    · rename_i hne
      rcases hd with hd | hd
      · exact absurd hd hne
      · obtain ⟨a, b⟩ := hd
        omega

theorem syncSpeed_none (AUTO : Nat) (st : SyncState) (now : timeval) (clock1 : List timeval)
    (hn : NormalPacing st) (hw : waitLoop (waitDeadline AUTO st now) now clock1 = none) :
    S9xSyncSpeed AUTO st (now :: clock1) = none := by
  cases h : S9xSyncSpeed AUTO st (now :: clock1) with
  | none => rfl
  | some o =>
    obtain ⟨now1, c1, hc, hw1, -⟩ := syncSpeed_normal AUTO st _ o hn h
    cases hc
    rw [hw] at hw1
    cases hw1

/-- C18 as stated fails when the deadline is `2^32` microseconds or more ahead
of a sample (the wall clock was set back): with the deadline at second 5000 and
the sample at second 705, the remaining time is 4295000000 microseconds and the
sleep requested is 32704 microseconds. -/
theorem C18_request_wraps :
    (S9xSyncSpeed 200 aheadSync
        [{ tv_sec := 705, tv_usec := 0 }, { tv_sec := 5000, tv_usec := 0 }]).map
      (fun o => o.sleeps) = some [32704]
    ∧ timeval.micros { tv_sec := 5000, tv_usec := 0 }
        - timeval.micros { tv_sec := 705, tv_usec := 0 } = 4295000000 := by
  refine ⟨?_, ?_⟩ <;> decide

/-- C18, amended: the pacing wait tolerates early wake-ups. On a normal-pacing
call, for every sequence of normalised wall-clock samples, with `D` the deadline
the call waits for: if the call returns, it has requested one sleep after each
sample read before the first sample that is not before `D`, all of them samples
strictly before `D`, each request being the remaining time `D - sample` in
microseconds as stored in an `unsigned` (modulo `2^32`, hence exactly the
remaining time when that is below `2^32`), and it has advanced `D` after that
first sample; the call returns when some sample is not before `D`, and does not
return while every sample is before `D`. -/
theorem C18_wait_tolerates_early_wakeups (AUTO : Nat) (st : SyncState) (now : timeval)
    (clock1 : List timeval) (hn : NormalPacing st) (hnorm : ∀ s ∈ now :: clock1, s.Normal)
    (hd : st.next1.tv_sec = 0 ∨ st.next1.Normal) :
    (∀ o, S9xSyncSpeed AUTO st (now :: clock1) = some o →
        ∃ early s, now :: clock1 = early ++ s :: o.clock
          ∧ (∀ e ∈ early, e.micros < (waitDeadline AUTO st now).micros)
          ∧ ¬ s.micros < (waitDeadline AUTO st now).micros
          ∧ o.sleeps = early.map (sleepRequest (waitDeadline AUTO st now))
          ∧ o.state.next1 = advance (waitDeadline AUTO st now) st.FrameTime)
    ∧ ((∃ s ∈ now :: clock1, ¬ s.micros < (waitDeadline AUTO st now).micros) →
        ∃ o, S9xSyncSpeed AUTO st (now :: clock1) = some o)
    ∧ ((∀ s ∈ now :: clock1, s.micros < (waitDeadline AUTO st now).micros) →
        S9xSyncSpeed AUTO st (now :: clock1) = none)
    ∧ (∀ e : timeval, e.micros < (waitDeadline AUTO st now).micros →
        (sleepRequest (waitDeadline AUTO st now) e : Int)
          = ((waitDeadline AUTO st now).micros - e.micros) % 4294967296
        ∧ ((waitDeadline AUTO st now).micros - e.micros < 4294967296 →
            (sleepRequest (waitDeadline AUTO st now) e : Int)
              = (waitDeadline AUTO st now).micros - e.micros)) := by
  obtain ⟨hd0, hd1⟩ := waitDeadline_usec AUTO st now (hnorm now (List.mem_cons_self _ _)) hd
  refine ⟨?_, ?_, ?_, ?_⟩
  · intro o ho
    obtain ⟨now1, c1, hc, hw, -, -, -, hnext, -, -, -⟩ := syncSpeed_normal AUTO st _ o hn ho
    cases hc
    obtain ⟨early, s, he, hall, hs, hsl⟩ :=
      waitLoop_some _ hd0 hd1 clock1 now o.sleeps o.clock hnorm hw
    exact ⟨early, s, he, hall, hs, hsl, hnext⟩
  · rintro ⟨s, hs, hns⟩
    cases hw : waitLoop (waitDeadline AUTO st now) now clock1 with
    | none =>
      exact absurd ((waitLoop_none _ hd0 hd1 clock1 now hnorm).1 hw s hs) hns
    | some p => exact syncSpeed_returns AUTO st now clock1 p.1 p.2 hn hw
  · intro hall
    exact syncSpeed_none AUTO st now clock1 hn
      ((waitLoop_none _ hd0 hd1 clock1 now hnorm).2 hall)
  · intro e he
    unfold sleepRequest wrap32
    constructor
    · omega
    · intro hlt
      omega

/-- C18, amended, on a first call whose first sleep returns early: the samples
`{100, 0}`, `{100, 0}`, `{100, 5}` give two requests of one microsecond. -/
theorem C18_wait_tolerates_early_wakeups_witness :
    (NormalPacing initialSync
      ∧ (∀ s ∈ [({ tv_sec := 100, tv_usec := 0 } : timeval), { tv_sec := 100, tv_usec := 0 },
                { tv_sec := 100, tv_usec := 5 }], s.Normal)
      ∧ (initialSync.next1.tv_sec = 0 ∨ initialSync.next1.Normal))
    ∧ (S9xSyncSpeed 200 initialSync
        [{ tv_sec := 100, tv_usec := 0 }, { tv_sec := 100, tv_usec := 0 },
         { tv_sec := 100, tv_usec := 5 }]).map (fun o => (o.sleeps, o.clock))
        = some ([1, 1], [])
    ∧ ∃ o, S9xSyncSpeed 200 initialSync
          [{ tv_sec := 100, tv_usec := 0 }, { tv_sec := 100, tv_usec := 0 },
           { tv_sec := 100, tv_usec := 5 }] = some o :=
  have h1 : NormalPacing initialSync := ⟨rfl, rfl, rfl⟩
  have h2 : ∀ s ∈ [({ tv_sec := 100, tv_usec := 0 } : timeval), { tv_sec := 100, tv_usec := 0 },
      { tv_sec := 100, tv_usec := 5 }], s.Normal := by
    intro s hs
    simp only [List.mem_cons, List.mem_singleton, List.not_mem_nil, or_false] at hs
    rcases hs with h | h | h <;> rw [h] <;> exact ⟨by decide, by decide⟩
  have h3 : initialSync.next1.tv_sec = 0 ∨ initialSync.next1.Normal := Or.inl rfl
  ⟨⟨h1, h2, h3⟩, by decide,
    (C18_wait_tolerates_early_wakeups 200 initialSync { tv_sec := 100, tv_usec := 0 }
      [{ tv_sec := 100, tv_usec := 0 }, { tv_sec := 100, tv_usec := 5 }] h1 h2 h3).2.1
      ⟨{ tv_sec := 100, tv_usec := 5 }, by simp, by decide⟩⟩

/-- C11 two seconds past the deadline `{100, 0}`, under `AUTO_FRAMERATE`: the
limit is 10 and the frame is skipped. -/
theorem C11_render_decision_witness :
    (NormalPacing laggingSync
      ∧ (laggingSync.next1.tv_sec = 0
          ∨ (0 ≤ laggingSync.next1.tv_usec ∧ laggingSync.next1.tv_usec < 1000000))
      ∧ S9xSyncSpeed 200 laggingSync [{ tv_sec := 102, tv_usec := 0 }] = some laggingOut)
    ∧ (laggingOut.state.RenderThisFrame = true ↔
        (laggingSync.SkippedFrames + 1) % 4294967296
          ≥ (if laggingSync.SkipFrames = 200 then
               (if (deadlineAt laggingSync { tv_sec := 102, tv_usec := 0 }).micros
                    < timeval.micros { tv_sec := 102, tv_usec := 0 } then 10 else 1)
             else laggingSync.SkipFrames))
    ∧ laggingOut.state.SkippedFrames
        = (if laggingOut.state.RenderThisFrame then 0
           else (laggingSync.SkippedFrames + 1) % 4294967296)
    ∧ (laggingSync.SkippedFrames + 1 < 4294967296 →
        (laggingSync.SkippedFrames + 1) % 4294967296 = laggingSync.SkippedFrames + 1) :=
  have h1 : NormalPacing laggingSync := ⟨rfl, rfl, rfl⟩
  have h2 : laggingSync.next1.tv_sec = 0
      ∨ (0 ≤ laggingSync.next1.tv_usec ∧ laggingSync.next1.tv_usec < 1000000) :=
    Or.inr ⟨by decide, by decide⟩
  have h3 : S9xSyncSpeed 200 laggingSync [{ tv_sec := 102, tv_usec := 0 }] = some laggingOut := by
    decide
  ⟨⟨h1, h2, h3⟩,
    C11_render_decision 200 laggingSync { tv_sec := 102, tv_usec := 0 } [] laggingOut h1
      (by decide) (by decide) h2 h3⟩

/-- C13 on 7 turbo calls with `TurboSkipFrames = 3`. -/
theorem C13_turbo_render_witness :
    (TurboPacing turboSync ∧ turboSync.TurboSkipFrames = 3 ∧ turboSync.FrameSkip = 0)
    ∧ ∃ outs, syncTicks 200 7 turboSync [] = some outs ∧ outs.length = 7
      ∧ ∀ (i : Nat) (o : SyncOut), outs[i]? = some o →
          (o.state.RenderThisFrame = true ↔ 3 ∣ i + 1)
          ∧ o.sleeps = [] ∧ o.clock = [] ∧ o.state.next1 = turboSync.next1 :=
  have h1 : TurboPacing turboSync := ⟨rfl, rfl, rfl, rfl⟩
  ⟨⟨h1, rfl, rfl⟩, C13_turbo_render 200 3 7 turboSync [] h1 rfl (by decide) (by decide) rfl⟩

/-! ## Facts about the main loop -/

theorem handlePortCommands_eq (cmds : List PortCommand) (p : PortState) :
    handlePortCommands cmds p = p := by
  unfold handlePortCommands
  induction cmds with
  | nil => rfl
  | cons c cs ih => simp only [List.foldl, S9xHandlePortCommand]; exact ih

theorem pausedPart_fst {E : Type} (em : Emulator E) (p : PortState) (e : E) :
    (pausedPart em p e).1 =
      if (em.Paused e && p.frame_advance != 0) = true then { p with frame_advance := 0 } else p := by
  unfold pausedPart
  simp only [S9xProcessEvents, handlePortCommands_eq]
  split <;> simp

theorem pausedPart_fields {E : Type} (em : Emulator E) (p : PortState) (e : E) :
    (pausedPart em p e).1.rewinding = p.rewinding ∧
    (pausedPart em p e).1.rewindGranularity = p.rewindGranularity ∧
    (pausedPart em p e).1.rewindBufferSize = p.rewindBufferSize := by
  rw [pausedPart_fst]
  split <;> simp

theorem mainLoopIteration_running {E : Type} (em : Emulator E) (p : PortState) (e : E)
    (hp : em.Paused e = false) :
    mainLoopIteration em p e =
      (rewindStep em p e).map (fun r =>
        ((pausedPart em r.1 (em.S9xMainLoop r.2.1).1).1,
         (pausedPart em r.1 (em.S9xMainLoop r.2.1).1).2, r.2.2)) := by
  unfold mainLoopIteration
  simp only [hp, Bool.not_false, if_true]
  cases h : rewindStep em p e with
  | none => rfl
  | some r =>
    obtain ⟨p1, e1, calls⟩ := r
    simp [LogSpecialMemory, handlePortCommands_eq]

theorem mainLoopIteration_paused {E : Type} (em : Emulator E) (p : PortState) (e : E)
    (hp : em.Paused e = true) :
    mainLoopIteration em p e = some ((pausedPart em p e).1, (pausedPart em p e).2, []) := by
  unfold mainLoopIteration
  simp [hp]

theorem rewindStep_capture {E : Type} (em : Emulator E) (p : PortState) (e : E)
    (hr : p.rewinding = false) (hg : 1 ≤ p.rewindGranularity) :
    rewindStep em p e =
      if em.TotalEmulatedFrames e % p.rewindGranularity = 0 then some (p, em.push e, [.push])
      else some (p, e, []) := by
  unfold rewindStep
  have : p.rewindGranularity ≠ 0 := by omega
  simp [hr, this]

theorem rewindStep_replay {E : Type} (em : Emulator E) (p : PortState) (e : E)
    (hr : p.rewinding = true) :
    rewindStep em p e =
      some ({ p with rewinding := (em.pop e).1 },
        restoreJoypads em ((List.range 8).map (fun i => em.MovieGetJoypad i e)) (em.pop e).2,
        [.pop]) := by
  unfold rewindStep
  simp [hr]

theorem rewindStep_no_pop {E : Type} (em : Emulator E) (p : PortState) (e : E)
    (hr : p.rewinding = false) (r : PortState × E × List StateManCall)
    (h : rewindStep em p e = some r) :
    r.1 = p ∧ StateManCall.pop ∉ r.2.2 := by
  unfold rewindStep at h
  simp only [hr, Bool.false_eq_true, if_false] at h
  split at h
  · exact absurd h (by simp)
  · split at h
    · cases h; simp
    · cases h; simp

theorem mainLoopIteration_no_pop {E : Type} (em : Emulator E) (p : PortState) (e : E)
    (hr : p.rewinding = false) (r : PortState × E × List StateManCall)
    (h : mainLoopIteration em p e = some r) :
    r.1.rewinding = false ∧ r.1.rewindGranularity = p.rewindGranularity ∧
      StateManCall.pop ∉ r.2.2 := by
  cases hp : em.Paused e with
  | true =>
    rw [mainLoopIteration_paused em p e hp] at h
    cases h
    have := pausedPart_fields em p e
    simp [this.1, this.2.1, hr]
  | false =>
    rw [mainLoopIteration_running em p e hp] at h
    cases h1 : rewindStep em p e with
    | none => rw [h1] at h; exact absurd h (by simp)
    | some r1 =>
      rw [h1] at h
      have h2 := rewindStep_no_pop em p e hr r1 h1
      simp only [Option.map_some'] at h
      cases Option.some.inj h
      have := pausedPart_fields em r1.1 (em.S9xMainLoop r1.2.1).1
      exact ⟨this.1.trans (h2.1 ▸ hr), this.2.1.trans (by rw [h2.1]), h2.2⟩

theorem mainLoopIteration_some {E : Type} (em : Emulator E) (p : PortState) (e : E)
    (hg : p.rewinding = true ∨ 1 ≤ p.rewindGranularity) :
    ∃ r, mainLoopIteration em p e = some r := by
  cases hp : em.Paused e with
  | true => exact ⟨_, mainLoopIteration_paused em p e hp⟩
  | false =>
    rw [mainLoopIteration_running em p e hp]
    cases hr : p.rewinding with
    | true => rw [rewindStep_replay em p e hr]; exact ⟨_, rfl⟩
    | false =>
      have hg1 : 1 ≤ p.rewindGranularity := by
        rcases hg with h | h
        · rw [hr] at h; exact absurd h (by simp)
        · exact h
      rw [rewindStep_capture em p e hr hg1]
      split <;> exact ⟨_, rfl⟩

theorem mainLoop_invariant {E : Type} (em : Emulator E) (n : Nat) :
    ∀ (p : PortState) (e : E), p.rewinding = false →
      (∀ r, mainLoop em n p e = some r →
        r.1.rewinding = false ∧ r.1.rewindGranularity = p.rewindGranularity ∧
          StateManCall.pop ∉ r.2.2) ∧
      (1 ≤ p.rewindGranularity → ∃ r, mainLoop em n p e = some r) := by
  induction n with
  | zero =>
    intro p e hr
    refine ⟨?_, fun _ => ⟨_, rfl⟩⟩
    intro r h
    simp only [mainLoop] at h
    cases Option.some.inj h
    simp [hr]
  | succ n ih =>
    intro p e hr
    refine ⟨?_, ?_⟩
    · intro r h
      simp only [mainLoop] at h
      cases h1 : mainLoopIteration em p e with
      | none => rw [h1] at h; exact absurd h (by simp)
      | some r1 =>
        obtain ⟨p1, e1, c1⟩ := r1
        rw [h1] at h
        have a := mainLoopIteration_no_pop em p e hr _ h1
        simp only at h
        cases h2 : mainLoop em n p1 e1 with
        | none => rw [h2] at h; exact absurd h (by simp)
        | some r2 =>
          obtain ⟨p2, e2, c2⟩ := r2
          rw [h2] at h
          have b := (ih p1 e1 a.1).1 _ h2
          cases Option.some.inj h
          simp only [List.mem_append, not_or]
          exact ⟨b.1, b.2.1.trans a.2.1, a.2.2, b.2.2⟩
    · intro hg
      obtain ⟨r1, h1⟩ := mainLoopIteration_some em p e (Or.inr hg)
      obtain ⟨p1, e1, c1⟩ := r1
      have a := mainLoopIteration_no_pop em p e hr _ h1
      obtain ⟨r2, h2⟩ := (ih p1 e1 a.1).2 (by rw [a.2.1]; exact hg)
      obtain ⟨p2, e2, c2⟩ := r2
      exact ⟨(p2, e2, c1 ++ c2), by simp only [mainLoop, h1, h2]⟩

theorem S9xParseArg_rewinding (argv : List (List Char)) (i : Nat) (p : PortState)
    (i1 : Nat) (p1 : PortState) (h : S9xParseArg argv i p = .parsed i1 p1) :
    p1.rewinding = p.rewinding := by
  unfold S9xParseArg at h
  simp only at h
  repeat (split at h; first | (cases h; rfl) | (split at h <;> first | (cases h; rfl) | cases h))
  cases h; rfl

theorem restoreJoypads_get {E : Type} (em : Emulator E)
    (hset : ∀ i v x, i < 8 → em.MovieGetJoypad i (em.MovieSetJoypad i v x) = v)
    (hother : ∀ i j v x, i < 8 → j < 8 → i ≠ j →
      em.MovieGetJoypad j (em.MovieSetJoypad i v x) = em.MovieGetJoypad j x)
    (joypads : List Nat) (e : E) (i : Nat) (hi : i < 8) :
    em.MovieGetJoypad i (restoreJoypads em joypads e) = joypads.getD i 0 := by
  unfold restoreJoypads
  have hr : List.range 8 = [0, 1, 2, 3, 4, 5, 6, 7] := by decide
  rw [hr]
  simp only [List.foldl]
  interval_cases i <;>
    simp only [hset _ _ _ (by decide : (0:Nat) < 8), hset _ _ _ (by decide : (1:Nat) < 8),
      hset _ _ _ (by decide : (2:Nat) < 8), hset _ _ _ (by decide : (3:Nat) < 8),
      hset _ _ _ (by decide : (4:Nat) < 8), hset _ _ _ (by decide : (5:Nat) < 8),
      hset _ _ _ (by decide : (6:Nat) < 8), hset _ _ _ (by decide : (7:Nat) < 8),
      hother 1 0 _ _ (by decide) (by decide) (by decide),
      hother 2 0 _ _ (by decide) (by decide) (by decide),
      hother 3 0 _ _ (by decide) (by decide) (by decide),
      hother 4 0 _ _ (by decide) (by decide) (by decide),
      hother 5 0 _ _ (by decide) (by decide) (by decide),
      hother 6 0 _ _ (by decide) (by decide) (by decide),
      hother 7 0 _ _ (by decide) (by decide) (by decide),
      hother 2 1 _ _ (by decide) (by decide) (by decide),
      hother 3 1 _ _ (by decide) (by decide) (by decide),
      hother 4 1 _ _ (by decide) (by decide) (by decide),
      hother 5 1 _ _ (by decide) (by decide) (by decide),
      hother 6 1 _ _ (by decide) (by decide) (by decide),
      hother 7 1 _ _ (by decide) (by decide) (by decide),
      hother 3 2 _ _ (by decide) (by decide) (by decide),
      hother 4 2 _ _ (by decide) (by decide) (by decide),
      hother 5 2 _ _ (by decide) (by decide) (by decide),
      hother 6 2 _ _ (by decide) (by decide) (by decide),
      hother 7 2 _ _ (by decide) (by decide) (by decide),
      hother 4 3 _ _ (by decide) (by decide) (by decide),
      hother 5 3 _ _ (by decide) (by decide) (by decide),
      hother 6 3 _ _ (by decide) (by decide) (by decide),
      hother 7 3 _ _ (by decide) (by decide) (by decide),
      hother 5 4 _ _ (by decide) (by decide) (by decide),
      hother 6 4 _ _ (by decide) (by decide) (by decide),
      hother 7 4 _ _ (by decide) (by decide) (by decide),
      hother 6 5 _ _ (by decide) (by decide) (by decide),
      hother 7 5 _ _ (by decide) (by decide) (by decide),
      hother 7 6 _ _ (by decide) (by decide) (by decide)]

theorem snapshot_getD {E : Type} (em : Emulator E) (e : E) (i : Nat) (hi : i < 8) :
    ((List.range 8).map (fun i => em.MovieGetJoypad i e)).getD i 0 = em.MovieGetJoypad i e := by
  have hr : List.range 8 = [0, 1, 2, 3, 4, 5, 6, 7] := by decide
  rw [hr]
  interval_cases i <;> rfl

theorem specEmulator_get_set (i v : Nat) (x : SpecEmu) (hi : i < 8) :
    specEmulator.MovieGetJoypad i (specEmulator.MovieSetJoypad i v x) = v := by
  have hr : List.range 8 = [0, 1, 2, 3, 4, 5, 6, 7] := by decide
  simp only [specEmulator, hr]
  interval_cases i <;> rfl

theorem specEmulator_get_other (i j v : Nat) (x : SpecEmu) (hi : i < 8) (hj : j < 8)
    (hij : i ≠ j) :
    specEmulator.MovieGetJoypad j (specEmulator.MovieSetJoypad i v x) =
      specEmulator.MovieGetJoypad j x := by
  have hr : List.range 8 = [0, 1, 2, 3, 4, 5, 6, 7] := by decide
  simp only [specEmulator, hr]
  interval_cases i <;> interval_cases j <;> first | exact absurd rfl hij | rfl

/-! ## C14 - C16, C19, C20: the rewind logic of the main loop -/

/-- C14: for every granularity `g >= 1` and frame number `f`, a main-loop
iteration that is not paused and not replaying completes, and the `stateMan`
calls it issues are exactly one `push` when `f % g = 0` and none otherwise,
the push being applied to the emulator before `S9xMainLoop` runs; no `pop` is
issued. With `g = 1` the calls are exactly one push; with `g = 5` a push
occurs exactly when `f % 5 = 0`. -/
theorem C14_capture_cadence {E : Type} (em : Emulator E) (p : PortState) (e : E)
    (hp : em.Paused e = false) (hr : p.rewinding = false) (hg : 1 ≤ p.rewindGranularity) :
    ∃ p1 e1 calls, mainLoopIteration em p e = some (p1, e1, calls) ∧
      calls = (if em.TotalEmulatedFrames e % p.rewindGranularity = 0
        then [StateManCall.push] else []) ∧
      calls.count StateManCall.push =
        (if em.TotalEmulatedFrames e % p.rewindGranularity = 0 then 1 else 0) ∧
      calls.count StateManCall.pop = 0 ∧
      e1 = (pausedPart em p (em.S9xMainLoop
        (if em.TotalEmulatedFrames e % p.rewindGranularity = 0 then em.push e else e)).1).2 ∧
      (p.rewindGranularity = 1 → calls = [StateManCall.push]) ∧
      (p.rewindGranularity = 5 →
        (StateManCall.push ∈ calls ↔ em.TotalEmulatedFrames e % 5 = 0)) := by
  rw [mainLoopIteration_running em p e hp, rewindStep_capture em p e hr hg]
  by_cases h : em.TotalEmulatedFrames e % p.rewindGranularity = 0
  · simp only [h, if_true, Option.map_some']
    refine ⟨_, _, _, rfl, rfl, by decide, by decide, rfl, fun _ => rfl, fun h5 => ?_⟩
    rw [h5] at h
    simp [h]
  · simp only [h, if_false, Option.map_some']
    refine ⟨_, _, _, rfl, rfl, by decide, by decide, rfl, fun h1 => ?_, fun h5 => ?_⟩
    · rw [h1] at h; exact absurd (Nat.mod_one _) h
    · rw [h5] at h
      simp [h]

/-- Witness of C14: with granularity 5 the emulator at frame 10 captures. -/
theorem C14_capture_cadence_witness :
    ∃ p1 e1 calls, mainLoopIteration specEmulator
        { initialPort with rewindGranularity := 5 } exampleEmu = some (p1, e1, calls) ∧
      calls = [StateManCall.push] :=
  let ⟨p1, e1, calls, h, hc, _⟩ := C14_capture_cadence specEmulator
    { initialPort with rewindGranularity := 5 } exampleEmu (by decide) (by decide) (by decide)
  ⟨p1, e1, calls, h, hc.trans (by decide)⟩

/-- C15, counterexample: with the settings `main` starts from
(`rewindBufferSize` 0, granularity 1) `stateMan.init` is not called, and the
first iteration of the running emulator issues `stateMan.push`. -/
theorem C15_push_without_buffer :
    initialPort.rewindBufferSize = 0 ∧ startupStateManCalls initialPort = [] ∧
    (mainLoopIteration specEmulator initialPort exampleEmu).map (fun r => r.2.2) =
      some [StateManCall.push] := by
  decide

/-- C15, amended: with `rewindBufferSize` 0 `stateMan.init` is not called, and
the main loop does not read `rewindBufferSize`: an iteration run with any
other buffer size does the same. It issues no `pop` while `rewinding` is
false, and when it is neither paused nor replaying and the granularity is at
least 1 it issues `push` exactly when `f % g = 0`. -/
theorem C15_loop_ignores_buffer_size {E : Type} (em : Emulator E) (p : PortState) (e : E)
    (hb : p.rewindBufferSize = 0) :
    startupStateManCalls p = [] ∧
    (∀ b, mainLoopIteration em { p with rewindBufferSize := b } e =
      (mainLoopIteration em p e).map
        (fun r => ({ r.1 with rewindBufferSize := b }, r.2.1, r.2.2))) ∧
    (p.rewinding = false → ∀ r, mainLoopIteration em p e = some r →
      StateManCall.pop ∉ r.2.2) ∧
    (em.Paused e = false → p.rewinding = false → 1 ≤ p.rewindGranularity →
      ∃ r, mainLoopIteration em p e = some r ∧
        (StateManCall.push ∈ r.2.2 ↔
          em.TotalEmulatedFrames e % p.rewindGranularity = 0)) := by
  refine ⟨?_, ?_, ?_, ?_⟩
  · unfold startupStateManCalls
    simp [hb]
  · intro b
    cases hp : em.Paused e with
    | true =>
      rw [mainLoopIteration_paused em _ e hp, mainLoopIteration_paused em p e hp]
      simp only [Option.map_some', pausedPart_fst]
      unfold pausedPart
      simp only [S9xProcessEvents, handlePortCommands_eq]
      split <;> simp
    | false =>
      rw [mainLoopIteration_running em _ e hp, mainLoopIteration_running em p e hp]
      unfold rewindStep
      simp only
      split
      · simp only [Option.map_some', pausedPart_fst]
        unfold pausedPart
        simp only [S9xProcessEvents, handlePortCommands_eq]
        split <;> simp
      · split
        · rfl
        · split
          · simp only [Option.map_some', pausedPart_fst]
            unfold pausedPart
            simp only [S9xProcessEvents, handlePortCommands_eq]
            split <;> simp
          · simp only [Option.map_some', pausedPart_fst]
            unfold pausedPart
            simp only [S9xProcessEvents, handlePortCommands_eq]
            split <;> simp
  · intro hr r h
    exact (mainLoopIteration_no_pop em p e hr r h).2.2
  · intro hp hr hg
    rw [mainLoopIteration_running em p e hp, rewindStep_capture em p e hr hg]
    by_cases h : em.TotalEmulatedFrames e % p.rewindGranularity = 0
    · simp only [h, if_true, Option.map_some']
      exact ⟨_, rfl, by simp⟩
    · simp only [h, if_false, Option.map_some']
      exact ⟨_, rfl, by simp⟩

/-- Witness of C15, amended, at the settings `main` starts from. -/
theorem C15_loop_ignores_buffer_size_witness :
    initialPort.rewindBufferSize = 0 ∧ startupStateManCalls initialPort = [] ∧
    ∃ r, mainLoopIteration specEmulator initialPort exampleEmu = some r ∧
      (StateManCall.push ∈ r.2.2 ↔
        specEmulator.TotalEmulatedFrames exampleEmu % initialPort.rewindGranularity = 0) :=
  ⟨rfl, (C15_loop_ignores_buffer_size specEmulator initialPort exampleEmu rfl).1,
   (C15_loop_ignores_buffer_size specEmulator initialPort exampleEmu rfl).2.2.2
     (by decide) (by decide) (by decide)⟩

theorem restoreJoypads_frame {E : Type} {α : Type} (em : Emulator E) (obs : E → α)
    (hobs : ∀ i v x, obs (em.MovieSetJoypad i v x) = obs x) (joypads : List Nat) (e : E) :
    obs (restoreJoypads em joypads e) = obs e := by
  unfold restoreJoypads
  generalize List.range 8 = l
  induction l generalizing e with
  | nil => rfl
  | cons i is ih =>
    rw [List.foldl_cons, ih, hobs]

/-- C16, counterexample: a paused iteration with `rewinding` set issues no
`pop`, and `rewinding` stays true although a `pop` would have returned
false. -/
theorem C16_paused_replay_no_pop :
    specEmulator.Paused pausedEmu = true ∧
    mainLoopIteration specEmulator { initialPort with rewinding := true } pausedEmu =
      some ({ initialPort with rewinding := true }, pausedEmu, []) ∧
    (specEmulator.pop pausedEmu).1 = false := by
  decide

/-- C16, amended: with `rewinding` set and the core's joypad accessors obeying
the get/set laws on the ports 0..7, an iteration that is not paused completes
and issues exactly one `pop` and no `push`. After the rewind block the
emulator is the state `pop` left with the eight snapshotted joypad values
written over it: every port `i < 8` reads the value it had before the pop,
everything that `MovieSetJoypad` does not touch reads as in the popped state,
and `rewinding` is the boolean `pop` returned, also at the end of the
iteration, so a pop that returns false leaves replay mode on that iteration.
A paused iteration skips the block: it issues no `stateMan` call and
`rewinding` stays set. -/
theorem C16_replay_iteration {E : Type} (em : Emulator E) (p : PortState) (e : E)
    (hr : p.rewinding = true)
    (hset : ∀ i v x, i < 8 → em.MovieGetJoypad i (em.MovieSetJoypad i v x) = v)
    (hother : ∀ i j v x, i < 8 → j < 8 → i ≠ j →
      em.MovieGetJoypad j (em.MovieSetJoypad i v x) = em.MovieGetJoypad j x) :
    (em.Paused e = false →
      ∃ e1, rewindStep em p e =
          some ({ p with rewinding := (em.pop e).1 }, e1, [StateManCall.pop]) ∧
        e1 = restoreJoypads em (joypadSnapshot em e) (em.pop e).2 ∧
        (∀ i, i < 8 → em.MovieGetJoypad i e1 = em.MovieGetJoypad i e) ∧
        (∀ (α : Type) (obs : E → α), (∀ i v x, obs (em.MovieSetJoypad i v x) = obs x) →
          obs e1 = obs (em.pop e).2) ∧
        ∃ p2 e2, mainLoopIteration em p e = some (p2, e2, [StateManCall.pop]) ∧
          e2 = (pausedPart em { p with rewinding := (em.pop e).1 } (em.S9xMainLoop e1).1).2 ∧
          p2.rewinding = (em.pop e).1 ∧
          ((em.pop e).1 = false → p2.rewinding = false)) ∧
    (em.Paused e = true →
      ∃ p2 e2, mainLoopIteration em p e = some (p2, e2, []) ∧ p2.rewinding = true) := by
  refine ⟨?_, ?_⟩
  · intro hp
    rw [mainLoopIteration_running em p e hp, rewindStep_replay em p e hr]
    refine ⟨_, rfl, rfl, ?_, ?_, _, _, rfl, rfl, ?_, ?_⟩
    · intro i hi
      rw [restoreJoypads_get em hset hother _ _ i hi]
      exact snapshot_getD em e i hi
    · intro α obs hobs
      exact restoreJoypads_frame em obs hobs _ _
    · exact (pausedPart_fields em _ _).1
    · intro h
      exact (pausedPart_fields em _ _).1.trans h
  · intro hp
    rw [mainLoopIteration_paused em p e hp]
    exact ⟨_, _, rfl, (pausedPart_fields em p e).1.trans hr⟩

/-- Witness of C16, amended: replaying from the last captured state, the
joypads keep the values `1..8` held before the pop while the history is the
popped one, and `rewinding` becomes false. -/
theorem C16_replay_iteration_witness :
    specEmulator.Paused exampleEmu = false ∧
    rewindStep specEmulator { initialPort with rewinding := true } exampleEmu =
      some (initialPort,
        { paused := false, frames := 10, joypads := [1, 2, 3, 4, 5, 6, 7, 8], history := [] },
        [StateManCall.pop]) ∧
    ∃ e1, rewindStep specEmulator { initialPort with rewinding := true } exampleEmu =
        some ({ { initialPort with rewinding := true } with
            rewinding := (specEmulator.pop exampleEmu).1 }, e1, [StateManCall.pop]) ∧
      e1 = restoreJoypads specEmulator (joypadSnapshot specEmulator exampleEmu)
        (specEmulator.pop exampleEmu).2 ∧
      (∀ i, i < 8 → specEmulator.MovieGetJoypad i e1 =
        specEmulator.MovieGetJoypad i exampleEmu) ∧
      (∀ (α : Type) (obs : SpecEmu → α),
        (∀ i v x, obs (specEmulator.MovieSetJoypad i v x) = obs x) →
          obs e1 = obs (specEmulator.pop exampleEmu).2) ∧
      ∃ p2 e2, mainLoopIteration specEmulator { initialPort with rewinding := true }
          exampleEmu = some (p2, e2, [StateManCall.pop]) ∧
        e2 = (pausedPart specEmulator { { initialPort with rewinding := true } with
            rewinding := (specEmulator.pop exampleEmu).1 }
          (specEmulator.S9xMainLoop e1).1).2 ∧
        p2.rewinding = (specEmulator.pop exampleEmu).1 ∧
        ((specEmulator.pop exampleEmu).1 = false → p2.rewinding = false) :=
  ⟨by decide, by decide,
    (C16_replay_iteration specEmulator { initialPort with rewinding := true } exampleEmu
      rfl specEmulator_get_set specEmulator_get_other).1 (by decide)⟩

/-- C19: `rewinding` is false when the loop is entered (`main` sets it and
`S9xParseArg` never writes it), `S9xHandlePortCommand` changes nothing, also
for the `Rewind` command, and from a state with `rewinding` false every run
of `n` iterations of the main loop that completes ends with `rewinding` false
and has issued no `pop`; with a granularity of at least 1 every such run
completes. -/
theorem C19_never_replays {E : Type} (em : Emulator E) (n : Nat) (p : PortState) (e : E)
    (hr : p.rewinding = false) :
    initialPort.rewinding = false ∧
    (∀ argv i q i1 q1, S9xParseArg argv i q = .parsed i1 q1 → q1.rewinding = q.rewinding) ∧
    (∀ cmd d1 d2 q, S9xHandlePortCommand cmd d1 d2 q = q) ∧
    (∀ d1 d2 q, S9xHandlePortCommand
      (S9xGetPortCommandT ['R', 'e', 'w', 'i', 'n', 'd']) d1 d2 q = q) ∧
    (∀ r, mainLoop em n p e = some r →
      r.1.rewinding = false ∧ StateManCall.pop ∉ r.2.2) ∧
    (1 ≤ p.rewindGranularity → ∃ r, mainLoop em n p e = some r) := by
  refine ⟨rfl, S9xParseArg_rewinding, fun _ _ _ _ => rfl, fun _ _ _ => rfl, ?_, ?_⟩
  · intro r h
    have := (mainLoop_invariant em n p e hr).1 r h
    exact ⟨this.1, this.2.2⟩
  · exact (mainLoop_invariant em n p e hr).2

/-- Witness of C19: three iterations from the settings `main` starts from. -/
theorem C19_never_replays_witness :
    ∃ r, mainLoop specEmulator 3 initialPort exampleEmu = some r ∧
      r.1.rewinding = false ∧ StateManCall.pop ∉ r.2.2 :=
  let h := C19_never_replays specEmulator 3 initialPort exampleEmu rfl
  let ⟨r, hr⟩ := h.2.2.2.2.2 (by decide)
  ⟨r, hr, h.2.2.2.2.1 r hr⟩

/-- C20: `-rwgranularity 0`, and also a value that is not a number, stores the
granularity 0, and with it the capture test of the first iteration of the
running emulator divides by zero. -/
theorem C20_zero_granularity_divides :
    S9xParseArg [['-', 'r', 'w', 'g', 'r', 'a', 'n', 'u', 'l', 'a', 'r', 'i', 't', 'y'], ['0']]
      0 initialPort = .parsed 1 { initialPort with rewindGranularity := 0 } ∧
    S9xParseArg [['-', 'r', 'w', 'g', 'r', 'a', 'n', 'u', 'l', 'a', 'r', 'i', 't', 'y'],
      ['o', 'f', 'f']] 0 initialPort = .parsed 1 { initialPort with rewindGranularity := 0 } ∧
    specEmulator.Paused exampleEmu = false ∧
    mainLoopIteration specEmulator { initialPort with rewindGranularity := 0 } exampleEmu =
      none := by
  decide

/-! ## Facts about the decoder -/

theorem decVal_append_single (l : List Char) (c : Char) :
    decVal (l ++ [c]) = 10 * decVal l + (c.toNat - '0'.toNat) := by
  simp [decVal, List.foldl_append]

theorem decimalFuel_spec : ∀ (fuel n : Nat), (n ≤ fuel ∨ n < 10) →
    IsNumeral (decimalFuel fuel n) ∧ decVal (decimalFuel fuel n) = n := by
  intro fuel
  induction fuel with
  | zero =>
    intro n h
    have hn : n < 10 := by omega
    have h10 : n % 10 = n := Nat.mod_eq_of_lt hn
    simp only [decimalFuel, h10]
    refine ⟨⟨by simp, ?_⟩, ?_⟩
    · intro c hc
      rw [List.mem_singleton] at hc
      rw [hc]
      exact isdigit_decChar (by omega)
    · simp only [decVal, List.foldl]
      rw [decChar_toNat (by omega)]
      have h0 : '0'.toNat = 48 := rfl
      rw [h0]
      omega
  | succ f ih =>
    intro n h
    by_cases hn : n < 10
    · simp only [decimalFuel, hn, if_true]
      refine ⟨⟨by simp, ?_⟩, ?_⟩
      · intro c hc
        rw [List.mem_singleton] at hc
        rw [hc]
        exact isdigit_decChar (by omega)
      · simp only [decVal, List.foldl]
        rw [decChar_toNat (by omega)]
        have h0 : '0'.toNat = 48 := rfl
        rw [h0]
        omega
    · simp only [decimalFuel, hn, if_false]
      have h1 := ih (n / 10) (Or.inl (by omega))
      have hm : n % 10 ≤ 9 := by omega
      refine ⟨⟨by simp, ?_⟩, ?_⟩
      · intro c hc
        rw [List.mem_append, List.mem_singleton] at hc
        rcases hc with hc | hc
        · exact h1.1.2 c hc
        · rw [hc]; exact isdigit_decChar hm
      · rw [decVal_append_single, h1.2, decChar_toNat hm]
        have h0 : '0'.toNat = 48 := rfl
        rw [h0]
        omega

theorem decimal_spec (n : Nat) : IsNumeral (decimal n) ∧ decVal (decimal n) = n :=
  decimalFuel_spec n n (Or.inl (Nat.le_refl n))

theorem filter_mem_sorted (ks : List Nat) (hs : ks.Pairwise (· < ·))
    (hr : ∀ k ∈ ks, 1 ≤ k ∧ k ≤ 8) :
    [1, 2, 3, 4, 5, 6, 7, 8].filter (fun j => decide (j ∈ ks)) = ks := by
  have hbase : ([1, 2, 3, 4, 5, 6, 7, 8] : List Nat).Pairwise (· < ·) := by decide
  apply List.eq_of_perm_of_sorted (r := (· < ·))
  · rw [List.perm_ext_iff_of_nodup]
    · intro a
      simp only [List.mem_filter, decide_eq_true_eq]
      constructor
      · exact fun h => h.2
      · intro h
        refine ⟨?_, h⟩
        have := hr a h
        have h8 : a = 1 ∨ a = 2 ∨ a = 3 ∨ a = 4 ∨ a = 5 ∨ a = 6 ∨ a = 7 ∨ a = 8 := by omega
        rcases h8 with h | h | h | h | h | h | h | h <;> simp [h]
    · exact (hbase.imp (fun h => Nat.ne_of_lt h)).filter _
    · exact hs.imp (fun h => Nat.ne_of_lt h)
  · exact hbase.filter _
  · exact hs

theorem testBit_field (S q x dd a n j : Nat) (hj1 : 1 ≤ j) (hj8 : j ≤ 8)
    (hx : x ≤ 1) (ha : a ≤ 1) (hn : n < 16384)
    (hS : S = 2147483648 + 16777216 * dd + 65536 * q + 32768 * a + 16384 * x + n) :
    S.testBit (15 + j) = (65536 * q + 16384 * x).testBit (15 + j) := by
  simp only [Nat.testBit_to_div_mod, decide_eq_decide]
  subst hS
  have h8 : j = 1 ∨ j = 2 ∨ j = 3 ∨ j = 4 ∨ j = 5 ∨ j = 6 ∨ j = 7 ∨ j = 8 := by omega
  rcases h8 with h | h | h | h | h | h | h | h <;> subst h <;> norm_num <;> omega

theorem modifiersOf_jAddress (dd : Nat) (ks : List Nat) (k : ElemKind) (n : Nat)
    (hdd : dd ≤ 99) (hm : (ModPart.M ks).Valid) (hn : n ≤ 0x3FFF) :
    modifiersOf (jAddress dd (.M ks) k n) = ks := by
  obtain ⟨q, x, a, _, hx, ha, _, _, hbits, hsum⟩ :=
    jAddress_sum dd (.M ks) k n hdd hm.inRange hn
  refine Eq.trans ?_ (filter_mem_sorted ks hm.1 hm.2)
  unfold modifiersOf
  apply List.filter_congr
  intro j hj
  have hj18 : 1 ≤ j ∧ j ≤ 8 := by
    simp only [List.mem_cons, List.mem_singleton, List.not_mem_nil, or_false] at hj
    omega
  rw [testBit_field _ q x dd a n j hj18.1 hj18.2 hx ha (by omega) hsum, ← hbits]
  simp only [ModPart.bits]
  rw [Bool.eq_iff_iff, testBit_modBits]
  simp only [decide_eq_true_eq]
  constructor
  · rintro ⟨k1, hk1, he⟩
    have : j = k1 := by omega
    rw [this]; exact hk1
  · intro h
    exact ⟨j, h, rfl⟩

theorem decode_jAddress (PPB PBB dd : Nat) (m : ModPart) (k : ElemKind) (n : Nat)
    (hl : PseudoLayout PPB PBB) (hdd : dd ≤ 63) (hm : m.Valid) (hn : n ≤ 0x3FFF) :
    decode PPB PBB (jAddress dd m k n) = jDescriptor dd m k (decimal n) := by
  obtain ⟨q, x, a, hq, hx, ha, hxm, hak, hbits, hsum⟩ :=
    jAddress_sum dd m k n (by omega) hm.inRange hn
  obtain ⟨hl1, hl2, hl3⟩ := hl
  have hlt : jAddress dd m k n < 3221225472 := by rw [hsum]; omega
  have hdev : jAddress dd m k n / 16777216 % 64 = dd := by rw [hsum]; omega
  have hidx : jAddress dd m k n % 16384 = n := by rw [hsum]; omega
  have h14 : (jAddress dd m k n).testBit 14 = decide (x = 1) := by
    rw [Nat.testBit_to_div_mod, decide_eq_decide, hsum]
    norm_num
    omega
  have h15 : (jAddress dd m k n).testBit 15 = decide (a = 1) := by
    rw [Nat.testBit_to_div_mod, decide_eq_decide, hsum]
    norm_num
    omega
  have hp : ¬ (PPB ≤ jAddress dd m k n ∧ jAddress dd m k n < PPB + 8) := by
    omega
  have hb : ¬ (PBB ≤ jAddress dd m k n ∧ jAddress dd m k n < PBB + 256) := by
    omega
  unfold decode
  rw [if_neg hp, if_neg hb, hdev, hidx, h14, h15]
  have hk : (if decide (a = 1) = true then ElemKind.Axis else ElemKind.B) = k := by
    cases k with
    | Axis => have := hak.2 rfl; simp [this]
    | B =>
      have : a ≠ 1 := fun h => by have := hak.1 h; cases this
      simp [this]
  have hmm : (if decide (x = 1) = true then ModPart.X
      else ModPart.M (modifiersOf (jAddress dd m k n))) = m := by
    cases m with
    | X => have := hxm.2 rfl; simp [this]
    | M ks =>
      have : x ≠ 1 := fun h => by have := hxm.1 h; cases this
      simp only [this, decide_False, Bool.false_eq_true, if_false]
      rw [modifiersOf_jAddress dd ks k n (by omega) hm hn]
  rw [hk, hmm]

/-- On a `J` descriptor of the grammar the decoded text of its address is the
descriptor with the element index in canonical decimal, and it is mapped by
the same call. -/
theorem decode_roundtrip_J (PPB PBB dd : Nat) (m : ModPart) (k : ElemKind) (ds : List Char)
    (hl : PseudoLayout PPB PBB) (hdd : dd ≤ 63) (hm : m.Valid) (hnum : IsNumeral ds)
    (hv : decVal ds ≤ 0x3FFF) :
    decode PPB PBB (jAddress dd m k (decVal ds)) = jDescriptor dd m k (decimal (decVal ds)) ∧
    S9xMapInputCall PPB PBB (decode PPB PBB (jAddress dd m k (decVal ds))) =
      S9xMapInputCall PPB PBB (jDescriptor dd m k ds) := by
  have hd := decode_jAddress PPB PBB dd m k (decVal ds) hl hdd hm hv
  have hs := decimal_spec (decVal ds)
  refine ⟨hd, ?_⟩
  rw [hd, mapInputCall_valid PPB PBB dd m k ds (by omega) hm hnum hv,
    mapInputCall_valid PPB PBB dd m k _ (by omega) hm hs.1 (by rw [hs.2]; exact hv), hs.2]

/-- No `J` descriptor of the grammar (device index at most 63) is mapped on
`0xC0000000`, the address `S9xMapInput` gives `J64:B0`. -/
theorem no_descriptor_for_bit30 (PPB PBB dd : Nat) (m : ModPart) (k : ElemKind)
    (ds : List Char) (hdd : dd ≤ 63) (hm : m.Valid) (hnum : IsNumeral ds)
    (hv : decVal ds ≤ 0x3FFF) :
    S9xMapInputCall PPB PBB (jDescriptor dd m k ds) ≠ .S9xMapButton 0xC0000000 := by
  rw [mapInputCall_valid PPB PBB dd m k ds (by omega) hm hnum hv]
  obtain ⟨q, x, a, hq, hx, ha, _, _, _, hsum⟩ :=
    jAddress_sum dd m k (decVal ds) (by omega) hm.inRange hv
  intro h
  have h2 := congrArg MapCall.address? h
  rw [address_jCall] at h2
  simp only [MapCall.address?, Option.some.injEq] at h2
  rw [hsum] at h2
  omega

/-- The decoded text of the address of `PseudoButton<n>`, `n` at most 255, is
mapped by the same call. -/
theorem decode_roundtrip_pseudoButton (PPB PBB : Nat) (ds : List Char)
    (hl : PseudoLayout PPB PBB) (hnum : IsNumeral ds) (hv : decVal ds ≤ 255) :
    S9xMapInputCall PPB PBB (strPseudoButton ++ ds) = .S9xMapButton (PBB + decVal ds) ∧
    S9xMapInputCall PPB PBB (decode PPB PBB (PBB + decVal ds)) =
      .S9xMapButton (PBB + decVal ds) := by
  obtain ⟨hl1, hl2, hl3⟩ := hl
  have hs := decimal_spec (decVal ds)
  have hmod : (PBB + decVal ds) % 4294967296 = PBB + decVal ds :=
    Nat.mod_eq_of_lt (by omega)
  have hp : ¬ (PPB ≤ PBB + decVal ds ∧ PBB + decVal ds < PPB + 8) := by omega
  have hb : PBB ≤ PBB + decVal ds ∧ PBB + decVal ds < PBB + 256 := by omega
  have hsub : PBB + decVal ds - PBB = decVal ds := by omega
  have h256 : decVal ds < 256 := by omega
  refine ⟨?_, ?_⟩
  · rw [mapInputCall_pseudoButton PPB PBB ds hnum (by omega), if_pos h256, hmod]
  · unfold decode
    rw [if_neg hp, if_pos hb, hsub,
      mapInputCall_pseudoButton PPB PBB _ hs.1 (by rw [hs.2]; omega), hs.2, if_pos h256, hmod]

/-- The decoded text of the address of `PseudoPointer<c>`, `c` in `1..8`, is
the descriptor itself. -/
theorem decode_roundtrip_pseudoPointer (PPB PBB : Nat) (c : Char)
    (hl : PseudoLayout PPB PBB) (hc : is1to8 c = true) :
    S9xMapInputCall PPB PBB (strPseudoPointer ++ [c]) =
      .S9xMapPointer (PPB + (c.toNat - '1'.toNat)) ∧
    decode PPB PBB (PPB + (c.toNat - '1'.toNat)) = strPseudoPointer ++ [c] := by
  obtain ⟨hl1, hl2, hl3⟩ := hl
  simp only [is1to8, Bool.and_eq_true, decide_eq_true_eq] at hc
  have h1 : '1'.toNat = 49 := rfl
  have h8 : '8'.toNat = 56 := rfl
  rw [h1, h8] at hc
  rw [h1]
  have hnat : isNativePseudoPointer (strPseudoPointer ++ [c]) = true := by
    have e13 : charAt (strPseudoPointer ++ [c]) 13 = c := rfl
    have e14 : charAt (strPseudoPointer ++ [c]) 14 = NUL := rfl
    simp only [isNativePseudoPointer, e13, e14, h1, h8, Bool.and_eq_true, decide_eq_true_eq,
      beq_self_eq_true, and_true]
    exact ⟨⟨by simp [strncmpEq, strPseudoPointer, List.isPrefixOf], hc.1⟩, hc.2⟩
  refine ⟨?_, ?_⟩
  · have e13 : charAt (strPseudoPointer ++ [c]) 13 = c := rfl
    unfold S9xMapInputCall
    rw [if_pos hnat, e13, h1, Nat.mod_eq_of_lt (by omega)]
  · have hp : PPB ≤ PPB + (c.toNat - 49) ∧ PPB + (c.toNat - 49) < PPB + 8 := by omega
    unfold decode
    rw [if_pos hp]
    have hsub : PPB + (c.toNat - 49) - PPB + 1 = c.toNat - 48 := by omega
    rw [hsub]
    have hch : decChar (c.toNat - 48) = c := by
      unfold decChar
      have h0 : '0'.toNat = 48 := rfl
      rw [h0, show 48 + (c.toNat - 48) = c.toNat by omega]
      exact Char.ofNat_toNat c
    rw [hch]

/-- The constants of the specification's address space have the layout the
decoder facts assume. -/
theorem specControls_layout :
    PseudoLayout specControls.PseudoPointerBase specControls.PseudoButtonBase := by
  unfold PseudoLayout
  decide

/-! ## C17: encode and decode -/

/-- C17: the address `0xC0000000`, which `S9xMapInput` produces from `J64:B0`,
decodes to `J00:B0`, and that text is mapped on `0x80000000`; the address
`0xFFFFFFFF`, produced from `J00:B-1`, decodes to `J63:X+Axis16383`, which is
mapped on `0xBF00FFFF`. The address `0xBF833FFF` of the grammar descriptor
`J63:M1+M2+M8+B16383` decodes to that text and is mapped back on itself. -/
theorem C17_roundtrip_breaks :
    S9xMapInputCall specControls.PseudoPointerBase specControls.PseudoButtonBase
        ['J', '6', '4', ':', 'B', '0'] = .S9xMapButton 0xC0000000
    ∧ decode specControls.PseudoPointerBase specControls.PseudoButtonBase 0xC0000000
        = ['J', '0', '0', ':', 'B', '0']
    ∧ S9xMapInputCall specControls.PseudoPointerBase specControls.PseudoButtonBase
        (decode specControls.PseudoPointerBase specControls.PseudoButtonBase 0xC0000000)
        = .S9xMapButton 0x80000000
    ∧ S9xMapInputCall specControls.PseudoPointerBase specControls.PseudoButtonBase
        ['J', '0', '0', ':', 'B', '-', '1'] = .S9xMapAxis 0xFFFFFFFF
    ∧ decode specControls.PseudoPointerBase specControls.PseudoButtonBase 0xFFFFFFFF
        = ['J', '6', '3', ':', 'X', '+', 'A', 'x', 'i', 's', '1', '6', '3', '8', '3']
    ∧ S9xMapInputCall specControls.PseudoPointerBase specControls.PseudoButtonBase
        (decode specControls.PseudoPointerBase specControls.PseudoButtonBase 0xFFFFFFFF)
        = .S9xMapAxis 0xBF00FFFF
    ∧ S9xMapInputCall specControls.PseudoPointerBase specControls.PseudoButtonBase
        (decode specControls.PseudoPointerBase specControls.PseudoButtonBase 0xBF833FFF)
        = .S9xMapButton 0xBF833FFF := by
  refine ⟨?_, ?_, ?_, ?_, ?_, ?_, ?_⟩ <;> decide

/-! ## C21: the masks of `ToggleMeta` -/

/-- C21: `S9xGetPortCommandT` on `JS1 ToggleMeta3` returns the button-port
command with `port[1] = 1`, `port[2] = 0` and `port[3] = 0`, not the mask 4
that `JS1 Meta3` yields: the shift count is taken from `n[13]`, the letter `a`,
and is 48, so the byte stored is 0 (also when the count is reduced modulo 32).
For every `p` and `k` in `1..8` the command of `JS<p> ToggleMeta<k>` has
`port[1] = 1`, `port[2] = p - 1` and `port[3] = 0`, while `JS<p> Meta<k>` has
`port[3] = 1 << (k - 1)`; `ToggleMeta1` and `ToggleMeta2` give the same
command. -/
theorem C21_toggleMeta_mask_zero :
    S9xGetPortCommandT (toggleMetaName '1' '3') = buttonPort 1 0 0
    ∧ toggleMetaName '1' '3' =
        ['J', 'S', '1', ' ', 'T', 'o', 'g', 'g', 'l', 'e', 'M', 'e', 't', 'a', '3']
    ∧ S9xGetPortCommandT (metaName '1' '3') = buttonPort 0 0 4
    ∧ charAt (toggleMetaName '1' '3') 13 = 'a'
    ∧ toggleShiftCount (toggleMetaName '1' '3') = 48
    ∧ (1 <<< (toggleShiftCount (toggleMetaName '1' '3') % 32)) % 256 = 0
    ∧ (modifierDigits.all fun p => modifierDigits.all fun k =>
        decide (S9xGetPortCommandT (toggleMetaName p k)
          = buttonPort 1 (p.toNat - '1'.toNat) 0)) = true
    ∧ (modifierDigits.all fun p => modifierDigits.all fun k =>
        decide (S9xGetPortCommandT (metaName p k)
          = buttonPort 0 (p.toNat - '1'.toNat) (1 <<< (k.toNat - '1'.toNat)))) = true
    ∧ S9xGetPortCommandT (toggleMetaName '1' '1')
        = S9xGetPortCommandT (toggleMetaName '1' '2') := by
  refine ⟨?_, ?_, ?_, ?_, ?_, ?_, ?_, ?_, ?_⟩ <;> decide

end Snes9x
